import Mathlib

/-!
# The hook registry of mutt (`hook.c`)

A shallow embedding of `hook.c`: the registry `Hooks` (a singly linked list of
`HOOK` nodes), registration (`mutt_parse_hook`), removal (`delete_hooks`,
`mutt_parse_unhook`) and the dispatchers that walk the registry.

Conventions of the embedding.

* A C string (`char *`) is an `Option (List Char)`: `none` is the `NULL`
  pointer, `some cs` the characters before the terminating NUL.
* The linked list `Hooks` is a `List HOOK`; the `next` pointer of a node is
  the node that follows it in the list.  Each node carries the address it
  was allocated at (`addr`), which is how a dispatcher that holds a `HOOK *`
  across a call to the command interpreter finds its node again.
* Everything `hook.c` calls but does not define (tokenizer, path expansion,
  regex and pattern compilers and matchers, the hook type constants of
  `mutt.h`) is a field of `Env`; the theorems hold for every `Env`.
* Static variables (`Hooks`, `current_hook_type`, `inhook`) are fields of
  `State`, which is passed explicitly.
-/

namespace Hook

/-- A C string: `none` is `NULL`. -/
abbrev cstr := Option (List Char)

/-- The ways in which a run of the C code has no result: a `NULL` pointer is
dereferenced by `hook.c` itself, a freed `HOOK` node is read, or the model's
step budget for a loop is used up. -/
inductive Fault where
  | null_deref
  | use_after_free
  | out_of_fuel
deriving DecidableEq, Repr

/-- Outcome of running a C function: its result, or a `Fault`. -/
inductive Run (α : Type) where
  | done (a : α)
  | fault (f : Fault)
deriving DecidableEq, Repr

/-- Sequencing of runs: a fault in the first part is the fault of the whole. -/
def Run.bind {α β : Type} (r : Run α) (k : α → Run β) : Run β :=
  match r with
  | .done a => k a
  | .fault f => .fault f

/-- Compiled POSIX regular expression (`regex_t`); only `REGCOMP` builds one
and only `regexec` looks inside. -/
structure regex_t where
  prog : List Char
deriving DecidableEq, Repr

/-- Compiled message pattern (`pattern_t`); only `mutt_pattern_comp` builds
one and only `mutt_pattern_exec` looks inside. -/
structure pattern_t where
  prog : List Char
deriving DecidableEq, Repr

/-- The `REGEXP` of `mutt.h`: source text, compiled regex, negation flag.
The flag is an `int` that only ever holds 0 or 1. -/
structure REGEXP where
  pattern : cstr
  rx : Option regex_t
  not : Bool
deriving DecidableEq, Repr

/-- The `HOOK` node (hook.c:37-44).  `addr` is the address of the node; `next`
is given by the position in the list that holds the node. -/
structure HOOK where
  addr : Nat
  type : Nat
  rx : REGEXP
  command : cstr
  pattern : Option pattern_t
deriving DecidableEq, Repr

/-- The static variables of `hook.c`: `Hooks` (line 46), `current_hook_type`
(line 48), `inhook` (line 524), together with the address `safe_calloc` will
hand out for the next `HOOK` node (addresses are never handed out twice, so
a pointer to a freed node is never mistaken for a live one). -/
structure State where
  Hooks : List HOOK
  current_hook_type : Nat
  inhook : Bool
  heap_next : Nat
deriving DecidableEq, Repr

/-- The hook type constants of `mutt.h` (not part of the sources at hand). -/
structure HookTypes where
  MUTT_FOLDERHOOK : Nat
  MUTT_MBOXHOOK : Nat
  MUTT_SENDHOOK : Nat
  MUTT_FCCHOOK : Nat
  MUTT_SAVEHOOK : Nat
  MUTT_CHARSETHOOK : Nat
  MUTT_ICONVHOOK : Nat
  MUTT_MESSAGEHOOK : Nat
  MUTT_CRYPTHOOK : Nat
  MUTT_ACCOUNTHOOK : Nat
  MUTT_REPLYHOOK : Nat
  MUTT_SEND2HOOK : Nat
  MUTT_OPENHOOK : Nat
  MUTT_APPENDHOOK : Nat
  MUTT_CLOSEHOOK : Nat
deriving DecidableEq, Repr

/-- Everything `hook.c` uses but does not define: constants and build options
of the headers, global configuration variables, and the functions of the
tokenizer, the path utilities, and the regex and pattern libraries. -/
structure Env extends HookTypes where
  /-- Build option `USE_COMPRESSED`. -/
  USE_COMPRESSED : Bool
  /-- The constant `WithCrypto` (non-zero when crypto support is built in). -/
  WithCrypto : Nat
  MUTT_TOKEN_SPACE : Nat
  MUTT_FULL_MSG : Nat
  REG_ICASE : Nat
  /-- Size of the `path` buffers. -/
  _POSIX_PATH_MAX : Nat
  /-- Size of the `tmp` buffer of line 128. -/
  HUGE_STRING : Nat
  /-- Global `CurrentFolder`. -/
  CurrentFolder : cstr
  /-- Global `DefaultHook` (`$default_hook`). -/
  DefaultHook : cstr
  /-- Macro `SKIPWS (s->dptr)` of `lib.h`: the text `s->dptr` is left at. -/
  SKIPWS : List Char → List Char
  /-- Macro `strfcpy (dst, src, n)` of `lib.h`: the content of `dst`. -/
  strfcpy : List Char → Nat → List Char
  /-- Function `safe_strdup` of `lib.c`: the copy, or `NULL`. -/
  safe_strdup : List Char → cstr
  /-- Macro `MoreArgs (s)`, applied to the text at `s->dptr`. -/
  MoreArgs : List Char → Bool
  /-- Function `mutt_extract_token (dest, s, flags)` on the text at `s->dptr`:
  the resulting `dest->data` and the text `s->dptr` is left at. -/
  mutt_extract_token : List Char → Nat → cstr × List Char
  /-- Function `_mutt_expand_path (buf, size, rx)`: new content of `buf`. -/
  _mutt_expand_path : List Char → Nat → Nat → List Char
  /-- Function `mutt_expand_path (buf, size)`: new content of `buf`. -/
  mutt_expand_path : List Char → Nat → List Char
  /-- Function `mutt_check_simple (buf, size, simple)`: new content of `buf`. -/
  mutt_check_simple : List Char → Nat → List Char → List Char
  /-- Function `mutt_comp_valid_command (cmd)`. -/
  mutt_comp_valid_command : List Char → Int
  /-- Function `mutt_pattern_comp (s, flags, err)`: the compiled pattern, or the
  text written to `err` together with a `NULL` result. -/
  mutt_pattern_comp : cstr → Nat → Except String pattern_t
  /-- Macro `REGCOMP (rx, pat, cflags)`: the compiled regex (return code 0) or
  a non-zero return code. -/
  REGCOMP : List Char → Nat → Except Int regex_t
  /-- Function `regerror`: the text for a return code of `REGCOMP`. -/
  regerror : Int → String
  /-- Function `regexec (rx, string, 0, NULL, 0)`; `rx` is passed on as it is
  stored in the node, also when it is `NULL`. -/
  regexec : Option regex_t → cstr → Int
  /-- Function `mutt_get_hook_type (name)` of `init.c`. -/
  mutt_get_hook_type : cstr → Nat

/-- What a command function returns: its return code, the text it wrote to
`err->data` (if it wrote any), and the static variables afterwards. -/
structure Ret where
  rc : Int
  err : Option String
  st : State
deriving DecidableEq, Repr

/-- Modelled from the spec: macro `NONULL` of `lib.h` (not among the sources
at hand); a `NULL` string is read as the empty string. -/
def NONULL (s : cstr) : List Char := s.getD []

/-- Modelled from the spec: `mutt_strcmp` of `lib.c` (not among the sources at
hand) is the equality test the registry uses on pattern source text and on
command text, `NULL` counting as the empty string.  Only its being zero or
not is ever used, so the result is 0 for equal strings and 1 otherwise. -/
def mutt_strcmp (a b : cstr) : Int :=
  if NONULL a = NONULL b then 0 else 1

/-- The arguments of a registration once lines 59-148 are through: the
negation flag `not`, `pattern.data` and `command.data`. -/
structure Args where
  not : Bool
  pattern : cstr
  command : cstr
deriving DecidableEq, Repr

/-- How lines 59-148 of `mutt_parse_hook` end: at the `error` label (or the
`return -1` of line 120) with a text in `err`, or at line 150 with the
arguments in hand. -/
inductive Parsed where
  | error (msg : String)
  | args (a : Args)
deriving DecidableEq, Repr

/-- The hook types that allow several commands for one pattern (line 157). -/
def multi_mask (k : HookTypes) : Nat :=
  k.MUTT_FOLDERHOOK ||| k.MUTT_SENDHOOK ||| k.MUTT_SEND2HOOK ||| k.MUTT_MESSAGEHOOK |||
    k.MUTT_ACCOUNTHOOK ||| k.MUTT_REPLYHOOK ||| k.MUTT_CRYPTHOOK

/-- Lines 91-139 of `mutt_parse_hook`: the pattern text is normalised
according to the hook type; the result is the new `pattern.data`, or the text
for `err`.  Reading `*pattern.data` or copying from it when it is `NULL` is a
fault. -/
def normalize_pattern (env : Env) (data : Nat) (pattern : cstr) (command : List Char) :
    Run (Except String cstr) :=
  if data &&& (env.MUTT_FOLDERHOOK ||| env.MUTT_MBOXHOOK) ≠ 0 then
    match pattern with
    | none => .fault .null_deref
    | some p =>
      if p.head? = some '^' ∧ env.CurrentFolder = none then
        .done (.error "current mailbox shortcut '^' is unset")
      else
        let path := env._mutt_expand_path (env.strfcpy p env._POSIX_PATH_MAX) env._POSIX_PATH_MAX 1
        if path = [] ∧ p ≠ [] then
          .done (.error "mailbox shortcut expanded to empty regexp")
        else .done (.ok (env.safe_strdup path))
  else if env.USE_COMPRESSED = true ∧
      data &&& (env.MUTT_APPENDHOOK ||| env.MUTT_OPENHOOK ||| env.MUTT_CLOSEHOOK) ≠ 0 then
    if env.mutt_comp_valid_command command = 0 then
      .done (.error "badly formatted command string")
    else .done (.ok pattern)
  else if env.DefaultHook ≠ none ∧
      ¬ (data &&& (env.MUTT_CHARSETHOOK ||| env.MUTT_ICONVHOOK ||| env.MUTT_ACCOUNTHOOK) ≠ 0) ∧
      (¬ (env.WithCrypto ≠ 0) ∨ ¬ (data &&& env.MUTT_CRYPTHOOK ≠ 0)) then
    match pattern with
    | none => .fault .null_deref
    | some p =>
      let tmp := env.mutt_check_simple (env.strfcpy p env.HUGE_STRING) env.HUGE_STRING
        (NONULL env.DefaultHook)
      .done (.ok (env.safe_strdup tmp))
  else .done (.ok pattern)

/-- Lines 59-148 of `mutt_parse_hook`: the leading `!`, the two tokens, the
argument count, and the normalisation of pattern and command. -/
def hook_args (env : Env) (s : List Char) (data : Nat) : Run Parsed :=
  -- lines 62-67
  let not : Bool := s.head? = some '!'
  let s1 := if not then env.SKIPWS s.tail else s
  -- line 69
  let (pattern, s2) := env.mutt_extract_token s1 0
  -- lines 71-75
  if ¬ env.MoreArgs s2 then .done (.error "too few arguments")
  else
    -- line 77
    let flags := if data &&& (env.MUTT_FOLDERHOOK ||| env.MUTT_SENDHOOK ||| env.MUTT_SEND2HOOK |||
      env.MUTT_ACCOUNTHOOK ||| env.MUTT_REPLYHOOK) ≠ 0 then env.MUTT_TOKEN_SPACE else 0
    let (command, s3) := env.mutt_extract_token s2 flags
    match command with
    -- lines 79-83
    | none => .done (.error "too few arguments")
    | some cmd =>
      -- lines 85-89
      if env.MoreArgs s3 then .done (.error "too many arguments")
      else
        -- lines 91-139
        (normalize_pattern env data pattern cmd).bind fun r =>
          match r with
          | .error msg => .done (.error msg)
          | .ok pattern1 =>
            -- lines 141-148
            if data &&& (env.MUTT_MBOXHOOK ||| env.MUTT_SAVEHOOK ||| env.MUTT_FCCHOOK) ≠ 0 then
              let path := env.mutt_expand_path (env.strfcpy cmd env._POSIX_PATH_MAX)
                env._POSIX_PATH_MAX
              .done (.args ⟨not, pattern1, env.safe_strdup path⟩)
            else .done (.args ⟨not, pattern1, some cmd⟩)

/-- The loop of lines 151-184 over the list starting at `ptr`.  `some l`: the
function returned 0 from inside the loop (line 166 or line 179) and the list
is now `l`; `none`: the loop ran to the last node without returning. -/
def scan_hooks (env : Env) (data : Nat) (a : Args) : List HOOK → Option (List HOOK)
  | [] => none
  | ptr :: rest =>
    if ptr.type = data ∧ ptr.rx.not = a.not ∧ mutt_strcmp a.pattern ptr.rx.pattern = 0 then
      if data &&& multi_mask env.toHookTypes ≠ 0 then
        if mutt_strcmp ptr.command a.command = 0 then some (ptr :: rest)
        else (scan_hooks env data a rest).map (ptr :: ·)
      else some ({ ptr with command := a.command } :: rest)
    else (scan_hooks env data a rest).map (ptr :: ·)

/-- Lines 186-207 of `mutt_parse_hook`: compile the matcher for the hook type,
a pattern (`pat`) or a regex (`rx`); on failure the text for `err`. -/
def compile_matcher (env : Env) (data : Nat) (pattern : cstr) :
    Except String (Option pattern_t × Option regex_t) :=
  if data &&& (env.MUTT_SENDHOOK ||| env.MUTT_SEND2HOOK ||| env.MUTT_SAVEHOOK |||
      env.MUTT_FCCHOOK ||| env.MUTT_MESSAGEHOOK ||| env.MUTT_REPLYHOOK) ≠ 0 then
    match env.mutt_pattern_comp pattern
        (if data &&& (env.MUTT_SENDHOOK ||| env.MUTT_SEND2HOOK ||| env.MUTT_FCCHOOK) ≠ 0 then 0
         else env.MUTT_FULL_MSG) with
    | .error msg => .error msg
    | .ok pat => .ok (some pat, none)
  else
    match env.REGCOMP (NONULL pattern)
        (if data &&& (env.MUTT_CRYPTHOOK ||| env.MUTT_CHARSETHOOK ||| env.MUTT_ICONVHOOK) ≠ 0
         then env.REG_ICASE else 0) with
    | .error rc => .error (env.regerror rc)
    | .ok rx => .ok (none, some rx)

/-- Function `mutt_parse_hook (buf, s, data, err)` (hook.c:50-228); `s` is the
text at `s->dptr`, `buf` is not used by the function. -/
def mutt_parse_hook (env : Env) (s : List Char) (data : Nat) (st : State) : Run Ret :=
  (hook_args env s data).bind fun r =>
    match r with
    | .error msg => .done ⟨-1, some msg, st⟩
    | .args a =>
      -- lines 150-184
      match scan_hooks env data a st.Hooks with
      | some l => .done ⟨0, none, { st with Hooks := l }⟩
      | none =>
        -- lines 186-207
        match compile_matcher env data a.pattern with
        | .error msg => .done ⟨-1, some msg, st⟩
        | .ok (pat, rx) =>
          -- lines 209-222
          .done ⟨0, none, { st with
            Hooks := st.Hooks ++ [⟨st.heap_next, data, ⟨a.pattern, rx, a.not⟩, a.command, pat⟩],
            heap_next := st.heap_next + 1 }⟩

/-- First loop of `delete_hooks` (lines 248-252): nodes are taken off the
front of the list while `type` is 0 or equals their type. -/
def delete_hooks_front (type : Nat) : List HOOK → List HOOK
  | [] => []
  | h :: rest => if type = 0 ∨ type = h.type then delete_hooks_front type rest else h :: rest

/-- Second loop of `delete_hooks` (lines 256-266), from the node `h` on: a
node whose type equals `type` is unlinked, any other node is kept (and
becomes `prev`). -/
def delete_hooks_rest (type : Nat) : List HOOK → List HOOK
  | [] => []
  | h :: rest =>
    if type = h.type then delete_hooks_rest type rest else h :: delete_hooks_rest type rest

/-- Function `delete_hooks (type)` (hook.c:243-267), on the list `Hooks`. -/
def delete_hooks (type : Nat) (Hooks : List HOOK) : List HOOK :=
  delete_hooks_rest type (delete_hooks_front type Hooks)

/-- Function `mutt_parse_unhook (buf, s, data, err)` (hook.c:269-305); `s` is
the text at `s->dptr`.  The first argument bounds the number of times the
`while` loop is entered. -/
def mutt_parse_unhook (env : Env) : Nat → List Char → State → Run Ret
  | 0, _, _ => .fault .out_of_fuel
  | fuel + 1, s, st =>
    if env.MoreArgs s then
      let (buf, s1) := env.mutt_extract_token s 0
      if mutt_strcmp (some ['*']) buf = 0 then
        if st.current_hook_type ≠ 0 then
          .done ⟨-1, some "unhook: Can't do unhook * from within a hook.", st⟩
        else mutt_parse_unhook env fuel s1 { st with Hooks := delete_hooks 0 st.Hooks }
      else
        let type := env.mutt_get_hook_type buf
        if type = 0 then
          .done ⟨-1, some ("unhook: unknown hook type: " ++ String.mk (NONULL buf)), st⟩
        else if st.current_hook_type = type then
          .done ⟨-1, some ("unhook: Can't delete a " ++ String.mk (NONULL buf) ++ " from within a "
            ++ String.mk (NONULL buf) ++ "."), st⟩
        else mutt_parse_unhook env fuel s1 { st with Hooks := delete_hooks type st.Hooks }
    else .done ⟨0, none, st⟩

/-- The `type` arguments of the calls of `delete_hooks` that the loop of
`mutt_parse_unhook` makes, in the order of the calls, when `current_hook_type`
is `active`: one for each argument before the first that is refused (and 0 for
a `*`). -/
def unhook_types (env : Env) (active : Nat) : Nat → List Char → List Nat
  | 0, _ => []
  | fuel + 1, s =>
    if env.MoreArgs s then
      if mutt_strcmp (some ['*']) (env.mutt_extract_token s 0).1 = 0 then
        if active ≠ 0 then []
        else 0 :: unhook_types env active fuel (env.mutt_extract_token s 0).2
      else if env.mutt_get_hook_type (env.mutt_extract_token s 0).1 = 0 then []
      else if active = env.mutt_get_hook_type (env.mutt_extract_token s 0).1 then []
      else env.mutt_get_hook_type (env.mutt_extract_token s 0).1 ::
        unhook_types env active fuel (env.mutt_extract_token s 0).2
    else []

/-- The states that registrations and removals produce from a start with no
hooks: any sequence of calls of `mutt_parse_hook` and `mutt_parse_unhook`, in
any environment that has the hook type constants `k`, with `current_hook_type`
and `inhook` taking any values in between (dispatch passes set and clear
them). -/
inductive Reachable (k : HookTypes) : State → Prop where
  | start (n : Nat) : Reachable k ⟨[], 0, false, n⟩
  | parse_hook (env : Env) (s : List Char) (data : Nat) (st : State) (r : Ret) :
      env.toHookTypes = k → Reachable k st → mutt_parse_hook env s data st = .done r →
      Reachable k r.st
  | parse_unhook (env : Env) (fuel : Nat) (s : List Char) (st : State) (r : Ret) :
      Reachable k st → mutt_parse_unhook env fuel s st = .done r → Reachable k r.st
  | dispatch (st : State) (type : Nat) (inhook : Bool) :
      Reachable k st → Reachable k { st with current_hook_type := type, inhook := inhook }

/-- Two nodes that the scan of lines 153-162 cannot tell apart: same type, same
negation flag, same pattern text and, for a multi-command type, same command
text. -/
def clash (k : HookTypes) (p q : HOOK) : Prop :=
  p.type = q.type ∧ p.rx.not = q.rx.not ∧ NONULL p.rx.pattern = NONULL q.rx.pattern ∧
    (p.type &&& multi_mask k ≠ 0 → NONULL p.command = NONULL q.command)

/-- The command interpreter `mutt_parse_rc_line (line, token, err)`, which is
not part of `hook.c`: its return code and the static variables of `hook.c`
as the execution of the line leaves them (a line may itself register or
remove hooks, or trigger a dispatch). -/
abbrev Interp := List Char → State → Int × State

/-- A dispatcher's result: the command lines it handed to the interpreter, in
the order of the calls, and the static variables afterwards. -/
abbrev Pass := List (List Char) × State

/-- Puts a command line in front of the lines a later part of a pass hands to
the interpreter. -/
def Run.after (cmd : List Char) (r : Run Pass) : Run Pass :=
  r.bind fun p => .done (cmd :: p.1, p.2)

/-- Reading `tmp->next` for the node at address `a`: the node that follows it
in `Hooks` (`none` for `NULL`).  When no node of the list has that address the
node has been freed. -/
def hook_next (a : Nat) : List HOOK → Run (Option HOOK)
  | [] => .fault .use_after_free
  | h :: rest => if h.addr = a then .done rest.head? else hook_next a rest

/-- The `for` loop of `mutt_folder_hook` (lines 318-339) from the node `tmp`
on, followed by lines 340-343.  The first argument bounds the number of nodes
visited. -/
def folder_hook_loop (env : Env) (rc_line : Interp) (path : cstr) :
    Nat → Option HOOK → State → Run Pass
  | 0, _, _ => .fault .out_of_fuel
  | _ + 1, none, st => .done ([], { st with current_hook_type := 0 })
  | fuel + 1, some tmp, st =>
    let continue_ (st1 : State) : Run Pass :=
      (hook_next tmp.addr st1.Hooks).bind fun nx => folder_hook_loop env rc_line path fuel nx st1
    match tmp.command with
    | none => continue_ st
    | some cmd =>
      if tmp.type &&& env.MUTT_FOLDERHOOK ≠ 0 ∧
          (decide (env.regexec tmp.rx.rx path = 0) ^^ tmp.rx.not) = true then
        let r := rc_line cmd st
        if r.1 = -1 then .done ([cmd], { r.2 with current_hook_type := 0 })
        else (continue_ r.2).after cmd
      else continue_ st

/-- Function `mutt_folder_hook (path)` (hook.c:307-344). -/
def mutt_folder_hook (env : Env) (rc_line : Interp) (fuel : Nat) (path : cstr) (st : State) :
    Run Pass :=
  folder_hook_loop env rc_line path fuel st.Hooks.head?
    { st with current_hook_type := env.MUTT_FOLDERHOOK }

/-- Function `mutt_find_hook (type, pat)` (hook.c:346-357), on the list
`Hooks`. -/
def mutt_find_hook (env : Env) (type : Nat) (pat : cstr) : List HOOK → cstr
  | [] => none
  | tmp :: rest =>
    if tmp.type &&& type ≠ 0 then
      if env.regexec tmp.rx.rx pat = 0 then tmp.command
      else mutt_find_hook env type pat rest
    else mutt_find_hook env type pat rest

/-- The `for` loop of `mutt_account_hook` (lines 538-560) from the node `hook`
on, followed by lines 562-563.  The first argument bounds the number of nodes
visited. -/
def account_hook_loop (env : Env) (rc_line : Interp) (url : cstr) :
    Nat → Option HOOK → State → Run Pass
  | 0, _, _ => .fault .out_of_fuel
  | _ + 1, none, st => .done ([], st)
  | fuel + 1, some hook, st =>
    let continue_ (st1 : State) : Run Pass :=
      (hook_next hook.addr st1.Hooks).bind fun nx => account_hook_loop env rc_line url fuel nx st1
    match hook.command with
    | none => continue_ st
    | some cmd =>
      if ¬ (hook.type &&& env.MUTT_ACCOUNTHOOK ≠ 0) then continue_ st
      else if (decide (env.regexec hook.rx.rx url = 0) ^^ hook.rx.not) = true then
        let r := rc_line cmd { st with inhook := true }
        if r.1 = -1 then .done ([cmd], { r.2 with inhook := false })
        else (continue_ { r.2 with inhook := false }).after cmd
      else continue_ st

/-- Function `mutt_account_hook (url)` (hook.c:519-564). -/
def mutt_account_hook (env : Env) (rc_line : Interp) (fuel : Nat) (url : cstr) (st : State) :
    Run Pass :=
  if st.inhook = true then .done ([], st)
  else account_hook_loop env rc_line url fuel st.Hooks.head? st

/-- Whether a folder-hook pass for `path` selects a node: it has a command,
its type intersects `MUTT_FOLDERHOOK`, and "the regex matches `path`" differs
from the negation flag. -/
def folder_selects (env : Env) (path : cstr) (h : HOOK) : Bool :=
  h.command.isSome && decide (h.type &&& env.MUTT_FOLDERHOOK ≠ 0) &&
    (decide (env.regexec h.rx.rx path = 0) ^^ h.rx.not)

/-- Whether a node is one a folder-hook pass can execute at all: it has a
command and its type intersects `MUTT_FOLDERHOOK`. -/
def folder_entry (env : Env) (h : HOOK) : Bool :=
  h.command.isSome && decide (h.type &&& env.MUTT_FOLDERHOOK ≠ 0)

/-- The nodes of the registry lie at distinct addresses, all of them handed out
already. -/
def well_formed (st : State) : Prop :=
  (st.Hooks.map HOOK.addr).Nodup ∧ ∀ h ∈ st.Hooks, h.addr < st.heap_next

/-- The commands of the nodes a predicate selects, in the order of the list. -/
def selected_commands (sel : HOOK → Bool) (Hooks : List HOOK) : List (List Char) :=
  (Hooks.filter sel).filterMap fun h => h.command

/-- Handing command lines to the interpreter one after the other, cut off
right after the first line whose execution fails (return code -1): the lines
handed over and the static variables afterwards. -/
def run_commands (rc_line : Interp) : List (List Char) → State → Pass
  | [], st => ([], st)
  | cmd :: rest, st =>
    let r := rc_line cmd st
    if r.1 = -1 then ([cmd], r.2)
    else (cmd :: (run_commands rc_line rest r.2).1, (run_commands rc_line rest r.2).2)

/-- The commands a folder-hook pass executes leave the folder entries of the
registry alone.  `cmds` are the commands the pass hands to the interpreter
from the state `s` on (the pass stops behind the first that fails): each of
them that is executed without failing leaves the nodes of the registry at
distinct addresses and neither adds, removes nor changes a node that has a
command and a type that intersects `MUTT_FOLDERHOOK`.  Nothing is asked of a
command in a state the pass does not execute it in, of a command that fails,
or of the commands behind one that fails. -/
def folder_entries_kept (env : Env) (rc_line : Interp) : List (List Char) → State → Prop
  | [], _ => True
  | cmd :: rest, s =>
    (rc_line cmd s).1 ≠ -1 →
      ((rc_line cmd s).2.Hooks.map HOOK.addr).Nodup ∧
      (rc_line cmd s).2.Hooks.filter (folder_entry env) = s.Hooks.filter (folder_entry env) ∧
      folder_entries_kept env rc_line rest (rc_line cmd s).2

/-! ## Messages and the lookups -/

/-- One node of an address list (`ADDRESS` of `rfc822.h`); the list is a
`List ADDRESS`, a pointer to it is `NULL` when the list is empty. -/
structure ADDRESS where
  personal : cstr
  mailbox : cstr
deriving DecidableEq, Repr

/-- The address fields of the `ENVELOPE` of `mutt.h` that `hook.c` reads; the
fields `from` and `to` are `from_` and `to_` here. -/
structure ENVELOPE where
  from_ : List ADDRESS
  reply_to : List ADDRESS
  to_ : List ADDRESS
  cc : List ADDRESS
  bcc : List ADDRESS
deriving DecidableEq, Repr

/-- The `HEADER` of `mutt.h`: its envelope, and a number that stands for
everything else the pattern evaluator and the string formatter read. -/
structure HEADER where
  env : ENVELOPE
  msgno : Nat
deriving DecidableEq, Repr

/-- The mailbox `CONTEXT` of `mutt.h`; only the pattern evaluator and the
string formatter look inside. -/
structure CONTEXT where
  path : List Char
deriving DecidableEq, Repr

/-- The `pattern_cache_t` of `mutt.h`: what the pattern evaluator has memoized
so far in a pass. -/
structure pattern_cache_t where
  memo : List Int
deriving DecidableEq, Repr

/-- The cache after `memset (&cache, 0, sizeof (cache))`: nothing memoized. -/
def cache_zero : pattern_cache_t := ⟨[]⟩

/-- What the message side of `hook.c` uses but does not define, on top of
`Env`. -/
structure MsgEnv extends Env where
  /-- Function `mutt_pattern_exec (pat, flags, ctx, hdr, cache)`: its result and
  the cache as it leaves it. -/
  mutt_pattern_exec : Option pattern_t → Nat → Option CONTEXT → HEADER → pattern_cache_t →
    Int × pattern_cache_t
  /-- Macro `mutt_make_string (dest, destlen, fmt, ctx, hdr)`: the content of
  `dest`. -/
  mutt_make_string : Nat → List Char → Option CONTEXT → HEADER → List Char
  /-- Function `mutt_addr_is_user (addr)`. -/
  mutt_addr_is_user : List ADDRESS → Int
  /-- Function `mutt_safe_path (dest, destlen, addr)`: the content of `dest`. -/
  mutt_safe_path : Nat → List ADDRESS → List Char
  /-- Function `mutt_concat_path (dest, dir, fname, destlen)`: the content of
  `dest`. -/
  mutt_concat_path : List Char → List Char → Nat → List Char
  /-- Function `mx_access (path, W_OK)`. -/
  mx_access : List Char → Int
  /-- Function `mutt_pretty_mailbox (path, pathlen)`: the content of `path`. -/
  mutt_pretty_mailbox : List Char → Nat → List Char
  /-- Function `snprintf (dest, destlen, "=%s", arg)`: the content of `dest`. -/
  snprintf_eq : Nat → List Char → List Char
  /-- Global `Context`, the open mailbox. -/
  Context : Option CONTEXT
  /-- Global `Maildir` (`$folder`). -/
  Maildir : cstr
  /-- Global `Outbox` (`$record`). -/
  Outbox : cstr
  /-- Macro `option (OPTSAVENAME)` (`$save_name`). -/
  OPTSAVENAME : Bool
  /-- Macro `option (OPTFORCENAME)` (`$force_name`). -/
  OPTFORCENAME : Bool

/-- One evaluation of a pattern by `mutt_message_hook`: the node, the cache
handed to `mutt_pattern_exec`, the static variables at that moment, and, when
the node was selected, the command handed to the interpreter with the return
code of its execution. -/
structure Evaluation where
  hook : HOOK
  cache : pattern_cache_t
  st : State
  executed : Option (List Char × Int)
deriving DecidableEq, Repr

/-- A message pass's result: its evaluations, in order, and the static
variables afterwards. -/
abbrev MPass := List Evaluation × State

/-- Puts an evaluation in front of those of a later part of a pass. -/
def Run.after_eval (e : Evaluation) (r : Run MPass) : Run MPass :=
  r.bind fun p => .done (e :: p.1, p.2)

/-- The `for` loop of `mutt_message_hook` (lines 372-394) from the node `hook`
on with the cache `cache`, followed by lines 395-398.  The first argument
bounds the number of nodes visited. -/
def message_hook_loop (env : MsgEnv) (rc_line : Interp) (ctx : Option CONTEXT) (hdr : HEADER)
    (type : Nat) : Nat → Option HOOK → pattern_cache_t → State → Run MPass
  | 0, _, _, _ => .fault .out_of_fuel
  | _ + 1, none, _, st => .done ([], { st with current_hook_type := 0 })
  | fuel + 1, some hook, cache, st =>
    let continue_ (cache1 : pattern_cache_t) (st1 : State) : Run MPass :=
      (hook_next hook.addr st1.Hooks).bind fun nx =>
        message_hook_loop env rc_line ctx hdr type fuel nx cache1 st1
    match hook.command with
    | none => continue_ cache st
    | some cmd =>
      if hook.type &&& type ≠ 0 then
        let e := env.mutt_pattern_exec hook.pattern 0 ctx hdr cache
        if (decide (e.1 > 0) ^^ hook.rx.not) = true then
          let r := rc_line cmd st
          if r.1 ≠ 0 then
            .done ([⟨hook, cache, st, some (cmd, r.1)⟩], { r.2 with current_hook_type := 0 })
          else (continue_ cache_zero r.2).after_eval ⟨hook, cache, st, some (cmd, r.1)⟩
        else (continue_ e.2 st).after_eval ⟨hook, cache, st, none⟩
      else continue_ cache st

/-- Function `mutt_message_hook (ctx, hdr, type)` (hook.c:359-399). -/
def mutt_message_hook (env : MsgEnv) (rc_line : Interp) (fuel : Nat) (ctx : Option CONTEXT)
    (hdr : HEADER) (type : Nat) (st : State) : Run MPass :=
  message_hook_loop env rc_line ctx hdr type fuel st.Hooks.head? cache_zero
    { st with current_hook_type := type }

/-- The `for` loop of `mutt_addr_hook` (lines 409-420) over the list from
`hook` on with the cache `cache`, followed by line 422: the return code and
the content of `path`. -/
def addr_hook_loop (env : MsgEnv) (pathlen : Nat) (type : Nat) (ctx : Option CONTEXT)
    (hdr : HEADER) : List HOOK → pattern_cache_t → List Char → Int × List Char
  | [], _, path => (-1, path)
  | hook :: rest, cache, path =>
    match hook.command with
    | none => addr_hook_loop env pathlen type ctx hdr rest cache path
    | some cmd =>
      if hook.type &&& type ≠ 0 then
        if (decide ((env.mutt_pattern_exec hook.pattern 0 ctx hdr cache).1 > 0) ^^
            hook.rx.not) = true then
          (0, env.mutt_make_string pathlen cmd ctx hdr)
        else addr_hook_loop env pathlen type ctx hdr rest
          (env.mutt_pattern_exec hook.pattern 0 ctx hdr cache).2 path
      else addr_hook_loop env pathlen type ctx hdr rest cache path

/-- Function `mutt_addr_hook (path, pathlen, type, ctx, hdr)` (hook.c:401-423),
on the list `Hooks`: the return code and the content of `path`. -/
def mutt_addr_hook (env : MsgEnv) (path : List Char) (pathlen : Nat) (type : Nat)
    (ctx : Option CONTEXT) (hdr : HEADER) (Hooks : List HOOK) : Int × List Char :=
  addr_hook_loop env pathlen type ctx hdr Hooks cache_zero path

/-- The test `adr && adr->mailbox` of lines 435-441 on a pointer to an address
list. -/
def has_mailbox (adr : List ADDRESS) : Bool :=
  match adr with
  | [] => false
  | a :: _ => a.mailbox.isSome

/-- Function `mutt_default_save (path, pathlen, hdr)` (hook.c:425-451), on the
list `Hooks`: the content of `path`. -/
def mutt_default_save (env : MsgEnv) (pathlen : Nat) (hdr : HEADER) (Hooks : List HOOK) :
    List Char :=
  let r := mutt_addr_hook env [] pathlen env.MUTT_SAVEHOOK env.Context hdr Hooks
  if r.1 ≠ 0 then
    let fromMe := env.mutt_addr_is_user hdr.env.from_
    let adr : Option (List ADDRESS) :=
      if ¬ (fromMe ≠ 0) ∧ has_mailbox hdr.env.reply_to = true then some hdr.env.reply_to
      else if ¬ (fromMe ≠ 0) ∧ has_mailbox hdr.env.from_ = true then some hdr.env.from_
      else if has_mailbox hdr.env.to_ = true then some hdr.env.to_
      else if has_mailbox hdr.env.cc = true then some hdr.env.cc
      else none
    match adr with
    | some a => env.snprintf_eq pathlen (env.mutt_safe_path env._POSIX_PATH_MAX a)
    | none => r.2
  else r.2

/-- The path `mutt_select_fcc` has in `path` when it calls
`mutt_pretty_mailbox` (hook.c:453-472); `path` is the content of the buffer
on entry. -/
def select_fcc_path (env : MsgEnv) (path : List Char) (pathlen : Nat) (hdr : HEADER)
    (Hooks : List HOOK) : List Char :=
  let r := mutt_addr_hook env path pathlen env.MUTT_FCCHOOK none hdr Hooks
  if r.1 ≠ 0 then
    if (env.OPTSAVENAME = true ∨ env.OPTFORCENAME = true) ∧
        (hdr.env.to_ ≠ [] ∨ hdr.env.cc ≠ [] ∨ hdr.env.bcc ≠ []) then
      let adr := if hdr.env.to_ ≠ [] then hdr.env.to_
        else if hdr.env.cc ≠ [] then hdr.env.cc else hdr.env.bcc
      let buf := env.mutt_safe_path env._POSIX_PATH_MAX adr
      let path1 := env.mutt_concat_path (NONULL env.Maildir) buf pathlen
      if ¬ (env.OPTFORCENAME = true) ∧ env.mx_access path1 ≠ 0 then
        env.strfcpy (NONULL env.Outbox) pathlen
      else path1
    else env.strfcpy (NONULL env.Outbox) pathlen
  else r.2

/-- Function `mutt_select_fcc (path, pathlen, hdr)` (hook.c:453-474), on the
list `Hooks`: the content of `path`. -/
def mutt_select_fcc (env : MsgEnv) (path : List Char) (pathlen : Nat) (hdr : HEADER)
    (Hooks : List HOOK) : List Char :=
  env.mutt_pretty_mailbox (select_fcc_path env path pathlen hdr Hooks) pathlen

/-- Function `_mutt_string_hook (match, hook)` (hook.c:476-487), on the list
`Hooks`; the parameter `match` is `subject` here. -/
def _mutt_string_hook (env : Env) (subject : cstr) (hook : Nat) : List HOOK → cstr
  | [] => none
  | tmp :: rest =>
    if tmp.type &&& hook ≠ 0 ∧
        (decide (subject ≠ none ∧ env.regexec tmp.rx.rx subject = 0) ^^ tmp.rx.not) = true then
      tmp.command
    else _mutt_string_hook env subject hook rest

/-- A `LIST` of `mutt.h`: the `data` of its nodes, in order. -/
abbrev LIST := List cstr

/-- Modelled from the spec: `mutt_add_list` of `muttlib.c` (not among the
sources at hand) is what collects the commands "in order, into a list": it
appends a node with the data at the end of the list. -/
def mutt_add_list (head : LIST) (data : cstr) : LIST := head ++ [data]

/-- The `for` loop of `_mutt_list_hook` (lines 494-499) over the list from `tmp`
on, with `matches` as collected so far. -/
def list_hook_loop (env : Env) (subject : cstr) (hook : Nat) : List HOOK → LIST → LIST
  | [], ms => ms
  | tmp :: rest, ms =>
    if tmp.type &&& hook ≠ 0 ∧
        (decide (subject ≠ none ∧ env.regexec tmp.rx.rx subject = 0) ^^ tmp.rx.not) = true then
      list_hook_loop env subject hook rest (mutt_add_list ms tmp.command)
    else list_hook_loop env subject hook rest ms

/-- Function `_mutt_list_hook (match, hook)` (hook.c:489-501), on the list
`Hooks`; the parameter `match` is `subject` here. -/
def _mutt_list_hook (env : Env) (subject : cstr) (hook : Nat) (Hooks : List HOOK) : LIST :=
  list_hook_loop env subject hook Hooks []

/-- Function `mutt_charset_hook (chs)` (hook.c:503-506). -/
def mutt_charset_hook (env : Env) (chs : cstr) (Hooks : List HOOK) : cstr :=
  _mutt_string_hook env chs env.MUTT_CHARSETHOOK Hooks

/-- Function `mutt_iconv_hook (chs)` (hook.c:508-511). -/
def mutt_iconv_hook (env : Env) (chs : cstr) (Hooks : List HOOK) : cstr :=
  _mutt_string_hook env chs env.MUTT_ICONVHOOK Hooks

/-- Function `mutt_crypt_hook (adr)` (hook.c:513-516); `adr` points to an
address, whose `mailbox` is read. -/
def mutt_crypt_hook (env : Env) (adr : ADDRESS) (Hooks : List HOOK) : LIST :=
  _mutt_list_hook env adr.mailbox env.MUTT_CRYPTHOOK Hooks

/-- The hook type constants, as the command table of `init.h` passes them to
`mutt_parse_hook` in `data`. -/
def hook_types (k : HookTypes) : List Nat :=
  [k.MUTT_FOLDERHOOK, k.MUTT_MBOXHOOK, k.MUTT_SENDHOOK, k.MUTT_FCCHOOK, k.MUTT_SAVEHOOK,
    k.MUTT_CHARSETHOOK, k.MUTT_ICONVHOOK, k.MUTT_MESSAGEHOOK, k.MUTT_CRYPTHOOK,
    k.MUTT_ACCOUNTHOOK, k.MUTT_REPLYHOOK, k.MUTT_SEND2HOOK, k.MUTT_OPENHOOK,
    k.MUTT_APPENDHOOK, k.MUTT_CLOSEHOOK]

/-- The hook type constants are non-zero and no two of them share a bit. -/
def distinct_bits (k : HookTypes) : Prop :=
  (∀ t ∈ hook_types k, t ≠ 0) ∧ (hook_types k).Pairwise fun a b => a &&& b = 0

/-- The hook types whose matcher is a message pattern (line 186). -/
def pattern_types (k : HookTypes) : List Nat :=
  [k.MUTT_SENDHOOK, k.MUTT_SEND2HOOK, k.MUTT_SAVEHOOK, k.MUTT_FCCHOOK, k.MUTT_MESSAGEHOOK,
    k.MUTT_REPLYHOOK]

/-- The states that registrations and removals produce from a start with no
hooks when every call of `mutt_parse_hook` gets one of the hook type constants
in `data`, as the calls through the command table do. -/
inductive TableReachable (k : HookTypes) : State → Prop where
  | start (n : Nat) : TableReachable k ⟨[], 0, false, n⟩
  | parse_hook (env : Env) (s : List Char) (data : Nat) (st : State) (r : Ret) :
      env.toHookTypes = k → data ∈ hook_types k → TableReachable k st →
      mutt_parse_hook env s data st = .done r → TableReachable k r.st
  | parse_unhook (env : Env) (fuel : Nat) (s : List Char) (st : State) (r : Ret) :
      TableReachable k st → mutt_parse_unhook env fuel s st = .done r → TableReachable k r.st
  | dispatch (st : State) (type : Nat) (inhook : Bool) :
      TableReachable k st → TableReachable k { st with current_hook_type := type, inhook := inhook }

/-- The matcher of a node fits its type: the type is a hook type constant, and
the node has a pattern and no regex when the type is a pattern type, a regex
and no pattern otherwise. -/
def matcher_fits (k : HookTypes) (h : HOOK) : Prop :=
  h.type ∈ hook_types k ∧
    (h.type ∈ pattern_types k → h.pattern.isSome = true ∧ h.rx.rx = none) ∧
    (h.type ∉ pattern_types k → h.pattern = none ∧ h.rx.rx.isSome = true)

/-- Whether a lookup by `_mutt_string_hook` or `_mutt_list_hook` for `subject`
under the mask `hook` selects a node: its type intersects the mask, and "there
is a subject and the regex matches it" differs from the negation flag. -/
def string_selects (env : Env) (subject : cstr) (hook : Nat) (h : HOOK) : Bool :=
  decide (h.type &&& hook ≠ 0) &&
    (decide (subject ≠ none ∧ env.regexec h.rx.rx subject = 0) ^^ h.rx.not)

/-- Whether the pattern of a node selects the message, given the cache the
evaluator is handed: "`mutt_pattern_exec` returns more than 0" differs from the
negation flag. -/
def pattern_selects (env : MsgEnv) (ctx : Option CONTEXT) (hdr : HEADER)
    (cache : pattern_cache_t) (h : HOOK) : Bool :=
  decide ((env.mutt_pattern_exec h.pattern 0 ctx hdr cache).1 > 0) ^^ h.rx.not

/-- The address list the fallback of the default save destination goes by, in
the words of the specification: the reply-to address if the message is not
from the current user and reply-to is usable; else the from address if the
message is not from the current user and from is usable; else the first usable
one of to and cc; a field is usable when its first address has a mailbox. -/
def save_fallback (env : MsgEnv) (hdr : HEADER) : Option (List ADDRESS) :=
  if env.mutt_addr_is_user hdr.env.from_ = 0 ∧ has_mailbox hdr.env.reply_to = true then
    some hdr.env.reply_to
  else if env.mutt_addr_is_user hdr.env.from_ = 0 ∧ has_mailbox hdr.env.from_ = true then
    some hdr.env.from_
  else [hdr.env.to_, hdr.env.cc].find? has_mailbox

/-- The first recipient list of a message that is not empty: to, else cc, else
bcc. -/
def first_recipients (hdr : HEADER) : Option (List ADDRESS) :=
  [hdr.env.to_, hdr.env.cc, hdr.env.bcc].find? fun l => !l.isEmpty

/-- Whether a message pass for the mask `type` evaluates the pattern of a
node: it has a command and its type intersects the mask. -/
def message_entry (type : Nat) (h : HOOK) : Bool :=
  h.command.isSome && decide (h.type &&& type ≠ 0)

/-- The first entry, in registry order, that a lookup by `mutt_addr_hook` for
the mask `type` selects: the first that has a command, whose type intersects
the mask and whose pattern selects the message.  The evaluator is handed the
cache as the evaluations before it left it, starting from `cache`. -/
def first_selected (env : MsgEnv) (type : Nat) (ctx : Option CONTEXT) (hdr : HEADER) :
    List HOOK → pattern_cache_t → Option HOOK
  | [], _ => none
  | h :: rest, cache =>
    if message_entry type h = true then
      if pattern_selects env ctx hdr cache h = true then some h
      else first_selected env type ctx hdr rest (env.mutt_pattern_exec h.pattern 0 ctx hdr cache).2
    else first_selected env type ctx hdr rest cache

/-- The nodes of a list that lie behind its first node at the address `a`. -/
def behind (a : Nat) : List HOOK → List HOOK
  | [] => []
  | h :: rest => if h.addr = a then rest else behind a rest

/-- A message pass for the mask `type` in the words of the specification, as a
relation between where the pass stands and what it does from there on.
`ahead` are the entries of the registry that lie ahead, in registry order,
`cache` is the predicate cache, `s` the static variables; `L` are the
evaluations the pass makes from there on and `final` the static variables
when it returns.

With no evaluation to come, no entry ahead has a command and a type that
intersects the mask, and the pass returns with the marker cleared.  Otherwise
the next evaluation is of the first entry ahead that has a command and a type
that intersects the mask; it gets `cache` and happens in `s`.  If "the pattern
holds" XOR negate is true, the command of the entry is executed in `s`; the
return code logged is the interpreter's, and the static variables are then the
ones the interpreter left.  If the execution failed (return code not 0)
nothing follows and the pass returns with the marker cleared.  If it
succeeded, the entry is still in the registry and the pass goes on with the
entries behind it in the registry as the command left it, from the empty cache.
If the entry is not selected, nothing is executed and the pass goes on with
the entries behind it, with the cache as the evaluator left it. -/
def message_walk (env : MsgEnv) (rc_line : Interp) (ctx : Option CONTEXT) (hdr : HEADER)
    (type : Nat) : List HOOK → pattern_cache_t → State → List Evaluation → State → Prop
  | ahead, _, s, [], final =>
    (∀ q ∈ ahead, message_entry type q = false) ∧ final = { s with current_hook_type := 0 }
  | ahead, cache, s, e :: rest, final =>
    ∃ skipped post cmd, ahead = skipped ++ e.hook :: post ∧
      (∀ q ∈ skipped, message_entry type q = false) ∧
      e.hook.command = some cmd ∧ e.hook.type &&& type ≠ 0 ∧ e.cache = cache ∧ e.st = s ∧
      if pattern_selects env ctx hdr cache e.hook = true then
        e.executed = some (cmd, (rc_line cmd s).1) ∧
        if (rc_line cmd s).1 = 0 then
          (∃ x ∈ (rc_line cmd s).2.Hooks, x.addr = e.hook.addr) ∧
          message_walk env rc_line ctx hdr type (behind e.hook.addr (rc_line cmd s).2.Hooks)
            cache_zero (rc_line cmd s).2 rest final
        else rest = [] ∧ final = { (rc_line cmd s).2 with current_hook_type := 0 }
      else
        e.executed = none ∧
        message_walk env rc_line ctx hdr type post
          (env.mutt_pattern_exec e.hook.pattern 0 ctx hdr cache).2 s rest final

/-- The command of an evaluation, if one was executed, left the nodes of the
registry at distinct addresses. -/
def distinct_after (rc_line : Interp) (e : Evaluation) : Prop :=
  ∀ x ∈ e.executed, ((rc_line x.1 e.st).2.Hooks.map HOOK.addr).Nodup

/-! ## A sample environment

A small, executable stand-in for the collaborators of `hook.c`, used to run
the functions above on concrete configuration lines. -/

namespace Sample

/-- The hook type constants with the values `mutt.h` gives them. -/
def types : HookTypes :=
  { MUTT_FOLDERHOOK := 1, MUTT_MBOXHOOK := 2, MUTT_SENDHOOK := 4, MUTT_FCCHOOK := 8,
    MUTT_SAVEHOOK := 16, MUTT_CHARSETHOOK := 32, MUTT_ICONVHOOK := 64, MUTT_MESSAGEHOOK := 128,
    MUTT_CRYPTHOOK := 256, MUTT_ACCOUNTHOOK := 512, MUTT_REPLYHOOK := 1024,
    MUTT_SEND2HOOK := 2048, MUTT_OPENHOOK := 4096, MUTT_APPENDHOOK := 8192,
    MUTT_CLOSEHOOK := 16384 }

/-- Blank or tab. -/
def blank (c : Char) : Bool := c = ' ' || c = '\t'

/-- A tokenizer: white space is skipped, the token runs to the next white
space (to the end of the text when `flags` has the bit 4, "white space does
not end the token"), and the white space after it is skipped. -/
def extract_token (s : List Char) (flags : Nat) : cstr × List Char :=
  let s1 := s.dropWhile blank
  if flags &&& 4 ≠ 0 then (some s1, [])
  else (some (s1.takeWhile fun c => !blank c), (s1.dropWhile fun c => !blank c).dropWhile blank)

/-- More arguments follow unless the text ends or a `;` or `#` comes next. -/
def MoreArgs (s : List Char) : Bool :=
  match s with
  | [] => false
  | c :: _ => c ≠ ';' && c ≠ '#'

/-- Whether `p` occurs in `s` as a run of consecutive characters. -/
def occurs (p : List Char) : List Char → Bool
  | [] => p.isEmpty
  | c :: s => p.isPrefixOf (c :: s) || occurs p s

/-- A matcher: a compiled regex matches the strings its source text occurs
in; the return code is 0 for a match and 1 (`REG_NOMATCH`) otherwise. -/
def regexec (rx : Option regex_t) (subject : cstr) : Int :=
  match rx, subject with
  | some r, some t => if occurs r.prog t then 0 else 1
  | _, _ => 1

/-- The names of the hook commands and their types. -/
def mutt_get_hook_type (name : cstr) : Nat :=
  if name = some "folder-hook".toList then 1
  else if name = some "mbox-hook".toList then 2
  else if name = some "send-hook".toList then 4
  else if name = some "fcc-hook".toList then 8
  else if name = some "save-hook".toList then 16
  else if name = some "charset-hook".toList then 32
  else if name = some "iconv-hook".toList then 64
  else if name = some "message-hook".toList then 128
  else if name = some "crypt-hook".toList then 256
  else if name = some "account-hook".toList then 512
  else if name = some "reply-hook".toList then 1024
  else if name = some "send2-hook".toList then 2048
  else 0

/-- The sample environment: no current folder, no `$default_hook`, paths
expand to themselves, a regex compiles unless it is a lone `(`. -/
def env : Env :=
  { types with
    USE_COMPRESSED := false
    WithCrypto := 1
    MUTT_TOKEN_SPACE := 4
    MUTT_FULL_MSG := 1
    REG_ICASE := 2
    _POSIX_PATH_MAX := 256
    HUGE_STRING := 8192
    CurrentFolder := none
    DefaultHook := none
    SKIPWS := fun s => s.dropWhile blank
    strfcpy := fun src n => src.take (n - 1)
    safe_strdup := fun t => if t = [] then none else some t
    MoreArgs := MoreArgs
    mutt_extract_token := extract_token
    _mutt_expand_path := fun buf _ _ => buf
    mutt_expand_path := fun buf _ => buf
    mutt_check_simple := fun buf _ _ => buf
    mutt_comp_valid_command := fun _ => 1
    mutt_pattern_comp := fun t _ => if NONULL t = [] then .error "empty pattern" else .ok ⟨NONULL t⟩
    REGCOMP := fun pat _ => if pat = ['('] then .error 8 else .ok ⟨pat⟩
    regerror := fun _ => "Unmatched ( or \\("
    regexec := regexec
    mutt_get_hook_type := mutt_get_hook_type }

/-- The result of a run, with a fault read as "return code -1, nothing
changed". -/
def settle (st : State) (r : Run Ret) : Int × State :=
  match r with
  | .done x => (x.rc, x.st)
  | .fault _ => (-1, st)

/-- A sample command interpreter.  A line is a command name followed by its
arguments: the name of a hook command registers a hook
(`mutt_parse_hook`), `unhook` removes hooks (`mutt_parse_unhook`), `connect`
stands for a command that opens a connection to the URL that follows and so
triggers `mutt_account_hook`, `fail` is a command that fails, and every other
line succeeds without touching the hooks.  The first argument bounds the
nesting of dispatches. -/
def rc_line : Nat → Interp
  | depth, line, st =>
    let (name, rest) := extract_token line 0
    if name = some "unhook".toList then settle st (mutt_parse_unhook env 16 rest st)
    else if name = some "fail".toList then (-1, st)
    else if name = some "connect".toList then
      match depth with
      | 0 => (0, st)
      | d + 1 =>
        match mutt_account_hook env (rc_line d) 16 (some rest) st with
        | .done p => (0, p.2)
        | .fault _ => (-1, st)
    else if mutt_get_hook_type name ≠ 0 then
      settle st (mutt_parse_hook env rest (mutt_get_hook_type name) st)
    else (0, st)

/-- The mailbox of the first address of a list, empty if there is none. -/
def first_mailbox (l : List ADDRESS) : List Char :=
  match l with
  | [] => []
  | a :: _ => NONULL a.mailbox

/-- The sample environment for messages: a pattern holds when its text occurs
in the mailbox of the first from address (and the evaluator notes every call in
the cache), the current user is `user@x`, a path derived from an address is
the part of its mailbox before the `@`, the only writable path is
`~/Mail/friend`, and `$save_name` is set. -/
def msg_env : MsgEnv :=
  { env with
    mutt_pattern_exec := fun pat _ _ hdr cache =>
      match pat with
      | some p => (if occurs p.prog (first_mailbox hdr.env.from_) then 1 else 0, ⟨1 :: cache.memo⟩)
      | none => (0, cache)
    mutt_make_string := fun destlen fmt _ _ => fmt.take (destlen - 1)
    mutt_addr_is_user := fun l => if first_mailbox l = "user@x".toList then 1 else 0
    mutt_safe_path := fun destlen l => ((first_mailbox l).takeWhile fun c => c ≠ '@').take (destlen - 1)
    mutt_concat_path := fun dir fname destlen => (dir ++ '/' :: fname).take (destlen - 1)
    mx_access := fun path => if path = "~/Mail/friend".toList then 0 else -1
    mutt_pretty_mailbox := fun path _ => path
    snprintf_eq := fun destlen arg => ('=' :: arg).take (destlen - 1)
    Context := none
    Maildir := some "~/Mail".toList
    Outbox := some "~/sent".toList
    OPTSAVENAME := true
    OPTFORCENAME := false }

/-- A message from `sender` to `recipient` (mailboxes), with no other
addresses. -/
def message (sender recipient : String) : HEADER :=
  ⟨⟨[⟨none, some sender.toList⟩], [], [⟨none, some recipient.toList⟩], [], []⟩, 1⟩

/-- The state at start-up: no hooks, no dispatch active. -/
def start : State := ⟨[], 0, false, 0⟩

/-- The state a list of configuration lines leaves, starting from `st`. -/
def configure (lines : List String) (st : State) : State :=
  lines.foldl (fun s l => (rc_line 2 l.toList s).2) st

end Sample

/-! ## Registration and removal -/

/-- Function `mutt_strcmp` is zero exactly for equal texts (`NULL` read as empty). -/
theorem mutt_strcmp_eq_zero (a b : cstr) : mutt_strcmp a b = 0 ↔ NONULL a = NONULL b := by
  unfold mutt_strcmp
  split <;> simp_all

/-- A text equals itself under `mutt_strcmp`. -/
theorem mutt_strcmp_self (a : cstr) : mutt_strcmp a a = 0 :=
  (mutt_strcmp_eq_zero a a).2 rfl

/-- A run that is put behind a command is done exactly when it is done itself. -/
theorem after_done (cmd : List Char) (r : Run Pass) (p : Pass) (h : r.after cmd = .done p) :
    ∃ q, r = .done q ∧ p = (cmd :: q.1, q.2) := by
  cases r with
  | fault f => simp [Run.after, Run.bind] at h
  | done q =>
    simp only [Run.after, Run.bind, Run.done.injEq] at h
    exact ⟨q, rfl, h.symm⟩

/-- A run that is put behind an evaluation is done exactly when it is done
itself. -/
theorem after_eval_done (e : Evaluation) (r : Run MPass) (p : MPass)
    (h : r.after_eval e = .done p) : ∃ q, r = .done q ∧ p = (e :: q.1, q.2) := by
  cases r with
  | fault f => simp [Run.after_eval, Run.bind] at h
  | done q =>
    simp only [Run.after_eval, Run.bind, Run.done.injEq] at h
    exact ⟨q, rfl, h.symm⟩

/-- A sequenced run is done exactly when both parts are. -/
theorem bind_done {α β : Type} (r : Run α) (k : α → Run β) (b : β) (h : r.bind k = .done b) :
    ∃ a, r = .done a ∧ k a = .done b := by
  cases r with
  | fault f => simp [Run.bind] at h
  | done a => exact ⟨a, rfl, h⟩

/-- Every way `mutt_parse_hook` can end with a result. -/
theorem parse_hook_cases (env : Env) (s : List Char) (data : Nat) (st : State) (r : Ret)
    (h : mutt_parse_hook env s data st = .done r) :
    (∃ msg, r = ⟨-1, some msg, st⟩) ∨
    ∃ a, hook_args env s data = .done (.args a) ∧
      ((∃ l, scan_hooks env data a st.Hooks = some l ∧ r = ⟨0, none, { st with Hooks := l }⟩) ∨
       (scan_hooks env data a st.Hooks = none ∧ ∃ pat rx,
          compile_matcher env data a.pattern = .ok (pat, rx) ∧
          r = ⟨0, none, { st with
            Hooks := st.Hooks ++ [⟨st.heap_next, data, ⟨a.pattern, rx, a.not⟩, a.command, pat⟩],
            heap_next := st.heap_next + 1 }⟩)) := by
  unfold mutt_parse_hook at h
  cases hargs : hook_args env s data with
  | fault f => rw [hargs] at h; simp [Run.bind] at h
  | done p =>
    rw [hargs] at h
    cases p with
    | error msg =>
      simp only [Run.bind, Run.done.injEq] at h
      exact Or.inl ⟨msg, h.symm⟩
    | args a =>
      simp only [Run.bind] at h
      cases hscan : scan_hooks env data a st.Hooks with
      | some l =>
        rw [hscan] at h
        simp only [Run.done.injEq] at h
        exact Or.inr ⟨a, rfl, Or.inl ⟨l, hscan, h.symm⟩⟩
      | none =>
        rw [hscan] at h
        cases hc : compile_matcher env data a.pattern with
        | error msg =>
          rw [hc] at h
          simp only [Run.done.injEq] at h
          exact Or.inl ⟨msg, h.symm⟩
        | ok pr =>
          obtain ⟨pat, rx⟩ := pr
          rw [hc] at h
          simp only [Run.done.injEq] at h
          exact Or.inr ⟨a, rfl, Or.inr ⟨hscan, pat, rx, hc, h.symm⟩⟩


/-- What the scan of lines 151-184 does to the list when it returns from inside
the loop: nothing (an exact duplicate in a multi-command type), or one node
gets the new command (a single-command type). -/
theorem scan_hooks_some (env : Env) (data : Nat) (a : Args) (l l1 : List HOOK)
    (h : scan_hooks env data a l = some l1) :
    (data &&& multi_mask env.toHookTypes ≠ 0 ∧ l1 = l ∧
      ∃ p ∈ l, p.type = data ∧ p.rx.not = a.not ∧ mutt_strcmp a.pattern p.rx.pattern = 0 ∧
        mutt_strcmp p.command a.command = 0) ∨
    (data &&& multi_mask env.toHookTypes = 0 ∧
      ∃ pre p post, l = pre ++ p :: post ∧ l1 = pre ++ { p with command := a.command } :: post ∧
        p.type = data ∧ p.rx.not = a.not ∧ mutt_strcmp a.pattern p.rx.pattern = 0 ∧
        ∀ q ∈ pre, ¬ (q.type = data ∧ q.rx.not = a.not ∧ mutt_strcmp a.pattern q.rx.pattern = 0)) := by
  induction l generalizing l1 with
  | nil => simp [scan_hooks] at h
  | cons ptr rest ih =>
    unfold scan_hooks at h
    by_cases hk : ptr.type = data ∧ ptr.rx.not = a.not ∧ mutt_strcmp a.pattern ptr.rx.pattern = 0
    · rw [if_pos hk] at h
      by_cases hm : data &&& multi_mask env.toHookTypes ≠ 0
      · rw [if_pos hm] at h
        by_cases hc : mutt_strcmp ptr.command a.command = 0
        · rw [if_pos hc] at h
          simp only [Option.some.injEq] at h
          exact Or.inl ⟨hm, h.symm, ptr, List.mem_cons_self _ _, hk.1, hk.2.1, hk.2.2, hc⟩
        · rw [if_neg hc] at h
          cases hr : scan_hooks env data a rest with
          | none => rw [hr] at h; simp at h
          | some l2 =>
            rw [hr] at h
            simp only [Option.map_some', Option.some.injEq] at h
            rcases ih l2 hr with ⟨_, rfl, p, hp, hp1⟩ | ⟨hs, _⟩
            · exact Or.inl ⟨hm, h.symm, p, List.mem_cons_of_mem _ hp, hp1⟩
            · exact absurd hs hm
      · rw [if_neg hm] at h
        simp only [Option.some.injEq] at h
        refine Or.inr ⟨not_not.mp hm, [], ptr, rest, rfl, h.symm, hk.1, hk.2.1, hk.2.2, ?_⟩
        simp
    · rw [if_neg hk] at h
      cases hr : scan_hooks env data a rest with
      | none => rw [hr] at h; simp at h
      | some l2 =>
        rw [hr] at h
        simp only [Option.map_some', Option.some.injEq] at h
        rcases ih l2 hr with ⟨hm, rfl, p, hp, hp1⟩ | ⟨hs, pre, p, post, rfl, rfl, hp1, hp2, hp3, hpre⟩
        · exact Or.inl ⟨hm, h.symm, p, List.mem_cons_of_mem _ hp, hp1⟩
        · refine Or.inr ⟨hs, ptr :: pre, p, post, rfl, h.symm, hp1, hp2, hp3, ?_⟩
          intro q hq
          rcases List.mem_cons.mp hq with rfl | hq
          · exact hk
          · exact hpre q hq

/-- When the scan of lines 151-184 runs to the end of the list: no node has
the key (type, negation, pattern text) in a single-command type, and no node
has the key and the command in a multi-command type. -/
theorem scan_hooks_none (env : Env) (data : Nat) (a : Args) (l : List HOOK) :
    scan_hooks env data a l = none ↔
    ∀ p ∈ l, ¬ (p.type = data ∧ p.rx.not = a.not ∧ mutt_strcmp a.pattern p.rx.pattern = 0 ∧
      (data &&& multi_mask env.toHookTypes ≠ 0 → mutt_strcmp p.command a.command = 0)) := by
  induction l with
  | nil => simp [scan_hooks]
  | cons ptr rest ih =>
    unfold scan_hooks
    by_cases hk : ptr.type = data ∧ ptr.rx.not = a.not ∧ mutt_strcmp a.pattern ptr.rx.pattern = 0
    · rw [if_pos hk]
      by_cases hm : data &&& multi_mask env.toHookTypes ≠ 0
      · rw [if_pos hm]
        by_cases hc : mutt_strcmp ptr.command a.command = 0
        · rw [if_pos hc]
          simp only [false_iff, reduceCtorEq]
          intro hall
          exact hall ptr (List.mem_cons_self _ _) ⟨hk.1, hk.2.1, hk.2.2, fun _ => hc⟩
        · rw [if_neg hc, Option.map_eq_none', ih]
          constructor
          · intro hall p hp
            rcases List.mem_cons.mp hp with rfl | hp
            · exact fun hh => hc (hh.2.2.2 hm)
            · exact hall p hp
          · intro hall p hp
            exact hall p (List.mem_cons_of_mem _ hp)
      · rw [if_neg hm]
        simp only [false_iff, reduceCtorEq]
        intro hall
        exact hall ptr (List.mem_cons_self _ _) ⟨hk.1, hk.2.1, hk.2.2, fun h => absurd h hm⟩
    · rw [if_neg hk, Option.map_eq_none', ih]
      constructor
      · intro hall p hp
        rcases List.mem_cons.mp hp with rfl | hp
        · exact fun hh => hk ⟨hh.1, hh.2.1, hh.2.2.1⟩
        · exact hall p hp
      · intro hall p hp
        exact hall p (List.mem_cons_of_mem _ hp)


/-- A value that meets a mask meets every mask that extends it on the right. -/
theorem land_lor_ne_zero_of_left (x m y : Nat) (h : x &&& m ≠ 0) : x &&& (m ||| y) ≠ 0 := by
  intro h0
  apply h
  apply Nat.eq_of_testBit_eq
  intro i
  have := congrArg (fun n => n.testBit i) h0
  simp only [Nat.testBit_land, Nat.testBit_lor, Nat.zero_testBit] at this ⊢
  cases hx : x.testBit i <;> cases hm : m.testBit i <;> simp_all

/-- A value that meets a mask meets every mask that extends it on the left. -/
theorem land_lor_ne_zero_of_right (x m y : Nat) (h : x &&& y ≠ 0) : x &&& (m ||| y) ≠ 0 := by
  rw [Nat.lor_comm]; exact land_lor_ne_zero_of_left x y m h

/-- A non-zero value meets itself. -/
theorem land_self_ne_zero (x : Nat) (h : x ≠ 0) : x &&& x ≠ 0 := by
  have : x &&& x = x := by
    apply Nat.eq_of_testBit_eq
    intro i
    simp only [Nat.testBit_land, Bool.and_self]
  rw [this]; exact h

/-- Each of the seven multi-command hook types passes the test of line 157. -/
theorem multi_of_category (env : Env) (data : Nat) (h0 : data ≠ 0)
    (h : data ∈ [env.MUTT_FOLDERHOOK, env.MUTT_SENDHOOK, env.MUTT_SEND2HOOK,
      env.MUTT_MESSAGEHOOK, env.MUTT_ACCOUNTHOOK, env.MUTT_REPLYHOOK, env.MUTT_CRYPTHOOK]) :
    data &&& multi_mask env.toHookTypes ≠ 0 := by
  have hs := land_self_ne_zero data h0
  unfold multi_mask
  simp only [List.mem_cons, List.mem_singleton, List.not_mem_nil, or_false] at h
  rcases h with h | h | h | h | h | h | h <;> rw [← h]
  · iterate 6 apply land_lor_ne_zero_of_left
    exact hs
  · iterate 5 apply land_lor_ne_zero_of_left
    exact land_lor_ne_zero_of_right _ _ _ hs
  · iterate 4 apply land_lor_ne_zero_of_left
    exact land_lor_ne_zero_of_right _ _ _ hs
  · iterate 3 apply land_lor_ne_zero_of_left
    exact land_lor_ne_zero_of_right _ _ _ hs
  · iterate 2 apply land_lor_ne_zero_of_left
    exact land_lor_ne_zero_of_right _ _ _ hs
  · iterate 1 apply land_lor_ne_zero_of_left
    exact land_lor_ne_zero_of_right _ _ _ hs
  · exact land_lor_ne_zero_of_right _ _ _ hs

/-- In a multi-command type the scan stops at a node that has the key and
the command, wherever it is in the list. -/
theorem scan_hooks_dup (env : Env) (data : Nat) (a : Args) (l : List HOOK)
    (hm : data &&& multi_mask env.toHookTypes ≠ 0)
    (h : ∃ p ∈ l, p.type = data ∧ p.rx.not = a.not ∧ mutt_strcmp a.pattern p.rx.pattern = 0 ∧
      mutt_strcmp p.command a.command = 0) :
    scan_hooks env data a l = some l := by
  cases hs : scan_hooks env data a l with
  | none =>
    obtain ⟨p, hp, h1, h2, h3, h4⟩ := h
    exact absurd ⟨h1, h2, h3, fun _ => h4⟩ ((scan_hooks_none env data a l).1 hs p hp)
  | some l1 =>
    rcases scan_hooks_some env data a l l1 hs with ⟨_, rfl, _⟩ | ⟨hsg, _⟩
    · rfl
    · exact absurd hsg hm

/-- The result of `mutt_parse_hook` when lines 59-148 give the arguments `a` and
the scan returns from inside the loop. -/
theorem parse_hook_of_scan_some (env : Env) (s : List Char) (data : Nat) (st : State) (a : Args)
    (l : List HOOK) (hargs : hook_args env s data = .done (.args a))
    (hscan : scan_hooks env data a st.Hooks = some l) :
    mutt_parse_hook env s data st = .done ⟨0, none, { st with Hooks := l }⟩ := by
  unfold mutt_parse_hook
  rw [hargs]
  simp only [Run.bind, hscan]

/-- C1.  Registration is idempotent for the multi-command hook types: when
`mutt_parse_hook` succeeds for a type that passes the test of line 157 (folder,
send, send2, message, account, reply, crypt: `multi_of_category`), running it
again with the same arguments succeeds and leaves the static variables, and so
the registry, exactly as the first call left them; and when the first call
started from an empty registry, the registry holds exactly one entry, also
after the second call. -/
theorem C1_registration_idempotent (env : Env) (s : List Char) (data : Nat) (st : State) (r : Ret)
    (hcat : data &&& multi_mask env.toHookTypes ≠ 0)
    (h1 : mutt_parse_hook env s data st = .done r) (hrc : r.rc = 0) :
    mutt_parse_hook env s data r.st = .done ⟨0, none, r.st⟩ ∧
      (st.Hooks = [] → r.st.Hooks.length = 1) := by
  rcases parse_hook_cases env s data st r h1 with ⟨msg, rfl⟩ | ⟨a, hargs, hfound | happ⟩
  · simp at hrc
  · obtain ⟨l, hscan, rfl⟩ := hfound
    rcases scan_hooks_some env data a st.Hooks l hscan with ⟨_, rfl, _⟩ | ⟨hsg, _⟩
    · refine ⟨?_, ?_⟩
      · exact parse_hook_of_scan_some env s data _ a _ hargs hscan
      · intro he
        rw [he] at hscan
        simp [scan_hooks] at hscan
    · exact absurd hsg hcat
  · obtain ⟨_, pat, rx, _, rfl⟩ := happ
    refine ⟨?_, ?_⟩
    · apply parse_hook_of_scan_some env s data _ a _ hargs
      apply scan_hooks_dup env data a _ hcat
      refine ⟨_, List.mem_append_right _ (List.mem_singleton_self _), rfl, rfl, ?_, ?_⟩
      · exact mutt_strcmp_self _
      · exact mutt_strcmp_self _
    · intro he
      simp [he]

/-- C7.  Registration errors are atomic: whenever `mutt_parse_hook` returns an
error (too few or too many arguments, an unset `^` shortcut, a shortcut that
expands to an empty pattern, a badly formatted command, a regex or pattern
that does not compile), the return code is -1 and the static variables, and so
the registry with every entry's command and matcher, are exactly as before the
call. -/
theorem C7_registration_error_atomic (env : Env) (s : List Char) (data : Nat) (st : State) (r : Ret)
    (hrun : mutt_parse_hook env s data st = .done r) (hrc : r.rc ≠ 0) :
    r.rc = -1 ∧ r.st = st := by
  rcases parse_hook_cases env s data st r hrun with ⟨msg, rfl⟩ | ⟨a, _, hfound | happ⟩
  · exact ⟨rfl, rfl⟩
  · obtain ⟨l, _, rfl⟩ := hfound
    simp at hrc
  · obtain ⟨_, pat, rx, _, rfl⟩ := happ
    simp at hrc

/-- The second loop of `delete_hooks` keeps exactly the nodes of another type. -/
theorem delete_hooks_rest_eq_filter (type : Nat) (l : List HOOK) :
    delete_hooks_rest type l = l.filter (fun h => decide (h.type ≠ type)) := by
  induction l with
  | nil => rfl
  | cons h rest ih =>
    unfold delete_hooks_rest
    by_cases ht : type = h.type
    · rw [if_pos ht, ih, List.filter_cons_of_neg]
      simp [ht]
    · rw [if_neg ht, ih, List.filter_cons_of_pos]
      simp [Ne.symm ht]

/-- With `type` 0 the first loop of `delete_hooks` takes every node off. -/
theorem delete_hooks_front_zero (l : List HOOK) : delete_hooks_front 0 l = [] := by
  induction l with
  | nil => rfl
  | cons h rest ih => unfold delete_hooks_front; simp [ih]

/-- The first loop of `delete_hooks` only takes off nodes of the type `type`. -/
theorem filter_delete_hooks_front (type : Nat) (htype : type ≠ 0) (l : List HOOK) :
    (delete_hooks_front type l).filter (fun h => decide (h.type ≠ type)) =
      l.filter (fun h => decide (h.type ≠ type)) := by
  induction l with
  | nil => rfl
  | cons h rest ih =>
    unfold delete_hooks_front
    by_cases ht : type = h.type
    · rw [if_pos (Or.inr ht), ih, List.filter_cons_of_neg]
      simp [ht]
    · rw [if_neg (by simp [htype, ht])]

/-- The registry `delete_hooks` leaves: empty for `type` 0, else the entries of
another type, in their order. -/
theorem delete_hooks_filter (type : Nat) (Hooks : List HOOK) :
    delete_hooks type Hooks =
      if type = 0 then [] else Hooks.filter (fun h => decide (h.type ≠ type)) := by
  unfold delete_hooks
  by_cases h0 : type = 0
  · rw [if_pos h0, h0, delete_hooks_front_zero]; rfl
  · rw [if_neg h0, delete_hooks_rest_eq_filter, filter_delete_hooks_front type h0]


/-- What `delete_hooks` leaves is a sublist of the registry. -/
theorem delete_hooks_sublist (type : Nat) (l : List HOOK) : (delete_hooks type l).Sublist l := by
  rw [delete_hooks_filter]
  split
  · exact List.nil_sublist l
  · exact List.filter_sublist l

/-- Every way `mutt_parse_unhook` can end with a result: the static variables
other than `Hooks` are as before, and `Hooks` is what the calls of
`delete_hooks` for the arguments it got through leave. -/
theorem parse_unhook_types (env : Env) (fuel : Nat) (s : List Char) (st : State) (r : Ret)
    (h : mutt_parse_unhook env fuel s st = .done r) :
    r.st = { st with Hooks :=
      (List.foldl (fun l t => delete_hooks t l) st.Hooks
        (unhook_types env st.current_hook_type fuel s)) } := by
  induction fuel generalizing s st with
  | zero => simp [mutt_parse_unhook] at h
  | succ n ih =>
    unfold mutt_parse_unhook at h
    unfold unhook_types
    by_cases hm : env.MoreArgs s = true
    · rw [if_pos hm] at h
      rw [if_pos hm]
      simp only at h
      by_cases hstar : mutt_strcmp (some ['*']) (env.mutt_extract_token s 0).1 = 0
      · rw [if_pos hstar] at h
        rw [if_pos hstar]
        by_cases hc : st.current_hook_type ≠ 0
        · rw [if_pos hc] at h
          rw [if_pos hc]
          simp only [Run.done.injEq] at h
          rw [← h]; rfl
        · rw [if_neg hc] at h
          rw [if_neg hc, ih _ _ h]
          rfl
      · rw [if_neg hstar] at h
        rw [if_neg hstar]
        by_cases ht0 : env.mutt_get_hook_type (env.mutt_extract_token s 0).1 = 0
        · rw [if_pos ht0] at h
          rw [if_pos ht0]
          simp only [Run.done.injEq] at h
          rw [← h]; rfl
        · rw [if_neg ht0] at h
          rw [if_neg ht0]
          by_cases hc : st.current_hook_type = env.mutt_get_hook_type (env.mutt_extract_token s 0).1
          · rw [if_pos hc] at h
            rw [if_pos hc]
            simp only [Run.done.injEq] at h
            rw [← h]; rfl
          · rw [if_neg hc] at h
            rw [if_neg hc, ih _ _ h]
            rfl
    · rw [if_neg hm] at h
      rw [if_neg hm]
      simp only [Run.done.injEq] at h
      rw [← h]; rfl

/-- The registry `mutt_parse_unhook` leaves is what some sequence of calls of
`delete_hooks` leaves. -/
theorem parse_unhook_state (env : Env) (fuel : Nat) (s : List Char) (st : State) (r : Ret)
    (h : mutt_parse_unhook env fuel s st = .done r) :
    ∃ types : List Nat,
      r.st = { st with Hooks := types.foldl (fun l t => delete_hooks t l) st.Hooks } :=
  ⟨_, parse_unhook_types env fuel s st r h⟩

/-- What a sequence of calls of `delete_hooks` leaves is a sublist of the registry. -/
theorem foldl_delete_hooks_sublist (types : List Nat) (l : List HOOK) :
    (types.foldl (fun l t => delete_hooks t l) l).Sublist l := by
  induction types generalizing l with
  | nil => exact List.Sublist.refl l
  | cons t ts ih => exact (ih _).trans (delete_hooks_sublist t l)

/-- A new command on the left node of a single-command type does not change
whether two nodes clash. -/
theorem clash_of_overwrite_left (k : HookTypes) (p q : HOOK) (c : cstr)
    (hs : p.type &&& multi_mask k = 0) :
    clash k { p with command := c } q ↔ clash k p q := by
  unfold clash
  simp [hs]

/-- A new command on the right node of a single-command type does not change
whether two nodes clash. -/
theorem clash_of_overwrite_right (k : HookTypes) (p q : HOOK) (c : cstr)
    (hs : q.type &&& multi_mask k = 0) :
    clash k p { q with command := c } ↔ clash k p q := by
  unfold clash
  constructor
  · rintro ⟨h1, h2, h3, _⟩
    exact ⟨h1, h2, h3, fun hm => absurd (h1 ▸ hs) hm⟩
  · rintro ⟨h1, h2, h3, _⟩
    exact ⟨h1, h2, h3, fun hm => absurd (h1 ▸ hs) hm⟩

/-- A call of `mutt_parse_hook` keeps the registry free of clashes. -/
theorem parse_hook_no_clash (env : Env) (s : List Char) (data : Nat) (st : State) (r : Ret)
    (h : mutt_parse_hook env s data st = .done r)
    (hinv : st.Hooks.Pairwise (fun p q => ¬ clash env.toHookTypes p q)) :
    r.st.Hooks.Pairwise (fun p q => ¬ clash env.toHookTypes p q) := by
  rcases parse_hook_cases env s data st r h with ⟨msg, rfl⟩ | ⟨a, _, hfound | happ⟩
  · exact hinv
  · obtain ⟨l, hscan, rfl⟩ := hfound
    rcases scan_hooks_some env data a st.Hooks l hscan with
      ⟨_, rfl, _⟩ | ⟨hsg, pre, p, post, hl, rfl, hp1, _, _, _⟩
    · exact hinv
    · have hps : p.type &&& multi_mask env.toHookTypes = 0 := by rw [hp1]; exact hsg
      simp only
      rw [hl] at hinv
      rw [List.pairwise_append, List.pairwise_cons] at hinv ⊢
      obtain ⟨h1, ⟨h2, h3⟩, h4⟩ := hinv
      refine ⟨h1, ⟨?_, h3⟩, ?_⟩
      · intro y hy
        rw [clash_of_overwrite_left _ _ _ _ hps]
        exact h2 y hy
      · intro x hx y hy
        rcases List.mem_cons.mp hy with rfl | hy
        · rw [clash_of_overwrite_right _ _ _ _ hps]
          exact h4 x hx p (List.mem_cons_self _ _)
        · exact h4 x hx y (List.mem_cons_of_mem _ hy)
  · obtain ⟨hnone, pat, rx, _, rfl⟩ := happ
    simp only
    rw [List.pairwise_append]
    refine ⟨hinv, List.pairwise_singleton _ _, ?_⟩
    intro x hx y hy
    rw [List.mem_singleton] at hy
    subst hy
    rintro ⟨h1, h2, h3, h4⟩
    apply (scan_hooks_none env data a st.Hooks).1 hnone x hx
    simp only at h1 h2 h3 h4
    refine ⟨h1, h2, (mutt_strcmp_eq_zero _ _).2 h3.symm, fun hm => ?_⟩
    exact (mutt_strcmp_eq_zero _ _).2 (h4 (by rw [h1]; exact hm))

/-- In every reachable state the registry is free of clashes. -/
theorem reachable_no_clash (k : HookTypes) (st : State) (h : Reachable k st) :
    st.Hooks.Pairwise (fun p q => ¬ clash k p q) := by
  induction h with
  | start n => exact List.Pairwise.nil
  | parse_hook env s data st r hk _ hrun ih =>
    subst hk
    exact parse_hook_no_clash env s data st r hrun ih
  | parse_unhook env fuel s st r _ hrun ih =>
    obtain ⟨types, ht⟩ := parse_unhook_state env fuel s st r hrun
    rw [ht]
    exact ih.sublist (foldl_delete_hooks_sublist types st.Hooks)
  | dispatch st type inhook _ ih => exact ih

/-- The scan of lines 151-184 for a single-command type, when the node at index
`i` is the first that has the key: that node gets the new command. -/
theorem scan_hooks_overwrite (env : Env) (data : Nat) (a : Args) (l : List HOOK) (i : Nat)
    (h : HOOK) (hs : data &&& multi_mask env.toHookTypes = 0) (hi : l[i]? = some h)
    (hkey : h.type = data ∧ h.rx.not = a.not ∧ mutt_strcmp a.pattern h.rx.pattern = 0)
    (hfirst : ∀ q ∈ l.take i,
      ¬ (q.type = data ∧ q.rx.not = a.not ∧ mutt_strcmp a.pattern q.rx.pattern = 0)) :
    scan_hooks env data a l = some (l.set i { h with command := a.command }) := by
  induction l generalizing i with
  | nil => simp at hi
  | cons ptr rest ih =>
    unfold scan_hooks
    cases i with
    | zero =>
      simp only [List.getElem?_cons_zero, Option.some.injEq] at hi
      subst hi
      rw [if_pos hkey, if_neg (by simp [hs])]
      rfl
    | succ j =>
      simp only [List.getElem?_cons_succ] at hi
      have hptr := hfirst ptr (by simp)
      rw [if_neg hptr, ih j hi (fun q hq => hfirst q (by simp [hq]))]
      rfl

/-- C2.  Single-command overwrite in place: in every reachable state, when the
registry holds at index `i` an entry `h` of a single-command type (one that
fails the test of line 157) and `mutt_parse_hook` is called for that type with
arguments (after lines 59-148) that have the negation flag and the pattern text
of `h`, the call succeeds and the registry is the old one with the entry at
index `i` holding the new command: same length, same matcher and address at
`i`, every other entry unchanged at its index. -/
theorem C2_single_command_overwrite (env : Env) (s : List Char) (data : Nat) (st : State) (a : Args)
    (i : Nat) (h : HOOK)
    (hreach : Reachable env.toHookTypes st)
    (hsingle : data &&& multi_mask env.toHookTypes = 0)
    (hargs : hook_args env s data = .done (.args a))
    (hi : st.Hooks[i]? = some h)
    (hkey : h.type = data ∧ h.rx.not = a.not ∧ NONULL h.rx.pattern = NONULL a.pattern) :
    mutt_parse_hook env s data st =
      .done ⟨0, none, { st with Hooks := st.Hooks.set i { h with command := a.command } }⟩ := by
  apply parse_hook_of_scan_some env s data st a _ hargs
  apply scan_hooks_overwrite env data a st.Hooks i h hsingle hi
    ⟨hkey.1, hkey.2.1, (mutt_strcmp_eq_zero _ _).2 hkey.2.2.symm⟩
  intro q hq hqk
  have hinv := reachable_no_clash _ st hreach
  have hsplit : st.Hooks = st.Hooks.take i ++ h :: st.Hooks.drop (i + 1) := by
    obtain ⟨hlt, hget⟩ := List.getElem?_eq_some.1 hi
    conv_lhs => rw [← List.take_append_drop i st.Hooks]
    rw [List.drop_eq_getElem_cons hlt, hget]
  rw [hsplit, List.pairwise_append] at hinv
  apply hinv.2.2 q hq h (List.mem_cons_self _ _)
  refine ⟨hqk.1.trans hkey.1.symm, hqk.2.1.trans hkey.2.1.symm, ?_, fun hm => ?_⟩
  · rw [hkey.2.2]; exact ((mutt_strcmp_eq_zero _ _).1 hqk.2.2).symm
  · rw [hqk.1] at hm; exact absurd hsingle hm


/-- C5.  Remove-all guard: `mutt_parse_unhook` with the single argument `*`
returns an error and leaves the static variables, and so the registry,
unchanged when `current_hook_type` is non-zero, and returns 0 with an empty
registry when `current_hook_type` is zero. -/
theorem C5_unhook_all_guard (env : Env) (fuel : Nat) (s : List Char) (st : State)
    (hmore : env.MoreArgs s = true)
    (hstar : NONULL (env.mutt_extract_token s 0).1 = ['*'])
    (hend : env.MoreArgs (env.mutt_extract_token s 0).2 = false) :
    (st.current_hook_type ≠ 0 → mutt_parse_unhook env (fuel + 2) s st =
      .done ⟨-1, some "unhook: Can't do unhook * from within a hook.", st⟩) ∧
    (st.current_hook_type = 0 → mutt_parse_unhook env (fuel + 2) s st =
      .done ⟨0, none, { st with Hooks := [] }⟩) := by
  have hcmp : mutt_strcmp (some ['*']) (env.mutt_extract_token s 0).1 = 0 :=
    (mutt_strcmp_eq_zero _ _).2 hstar.symm
  constructor
  · intro hc
    rw [mutt_parse_unhook, if_pos hmore]
    simp only
    rw [if_pos hcmp, if_pos hc]
  · intro hc
    rw [mutt_parse_unhook, if_pos hmore]
    simp only
    rw [if_pos hcmp, if_neg (by simp [hc]), mutt_parse_unhook, if_neg (by simp [hend])]
    rw [delete_hooks_filter, if_pos rfl]

/-- C6, as amended.  When `mutt_parse_unhook` returns an error, the argument
that failed has removed nothing, but the removals of the arguments before it
stay: the registry is what the calls of `delete_hooks` for those earlier
arguments (`unhook_types`) left, and the other static variables are as before.
When the text holds a single argument, the static variables, and so the
registry, are exactly as before the call. -/
theorem C6_unhook_error_state (env : Env) (fuel : Nat) (s : List Char) (st : State) (r : Ret)
    (hrun : mutt_parse_unhook env fuel s st = .done r) (hrc : r.rc ≠ 0) :
    r.st = { st with Hooks :=
      (List.foldl (fun l t => delete_hooks t l) st.Hooks
        (unhook_types env st.current_hook_type fuel s)) } ∧
    (env.MoreArgs (env.mutt_extract_token s 0).2 = false → r.st = st) := by
  refine ⟨parse_unhook_types env fuel s st r hrun, fun hend => ?_⟩
  cases fuel with
  | zero => simp [mutt_parse_unhook] at hrun
  | succ n =>
    have hrest : ∀ st1 : State, mutt_parse_unhook env n (env.mutt_extract_token s 0).2 st1 = .done r →
        False := by
      intro st1 h1
      cases n with
      | zero => simp [mutt_parse_unhook] at h1
      | succ m =>
        rw [mutt_parse_unhook, if_neg (by simp [hend])] at h1
        simp only [Run.done.injEq] at h1
        rw [← h1] at hrc
        exact hrc rfl
    unfold mutt_parse_unhook at hrun
    by_cases hm : env.MoreArgs s = true
    · rw [if_pos hm] at hrun
      simp only at hrun
      by_cases hstar : mutt_strcmp (some ['*']) (env.mutt_extract_token s 0).1 = 0
      · rw [if_pos hstar] at hrun
        by_cases hc : st.current_hook_type ≠ 0
        · rw [if_pos hc] at hrun
          simp only [Run.done.injEq] at hrun
          rw [← hrun]
        · rw [if_neg hc] at hrun
          exact (hrest _ hrun).elim
      · rw [if_neg hstar] at hrun
        by_cases ht0 : env.mutt_get_hook_type (env.mutt_extract_token s 0).1 = 0
        · rw [if_pos ht0] at hrun
          simp only [Run.done.injEq] at hrun
          rw [← hrun]
        · rw [if_neg ht0] at hrun
          by_cases hc : st.current_hook_type = env.mutt_get_hook_type (env.mutt_extract_token s 0).1
          · rw [if_pos hc] at hrun
            simp only [Run.done.injEq] at hrun
            rw [← hrun]
          · rw [if_neg hc] at hrun
            exact (hrest _ hrun).elim
    · rw [if_neg hm] at hrun
      simp only [Run.done.injEq] at hrun
      rw [← hrun]

/-- Reading `next` of a node of a list whose nodes have distinct addresses. -/
theorem hook_next_split (pre post : List HOOK) (h : HOOK)
    (hwf : ((pre ++ h :: post).map HOOK.addr).Nodup) :
    hook_next h.addr (pre ++ h :: post) = .done post.head? := by
  induction pre with
  | nil => simp [hook_next]
  | cons x pre ih =>
    simp only [List.cons_append, List.map_cons, List.nodup_cons] at hwf
    have hne : x.addr ≠ h.addr := by
      intro he
      apply hwf.1
      rw [he]
      simp
    simp only [List.cons_append, hook_next, if_neg hne]
    exact ih hwf.2

/-- The selected commands of a list, node by node. -/
theorem selected_commands_cons (sel : HOOK → Bool) (h : HOOK) (l : List HOOK) :
    selected_commands sel (h :: l) =
      if sel h = true then
        match h.command with
        | some c => c :: selected_commands sel l
        | none => selected_commands sel l
      else selected_commands sel l := by
  unfold selected_commands
  by_cases hs : sel h = true
  · rw [if_pos hs, List.filter_cons_of_pos hs]
    cases hc : h.command <;> simp [List.filterMap_cons, hc]
  · rw [if_neg hs, List.filter_cons_of_neg hs]

/-- One turn of the loop of `mutt_folder_hook` at a node that is not selected. -/
theorem folder_hook_loop_skip (env : Env) (rc_line : Interp) (path : cstr) (fuel : Nat)
    (tmp : HOOK) (st : State) (h : folder_selects env path tmp = false) :
    folder_hook_loop env rc_line path (fuel + 1) (some tmp) st =
      (hook_next tmp.addr st.Hooks).bind fun nx => folder_hook_loop env rc_line path fuel nx st := by
  rw [folder_hook_loop]
  cases hc : tmp.command with
  | none => rfl
  | some cmd =>
    simp only
    have hsel : ¬ (tmp.type &&& env.MUTT_FOLDERHOOK ≠ 0 ∧
        (decide (env.regexec tmp.rx.rx path = 0) ^^ tmp.rx.not) = true) := by
      intro hh
      simp [folder_selects, hc, hh.1, hh.2] at h
    rw [if_neg hsel]

/-- One turn of the loop of `mutt_folder_hook` at a node that is selected. -/
theorem folder_hook_loop_exec (env : Env) (rc_line : Interp) (path : cstr) (fuel : Nat)
    (tmp : HOOK) (cmd : List Char) (st : State) (hc : tmp.command = some cmd)
    (h : folder_selects env path tmp = true) :
    folder_hook_loop env rc_line path (fuel + 1) (some tmp) st =
      if (rc_line cmd st).1 = -1 then
        .done ([cmd], { (rc_line cmd st).2 with current_hook_type := 0 })
      else ((hook_next tmp.addr (rc_line cmd st).2.Hooks).bind fun nx =>
        folder_hook_loop env rc_line path fuel nx (rc_line cmd st).2).after cmd := by
  rw [folder_hook_loop, hc]
  simp only
  have hsel : tmp.type &&& env.MUTT_FOLDERHOOK ≠ 0 ∧
      (decide (env.regexec tmp.rx.rx path = 0) ^^ tmp.rx.not) = true := by
    simpa [folder_selects, hc] using h
  rw [if_pos hsel]

/-- A list whose nodes lie at distinct addresses splits at a node in one way
only. -/
theorem split_unique (a b c d : List HOOK) (x : HOOK)
    (hn : ((a ++ x :: b).map HOOK.addr).Nodup) (h : a ++ x :: b = c ++ x :: d) :
    a = c ∧ b = d := by
  induction a generalizing c with
  | nil =>
    cases c with
    | nil => simpa using h
    | cons y c1 =>
      simp only [List.nil_append, List.cons_append, List.cons.injEq] at h
      simp only [List.nil_append, List.map_cons, List.nodup_cons] at hn
      exfalso
      apply hn.1
      rw [h.2]
      simp
  | cons y a1 ih =>
    cases c with
    | nil =>
      simp only [List.nil_append, List.cons_append, List.cons.injEq] at h
      simp only [List.cons_append, List.map_cons, List.nodup_cons] at hn
      exfalso
      apply hn.1
      rw [h.1]
      simp
    | cons z c1 =>
      simp only [List.cons_append, List.cons.injEq] at h
      simp only [List.cons_append, List.map_cons, List.nodup_cons] at hn
      obtain ⟨h1, h2⟩ := ih c1 hn.2 h.2
      exact ⟨by rw [h.1, h1], h2⟩

/-- Only folder entries are ever selected by a folder-hook pass. -/
theorem folder_entry_of_selects (env : Env) (path : cstr) (h : HOOK)
    (hs : folder_selects env path h = true) : folder_entry env h = true := by
  simp only [folder_selects, Bool.and_eq_true] at hs
  simp only [folder_entry, Bool.and_eq_true]
  exact hs.1

/-- The selected commands of a registry are those of its folder entries. -/
theorem selected_commands_folder_entries (env : Env) (path : cstr) (l : List HOOK) :
    selected_commands (folder_selects env path) (l.filter (folder_entry env)) =
      selected_commands (folder_selects env path) l := by
  unfold selected_commands
  rw [List.filter_filter]
  congr 1
  apply List.filter_congr
  intro h _
  cases hs : folder_selects env path h
  · simp
  · simp [folder_entry_of_selects env path h hs]


/-- The loop of `mutt_folder_hook` from a node on, when the commands it
executes leave the folder entries of the registry alone: with enough fuel it
hands over the selected commands of the folder entries that lie ahead, up to
the first that fails. -/
theorem folder_hook_loop_kept (env : Env) (rc_line : Interp) (path : cstr) (R : List HOOK) :
    ∀ (rest pre : List HOOK) (st : State), st.Hooks = pre ++ rest →
      (st.Hooks.map HOOK.addr).Nodup → rest.filter (folder_entry env) = R →
      folder_entries_kept env rc_line (selected_commands (folder_selects env path) R) st →
      ∃ n, ∀ fuel, n ≤ fuel → folder_hook_loop env rc_line path fuel rest.head? st =
        .done ((run_commands rc_line (selected_commands (folder_selects env path) R) st).1,
          { (run_commands rc_line (selected_commands (folder_selects env path) R) st).2 with
            current_hook_type := 0 }) := by
  induction R with
  | nil =>
    intro rest
    induction rest with
    | nil =>
      intro pre st _ _ _ _
      refine ⟨1, fun fuel hf => ?_⟩
      obtain ⟨k, rfl⟩ : ∃ k, fuel = k + 1 := ⟨fuel - 1, by omega⟩
      simp [folder_hook_loop, selected_commands, run_commands]
    | cons tmp rest1 ih =>
      intro pre st hs hw hR hk
      have hfe : folder_entry env tmp = false := by
        cases hf : folder_entry env tmp
        · rfl
        · rw [List.filter_cons_of_pos hf] at hR; simp at hR
      have hR1 : rest1.filter (folder_entry env) = [] := by
        rw [List.filter_cons_of_neg (by simp [hfe])] at hR; exact hR
      have hsel : folder_selects env path tmp = false := by
        cases hx : folder_selects env path tmp
        · rfl
        · rw [folder_entry_of_selects env path tmp hx] at hfe; simp at hfe
      obtain ⟨n, hn⟩ := ih (pre ++ [tmp]) st (by rw [hs]; simp) hw hR1 hk
      refine ⟨n + 1, fun fuel hf => ?_⟩
      obtain ⟨k, rfl⟩ : ∃ k, fuel = k + 1 := ⟨fuel - 1, by omega⟩
      rw [List.head?_cons, folder_hook_loop_skip env rc_line path k tmp st hsel, hs,
        hook_next_split pre rest1 tmp (hs ▸ hw)]
      exact hn k (by omega)
  | cons x R1 ihR =>
    intro rest
    induction rest with
    | nil => intro pre st _ _ hR; simp at hR
    | cons tmp rest1 ih =>
      intro pre st hs hw hR hk
      cases hfe : folder_entry env tmp with
      | false =>
        have hR1 : rest1.filter (folder_entry env) = x :: R1 := by
          rw [List.filter_cons_of_neg (by simp [hfe])] at hR; exact hR
        have hsel : folder_selects env path tmp = false := by
          cases hx : folder_selects env path tmp
          · rfl
          · rw [folder_entry_of_selects env path tmp hx] at hfe; simp at hfe
        obtain ⟨n, hn⟩ := ih (pre ++ [tmp]) st (by rw [hs]; simp) hw hR1 hk
        refine ⟨n + 1, fun fuel hf => ?_⟩
        obtain ⟨k, rfl⟩ : ∃ k, fuel = k + 1 := ⟨fuel - 1, by omega⟩
        rw [List.head?_cons, folder_hook_loop_skip env rc_line path k tmp st hsel, hs,
          hook_next_split pre rest1 tmp (hs ▸ hw)]
        exact hn k (by omega)
      | true =>
        rw [List.filter_cons_of_pos hfe] at hR
        simp only [List.cons.injEq] at hR
        obtain ⟨hx, hR1⟩ := hR
        subst hx
        cases hsel : folder_selects env path tmp with
        | false =>
          have hk1 : folder_entries_kept env rc_line
              (selected_commands (folder_selects env path) R1) st := by
            rw [selected_commands_cons, if_neg (by simp [hsel])] at hk
            exact hk
          obtain ⟨n, hn⟩ := ihR rest1 (pre ++ [tmp]) st (by rw [hs]; simp) hw hR1 hk1
          refine ⟨n + 1, fun fuel hf => ?_⟩
          obtain ⟨k, rfl⟩ : ∃ k, fuel = k + 1 := ⟨fuel - 1, by omega⟩
          rw [List.head?_cons, folder_hook_loop_skip env rc_line path k tmp st hsel, hs,
            hook_next_split pre rest1 tmp (hs ▸ hw), selected_commands_cons,
            if_neg (by simp [hsel])]
          exact hn k (by omega)
        | true =>
          obtain ⟨cmd, hc⟩ : ∃ cmd, tmp.command = some cmd := by
            cases hc : tmp.command with
            | none => simp [folder_entry, hc] at hfe
            | some cmd => exact ⟨cmd, rfl⟩
          have hcons : selected_commands (folder_selects env path) (tmp :: R1) =
              cmd :: selected_commands (folder_selects env path) R1 := by
            rw [selected_commands_cons, if_pos hsel, hc]
          rw [hcons] at hk ⊢
          by_cases hr : (rc_line cmd st).1 = -1
          · refine ⟨1, fun fuel hf => ?_⟩
            obtain ⟨k, rfl⟩ : ∃ k, fuel = k + 1 := ⟨fuel - 1, by omega⟩
            rw [List.head?_cons, folder_hook_loop_exec env rc_line path k tmp cmd st hc hsel]
            simp only [run_commands]
            rw [if_pos hr, if_pos hr]
          · obtain ⟨hw2, hkeep, hk1⟩ := hk hr
            -- the node is still in the registry, with the same folder entries behind it
            have hmem : tmp ∈ (rc_line cmd st).2.Hooks := by
              have : tmp ∈ (rc_line cmd st).2.Hooks.filter (folder_entry env) := by
                rw [hkeep, hs]; simp [hfe]
              exact (List.mem_filter.1 this).1
            obtain ⟨pre2, rest2, hs2⟩ := List.append_of_mem hmem
            have hfilt : (pre2.filter (folder_entry env)) ++
                tmp :: rest2.filter (folder_entry env) =
                (pre.filter (folder_entry env)) ++ tmp :: rest1.filter (folder_entry env) := by
              have := hkeep
              rw [hs2, hs, List.filter_append, List.filter_append, List.filter_cons_of_pos hfe,
                List.filter_cons_of_pos hfe] at this
              exact this
            have hnd : ((pre2.filter (folder_entry env) ++
                tmp :: rest2.filter (folder_entry env)).map HOOK.addr).Nodup := by
              have hsub : (pre2.filter (folder_entry env) ++
                  tmp :: rest2.filter (folder_entry env)).Sublist (rc_line cmd st).2.Hooks := by
                rw [hs2]
                exact List.Sublist.append (List.filter_sublist _)
                  (List.Sublist.cons₂ _ (List.filter_sublist _))
              exact hw2.sublist (hsub.map _)
            have hR2 : rest2.filter (folder_entry env) = R1 := by
              rw [(split_unique _ _ _ _ _ hnd hfilt).2, hR1]
            obtain ⟨n, hn⟩ := ihR rest2 (pre2 ++ [tmp]) (rc_line cmd st).2 (by rw [hs2]; simp)
              hw2 hR2 hk1
            refine ⟨n + 1, fun fuel hf => ?_⟩
            obtain ⟨k, rfl⟩ : ∃ k, fuel = k + 1 := ⟨fuel - 1, by omega⟩
            rw [List.head?_cons, folder_hook_loop_exec env rc_line path k tmp cmd st hc hsel]
            simp only [run_commands]
            rw [if_neg hr, if_neg hr]
            have hnx : hook_next tmp.addr (rc_line cmd st).2.Hooks = .done rest2.head? := by
              rw [hs2]
              exact hook_next_split pre2 rest2 tmp (hs2 ▸ hw2)
            rw [hnx]
            simp only [Run.bind]
            rw [hn k (by omega)]
            rfl

/-- A call of `mutt_parse_hook` keeps the registry well formed. -/
theorem parse_hook_well_formed (env : Env) (s : List Char) (data : Nat) (st : State) (r : Ret)
    (h : mutt_parse_hook env s data st = .done r) (hw : well_formed st) : well_formed r.st := by
  rcases parse_hook_cases env s data st r h with ⟨msg, rfl⟩ | ⟨a, _, hfound | happ⟩
  · exact hw
  · obtain ⟨l, hscan, rfl⟩ := hfound
    rcases scan_hooks_some env data a st.Hooks l hscan with
      ⟨_, rfl, _⟩ | ⟨_, pre, p, post, hl, rfl, _⟩
    · exact hw
    · obtain ⟨h1, h2⟩ := hw
      rw [hl] at h1 h2
      constructor
      · simpa using h1
      · intro q hq
        simp only [List.mem_append, List.mem_cons] at hq
        rcases hq with hq | rfl | hq
        · exact h2 q (by simp [hq])
        · exact h2 p (by simp)
        · exact h2 q (by simp [hq])
  · obtain ⟨_, pat, rx, _, rfl⟩ := happ
    obtain ⟨h1, h2⟩ := hw
    constructor
    · simp only [List.map_append, List.map_cons, List.map_nil]
      rw [List.nodup_append]
      refine ⟨h1, List.nodup_singleton _, ?_⟩
      intro x hx hy
      simp only [List.mem_singleton] at hy
      obtain ⟨q, hq, rfl⟩ := List.mem_map.1 hx
      have := h2 q hq
      omega
    · intro q hq
      simp only [List.mem_append, List.mem_singleton] at hq
      rcases hq with hq | rfl
      · have := h2 q hq
        simp only
        omega
      · simp

/-- A call of `mutt_parse_unhook` keeps the registry well formed. -/
theorem parse_unhook_well_formed (env : Env) (fuel : Nat) (s : List Char) (st : State) (r : Ret)
    (h : mutt_parse_unhook env fuel s st = .done r) (hw : well_formed st) : well_formed r.st := by
  obtain ⟨types, ht⟩ := parse_unhook_state env fuel s st r h
  have hsub := foldl_delete_hooks_sublist types st.Hooks
  rw [ht]
  exact ⟨hw.1.sublist (hsub.map _), fun q hq => hw.2 q (hsub.subset hq)⟩

/-- In every reachable state the registry is well formed. -/
theorem reachable_well_formed (k : HookTypes) (st : State) (h : Reachable k st) :
    well_formed st := by
  induction h with
  | start n => exact ⟨List.nodup_nil, by simp⟩
  | parse_hook env s data st r _ _ hrun ih => exact parse_hook_well_formed env s data st r hrun ih
  | parse_unhook env fuel s st r _ hrun ih =>
    exact parse_unhook_well_formed env fuel s st r hrun ih
  | dispatch st type inhook _ ih => exact ih

/-- Registering a hook of a type that does not intersect `MUTT_FOLDERHOOK`
leaves the folder entries of the registry as they are. -/
theorem parse_hook_keeps_folder_entries (env : Env) (s : List Char) (data : Nat) (st : State)
    (r : Ret) (h : mutt_parse_hook env s data st = .done r)
    (hd : data &&& env.MUTT_FOLDERHOOK = 0) :
    r.st.Hooks.filter (folder_entry env) = st.Hooks.filter (folder_entry env) := by
  rcases parse_hook_cases env s data st r h with ⟨msg, rfl⟩ | ⟨a, _, hfound | happ⟩
  · rfl
  · obtain ⟨l, hscan, rfl⟩ := hfound
    rcases scan_hooks_some env data a st.Hooks l hscan with
      ⟨_, rfl, _⟩ | ⟨_, pre, p, post, hl, rfl, hp, _⟩
    · rfl
    · simp only
      rw [hl, List.filter_append, List.filter_append, List.filter_cons_of_neg,
        List.filter_cons_of_neg]
      · simp [folder_entry, hp, hd]
      · simp [folder_entry, hp, hd]
  · obtain ⟨_, pat, rx, _, rfl⟩ := happ
    simp only
    rw [List.filter_append, List.filter_cons_of_neg (by simp [folder_entry, hd])]
    simp



/-- C8, as amended.  Folder-open dispatch: for every registry (nodes at
distinct addresses), path and interpreter such that the commands executed
during the pass neither add, remove nor change folder entries (nodes with a
command whose type intersects `MUTT_FOLDERHOOK`; hooks of other types may come
and go), the sequence of commands `mutt_folder_hook` hands to the interpreter
is exactly the commands of the entries (in registry order) that have a
command, whose type intersects `MUTT_FOLDERHOOK` and for which "regex matches
path" XOR negate is true, cut off right after the first command whose
execution fails; each command is executed in the static variables the one
before it left, the first with `current_hook_type` set to `MUTT_FOLDERHOOK`,
and the pass returns with `current_hook_type` cleared.  The condition is on
the commands the pass executes, in the states it executes them in: nothing is
asked of a command that fails or of the commands behind it.  An entry with the
negation flag set is selected exactly when it has a command, its type
intersects and its regex does not match the path. -/
theorem C8_folder_dispatch (env : Env) (rc_line : Interp) (path : cstr) (st : State)
    (hwf : (st.Hooks.map HOOK.addr).Nodup)
    (hkeep : folder_entries_kept env rc_line
      (selected_commands (folder_selects env path) st.Hooks)
      { st with current_hook_type := env.MUTT_FOLDERHOOK }) :
    (∃ n, ∀ fuel, n ≤ fuel → mutt_folder_hook env rc_line fuel path st =
      .done ((run_commands rc_line (selected_commands (folder_selects env path) st.Hooks)
          { st with current_hook_type := env.MUTT_FOLDERHOOK }).1,
        { (run_commands rc_line (selected_commands (folder_selects env path) st.Hooks)
          { st with current_hook_type := env.MUTT_FOLDERHOOK }).2 with
          current_hook_type := 0 })) ∧
    ∀ h : HOOK, h.rx.not = true →
      (folder_selects env path h = true ↔
        h.command ≠ none ∧ h.type &&& env.MUTT_FOLDERHOOK ≠ 0 ∧ env.regexec h.rx.rx path ≠ 0) := by
  constructor
  · obtain ⟨n, hn⟩ := folder_hook_loop_kept env rc_line path (st.Hooks.filter (folder_entry env))
      st.Hooks [] { st with current_hook_type := env.MUTT_FOLDERHOOK } rfl hwf rfl
      (by rw [selected_commands_folder_entries]; exact hkeep)
    rw [selected_commands_folder_entries] at hn
    exact ⟨n, fun fuel hf => hn fuel hf⟩
  · intro h hnot
    cases hc : h.command <;> simp [folder_selects, hc, hnot]

/-- Function `mutt_find_hook` never reads the negation flag: clearing the flag
of every node does not change what it returns. -/
theorem find_hook_flag_unread (env : Env) (type : Nat) (pat : cstr) (l : List HOOK) :
    mutt_find_hook env type pat (l.map fun h => { h with rx := { h.rx with not := false } }) =
      mutt_find_hook env type pat l := by
  induction l with
  | nil => rfl
  | cons h rest ih => simp only [List.map_cons, mutt_find_hook, ih]

/-- C4.  Function `delete_hooks` is an order-preserving filter: for a non-zero
`type` the registry afterwards is the old registry without the entries whose
type equals `type`, every other entry kept in its original relative order; for
`type` 0 the registry afterwards is empty. -/
theorem C4_delete_hooks_order_preserving (type : Nat) (Hooks : List HOOK) :
    delete_hooks type Hooks =
      if type = 0 then [] else Hooks.filter (fun h => decide (h.type ≠ type)) :=
  delete_hooks_filter type Hooks

/-! ## The claims on configuration lines of the sample environment -/

/-- C1 at folder-hook `inbox` with command `A`, registered twice from the empty
registry: one entry. -/
theorem C1_registration_idempotent_witness :
    1 &&& multi_mask Sample.env.toHookTypes ≠ 0 ∧
    mutt_parse_hook Sample.env "inbox A".toList 1 Sample.start =
      .done ⟨0, none, Sample.configure ["folder-hook inbox A"] Sample.start⟩ ∧
    mutt_parse_hook Sample.env "inbox A".toList 1
        (Sample.configure ["folder-hook inbox A"] Sample.start) =
      .done ⟨0, none, Sample.configure ["folder-hook inbox A"] Sample.start⟩ ∧
    (Sample.configure ["folder-hook inbox A"] Sample.start).Hooks.length = 1 :=
  have h := C1_registration_idempotent Sample.env "inbox A".toList 1 Sample.start
    ⟨0, none, Sample.configure ["folder-hook inbox A"] Sample.start⟩ (by decide) (by decide) rfl
  ⟨by decide, by decide, h.1, h.2 rfl⟩

/-- C2 at save-hook `P` with command `A`, then with command `B`, from the empty
registry: one entry, with command `B`. -/
theorem C2_single_command_overwrite_witness :
    Reachable Sample.env.toHookTypes (Sample.configure ["save-hook P A"] Sample.start) ∧
    16 &&& multi_mask Sample.env.toHookTypes = 0 ∧
    mutt_parse_hook Sample.env "P B".toList 16 (Sample.configure ["save-hook P A"] Sample.start) =
      .done ⟨0, none, ⟨[⟨0, 16, ⟨some ['P'], none, false⟩, some ['B'], some ⟨['P']⟩⟩], 0, false, 1⟩⟩ :=
  have hr : Reachable Sample.env.toHookTypes (Sample.configure ["save-hook P A"] Sample.start) :=
    Reachable.parse_hook Sample.env "P A".toList 16 Sample.start
      ⟨0, none, Sample.configure ["save-hook P A"] Sample.start⟩ rfl (Reachable.start 0)
      (by decide)
  ⟨hr, by decide,
    C2_single_command_overwrite Sample.env "P B".toList 16
      (Sample.configure ["save-hook P A"] Sample.start) ⟨false, some ['P'], some ['B']⟩ 0
      ⟨0, 16, ⟨some ['P'], none, false⟩, some ['A'], some ⟨['P']⟩⟩ hr (by decide) (by decide)
      (by decide) (by decide)⟩

/-- C5 at `unhook *`, inside a folder-hook pass and outside of any pass. -/
theorem C5_unhook_all_guard_witness :
    mutt_parse_unhook Sample.env 2 ['*']
        { Sample.configure ["send-hook x y", "folder-hook inbox B"] Sample.start with
          current_hook_type := 1 } =
      .done ⟨-1, some "unhook: Can't do unhook * from within a hook.",
        { Sample.configure ["send-hook x y", "folder-hook inbox B"] Sample.start with
          current_hook_type := 1 }⟩ ∧
    mutt_parse_unhook Sample.env 2 ['*']
        (Sample.configure ["send-hook x y", "folder-hook inbox B"] Sample.start) =
      .done ⟨0, none, ⟨[], 0, false, 2⟩⟩ :=
  ⟨(C5_unhook_all_guard Sample.env 0 ['*']
      { Sample.configure ["send-hook x y", "folder-hook inbox B"] Sample.start with
        current_hook_type := 1 } (by decide) (by decide) (by decide)).1 (by decide),
   (C5_unhook_all_guard Sample.env 0 ['*']
      (Sample.configure ["send-hook x y", "folder-hook inbox B"] Sample.start)
      (by decide) (by decide) (by decide)).2 (by decide)⟩

/-- C6 as stated fails: inside a folder-hook pass, `unhook send-hook folder-hook`
returns an error at its second argument after the first argument has removed
the send-hooks, so the registry after the call is not the registry before. -/
theorem C6_unhook_error_not_atomic :
    mutt_parse_unhook Sample.env 4 "send-hook folder-hook".toList
        { Sample.configure ["send-hook x y", "folder-hook inbox B"] Sample.start with
          current_hook_type := 1 } =
      .done ⟨-1, some "unhook: Can't delete a folder-hook from within a folder-hook.",
        ⟨[⟨1, 1, ⟨some "inbox".toList, some ⟨"inbox".toList⟩, false⟩, some ['B'], none⟩],
          1, false, 2⟩⟩ ∧
    (Sample.configure ["send-hook x y", "folder-hook inbox B"] Sample.start).Hooks =
      [⟨0, 4, ⟨some ['x'], none, false⟩, some ['y'], some ⟨['x']⟩⟩,
        ⟨1, 1, ⟨some "inbox".toList, some ⟨"inbox".toList⟩, false⟩, some ['B'], none⟩] := by
  decide

/-- C6 as amended, at `unhook folder-hook` inside a folder-hook pass. -/
theorem C6_unhook_error_state_witness :
    mutt_parse_unhook Sample.env 4 "folder-hook".toList
        { Sample.configure ["send-hook x y", "folder-hook inbox B"] Sample.start with
          current_hook_type := 1 } =
      .done ⟨-1, some "unhook: Can't delete a folder-hook from within a folder-hook.",
        { Sample.configure ["send-hook x y", "folder-hook inbox B"] Sample.start with
          current_hook_type := 1 }⟩ ∧
    (⟨-1, some "unhook: Can't delete a folder-hook from within a folder-hook.",
        { Sample.configure ["send-hook x y", "folder-hook inbox B"] Sample.start with
          current_hook_type := 1 }⟩ : Ret).st =
      { Sample.configure ["send-hook x y", "folder-hook inbox B"] Sample.start with
        current_hook_type := 1 } :=
  ⟨by decide,
    (C6_unhook_error_state Sample.env 4 "folder-hook".toList
      { Sample.configure ["send-hook x y", "folder-hook inbox B"] Sample.start with
        current_hook_type := 1 }
      ⟨-1, some "unhook: Can't delete a folder-hook from within a folder-hook.",
        { Sample.configure ["send-hook x y", "folder-hook inbox B"] Sample.start with
          current_hook_type := 1 }⟩ (by decide) (by decide)).2 (by decide)⟩

/-- C7 at a folder-hook line without a command. -/
theorem C7_registration_error_atomic_witness :
    mutt_parse_hook Sample.env "inbox".toList 1
        (Sample.configure ["folder-hook inbox A"] Sample.start) =
      .done ⟨-1, some "too few arguments",
        Sample.configure ["folder-hook inbox A"] Sample.start⟩ ∧
    (⟨-1, some "too few arguments",
        Sample.configure ["folder-hook inbox A"] Sample.start⟩ : Ret).st =
      Sample.configure ["folder-hook inbox A"] Sample.start :=
  ⟨by decide,
    (C7_registration_error_atomic Sample.env "inbox".toList 1
      (Sample.configure ["folder-hook inbox A"] Sample.start)
      ⟨-1, some "too few arguments", Sample.configure ["folder-hook inbox A"] Sample.start⟩
      (by decide) (by decide)).2⟩

/-- C8 as stated fails: the command of a folder-hook for `inbox` registers a
further folder-hook for `inbox` with command `B`; the pass for `inbox` visits
the entry appended meanwhile and hands `B` to the interpreter as well, whereas
the registry the pass started on selects the first command only. -/
theorem C8_folder_pass_visits_appended_entry :
    mutt_folder_hook Sample.env (Sample.rc_line 1) 8 (some "inbox".toList)
        (Sample.configure ["folder-hook inbox folder-hook inbox B"] Sample.start) =
      .done (["folder-hook inbox B".toList, ['B']],
        Sample.configure ["folder-hook inbox folder-hook inbox B", "folder-hook inbox B"]
          Sample.start) ∧
    selected_commands (folder_selects Sample.env (some "inbox".toList))
        (Sample.configure ["folder-hook inbox folder-hook inbox B"] Sample.start).Hooks =
      ["folder-hook inbox B".toList] := by
  decide

/-- C8 as amended, at three folder-hooks and the path `personal`.  The first
hook is negated and its command registers a send-hook; the command of the
second is `unhook folder-hook`, which is refused inside a folder-hook pass and
so fails; the command of the third would register a further folder-hook, but
is never executed.  The pass hands over the first two commands and stops.  The
negated hook for `work` is not executed for `work`. -/
theorem C8_folder_dispatch_witness :
    ((Sample.configure ["folder-hook !work send-hook x y", "folder-hook per unhook folder-hook",
      "folder-hook p folder-hook p D"] Sample.start).Hooks.map HOOK.addr).Nodup ∧
    folder_entries_kept Sample.env (Sample.rc_line 1)
      (selected_commands (folder_selects Sample.env (some "personal".toList))
        (Sample.configure ["folder-hook !work send-hook x y", "folder-hook per unhook folder-hook",
          "folder-hook p folder-hook p D"] Sample.start).Hooks)
      { Sample.configure ["folder-hook !work send-hook x y", "folder-hook per unhook folder-hook",
          "folder-hook p folder-hook p D"] Sample.start with
        current_hook_type := Sample.env.MUTT_FOLDERHOOK } ∧
    (∃ n, ∀ fuel, n ≤ fuel →
      mutt_folder_hook Sample.env (Sample.rc_line 1) fuel (some "personal".toList)
        (Sample.configure ["folder-hook !work send-hook x y", "folder-hook per unhook folder-hook",
          "folder-hook p folder-hook p D"] Sample.start) =
        .done (["send-hook x y".toList, "unhook folder-hook".toList],
          Sample.configure ["folder-hook !work send-hook x y",
            "folder-hook per unhook folder-hook", "folder-hook p folder-hook p D",
            "send-hook x y"] Sample.start)) ∧
    (∃ n, ∀ fuel, n ≤ fuel →
      mutt_folder_hook Sample.env (Sample.rc_line 1) fuel (some "work".toList)
        (Sample.configure ["folder-hook !work send-hook x y"] Sample.start) =
        .done ([], Sample.configure ["folder-hook !work send-hook x y"] Sample.start)) := by
  have l1 : selected_commands (folder_selects Sample.env (some "personal".toList))
      (Sample.configure ["folder-hook !work send-hook x y", "folder-hook per unhook folder-hook",
        "folder-hook p folder-hook p D"] Sample.start).Hooks =
      ["send-hook x y".toList, "unhook folder-hook".toList, "folder-hook p D".toList] := by
    decide
  have l2 : selected_commands (folder_selects Sample.env (some "work".toList))
      (Sample.configure ["folder-hook !work send-hook x y"] Sample.start).Hooks = [] := by decide
  have k1 : folder_entries_kept Sample.env (Sample.rc_line 1)
      (selected_commands (folder_selects Sample.env (some "personal".toList))
        (Sample.configure ["folder-hook !work send-hook x y", "folder-hook per unhook folder-hook",
          "folder-hook p folder-hook p D"] Sample.start).Hooks)
      { Sample.configure ["folder-hook !work send-hook x y", "folder-hook per unhook folder-hook",
          "folder-hook p folder-hook p D"] Sample.start with
        current_hook_type := Sample.env.MUTT_FOLDERHOOK } := by
    rw [l1]
    simp only [folder_entries_kept]
    intro _
    exact ⟨by decide, by decide, fun h => absurd (by decide) h⟩
  have k2 : folder_entries_kept Sample.env (Sample.rc_line 1)
      (selected_commands (folder_selects Sample.env (some "work".toList))
        (Sample.configure ["folder-hook !work send-hook x y"] Sample.start).Hooks)
      { Sample.configure ["folder-hook !work send-hook x y"] Sample.start with
        current_hook_type := Sample.env.MUTT_FOLDERHOOK } := by
    rw [l2]
    trivial
  obtain ⟨n1, h1⟩ := (C8_folder_dispatch Sample.env (Sample.rc_line 1)
    (some "personal".toList) _ (by decide) k1).1
  obtain ⟨n2, h2⟩ := (C8_folder_dispatch Sample.env (Sample.rc_line 1)
    (some "work".toList) _ (by decide) k2).1
  refine ⟨by decide, k1, ⟨n1, fun fuel hf => ?_⟩, ⟨n2, fun fuel hf => ?_⟩⟩
  · rw [h1 fuel hf, l1]
    decide
  · rw [h2 fuel hf, l2]
    decide

/-- C9, the code at the failing input: for an mbox-hook registered as `!work`,
`mutt_find_hook` returns its command for `work`, which the regex matches, and
nothing for `personal`, which it does not match: the negation flag is not
consulted. -/
theorem C9_find_hook_ignores_negation :
    (Sample.configure ["mbox-hook !work =archive"] Sample.start).Hooks =
      [⟨0, 2, ⟨some "work".toList, some ⟨"work".toList⟩, true⟩, some "=archive".toList, none⟩] ∧
    mutt_find_hook Sample.env 2 (some "work".toList)
        (Sample.configure ["mbox-hook !work =archive"] Sample.start).Hooks =
      some "=archive".toList ∧
    mutt_find_hook Sample.env 2 (some "personal".toList)
        (Sample.configure ["mbox-hook !work =archive"] Sample.start).Hooks = none := by
  decide

/-- A registry without clashes, in terms of positions. -/
theorem no_clash_at (k : HookTypes) (l : List HOOK)
    (h : l.Pairwise (fun p q => ¬ clash k p q)) (i j : Nat) (p q : HOOK) (hij : i < j)
    (hp : l[i]? = some p) (hq : l[j]? = some q) : ¬ clash k p q := by
  obtain ⟨hi, rfl⟩ := List.getElem?_eq_some.1 hp
  obtain ⟨hj, rfl⟩ := List.getElem?_eq_some.1 hq
  exact List.pairwise_iff_getElem.1 h i j hi hj hij

/-- C20.  Negation-aware uniqueness invariant: in every state reachable from the
empty registry by calls of `mutt_parse_hook` and `mutt_parse_unhook`, two
entries at different positions never agree on all of type, negation flag,
pattern source text and, when the type is a multi-command one, command text;
in particular two entries of a single-command type never agree on type,
negation flag and pattern text.  The negation flag is part of the key. -/
theorem C20_uniqueness_with_negation (k : HookTypes) (st : State) (i j : Nat) (p q : HOOK)
    (hreach : Reachable k st) (hij : i < j)
    (hp : st.Hooks[i]? = some p) (hq : st.Hooks[j]? = some q) :
    (p.type &&& multi_mask k ≠ 0 →
      ¬ (p.type = q.type ∧ p.rx.not = q.rx.not ∧ NONULL p.rx.pattern = NONULL q.rx.pattern ∧
        NONULL p.command = NONULL q.command)) ∧
    (p.type &&& multi_mask k = 0 →
      ¬ (p.type = q.type ∧ p.rx.not = q.rx.not ∧
        NONULL p.rx.pattern = NONULL q.rx.pattern)) := by
  have h := no_clash_at k st.Hooks (reachable_no_clash k st hreach) i j p q hij hp hq
  constructor
  · rintro _ ⟨h1, h2, h3, h4⟩
    exact h ⟨h1, h2, h3, fun _ => h4⟩
  · rintro hs ⟨h1, h2, h3⟩
    exact h ⟨h1, h2, h3, fun hm => absurd hs hm⟩

/-- C12, as amended.  Single-command uniqueness: in every state reachable from
the empty registry by calls of `mutt_parse_hook` and `mutt_parse_unhook`, for
every single-command type there is at most one entry per type, negation flag
and pattern source text: two entries at different positions never agree on
all three. -/
theorem C12_single_command_unique (k : HookTypes) (st : State) (i j : Nat) (p q : HOOK)
    (hreach : Reachable k st) (hij : i < j)
    (hp : st.Hooks[i]? = some p) (hq : st.Hooks[j]? = some q)
    (hsingle : p.type &&& multi_mask k = 0) :
    ¬ (p.type = q.type ∧ p.rx.not = q.rx.not ∧ NONULL p.rx.pattern = NONULL q.rx.pattern) := by
  rintro ⟨h1, h2, h3⟩
  exact no_clash_at k st.Hooks (reachable_no_clash k st hreach) i j p q hij hp hq
    ⟨h1, h2, h3, fun hm => absurd hsingle hm⟩

/-- The loop of `_mutt_list_hook` adds the commands of the selected nodes, in
order, to what it has collected. -/
theorem list_hook_loop_eq (env : Env) (subject : cstr) (hook : Nat) (l : List HOOK) (ms : LIST) :
    list_hook_loop env subject hook l ms =
      ms ++ (l.filter (string_selects env subject hook)).map HOOK.command := by
  induction l generalizing ms with
  | nil => simp [list_hook_loop]
  | cons tmp rest ih =>
    unfold list_hook_loop
    by_cases hs : tmp.type &&& hook ≠ 0 ∧
        (decide (subject ≠ none ∧ env.regexec tmp.rx.rx subject = 0) ^^ tmp.rx.not) = true
    · have hsel : string_selects env subject hook tmp = true := by
        simp only [string_selects, Bool.and_eq_true, decide_eq_true_eq]
        exact hs
      rw [if_pos hs, ih, List.filter_cons_of_pos hsel]
      simp [mutt_add_list]
    · have hsel : ¬ string_selects env subject hook tmp = true := by
        simp only [string_selects, Bool.and_eq_true, decide_eq_true_eq]
        exact hs
      rw [if_neg hs, ih, List.filter_cons_of_neg hsel]

/-- C14.  Multi-result lookup: the list `mutt_crypt_hook` returns holds exactly
the commands of the entries whose type intersects `MUTT_CRYPTHOOK` and for
which "the address has a mailbox that the regex matches" XOR negate is true, in
registry order, nothing omitted and nothing added; it is empty when no entry
is selected. -/
theorem C14_crypt_hook_collects_all (env : Env) (adr : ADDRESS) (Hooks : List HOOK) :
    mutt_crypt_hook env adr Hooks =
        (Hooks.filter fun (h : HOOK) => decide (h.type &&& env.MUTT_CRYPTHOOK ≠ 0) &&
          (decide (adr.mailbox ≠ none ∧ env.regexec h.rx.rx adr.mailbox = 0) ^^ h.rx.not)).map
          HOOK.command ∧
      ((∀ h ∈ Hooks, string_selects env adr.mailbox env.MUTT_CRYPTHOOK h = false) →
        mutt_crypt_hook env adr Hooks = []) := by
  have h : mutt_crypt_hook env adr Hooks =
      (Hooks.filter (string_selects env adr.mailbox env.MUTT_CRYPTHOOK)).map HOOK.command := by
    unfold mutt_crypt_hook _mutt_list_hook
    rw [list_hook_loop_eq]
    rfl
  refine ⟨h, fun hnone => ?_⟩
  rw [h, List.filter_eq_nil_iff.2 (fun a ha => by simp [hnone a ha])]
  rfl

/-- Function `_mutt_string_hook` returns the command of the first selected
node, whether it has one or not. -/
theorem string_hook_eq (env : Env) (subject : cstr) (hook : Nat) (l : List HOOK) :
    _mutt_string_hook env subject hook l =
      (l.find? (string_selects env subject hook)).bind HOOK.command := by
  induction l with
  | nil => rfl
  | cons tmp rest ih =>
    unfold _mutt_string_hook
    by_cases hs : tmp.type &&& hook ≠ 0 ∧
        (decide (subject ≠ none ∧ env.regexec tmp.rx.rx subject = 0) ^^ tmp.rx.not) = true
    · have hsel : string_selects env subject hook tmp = true := by
        simp only [string_selects, Bool.and_eq_true, decide_eq_true_eq]
        exact hs
      rw [if_pos hs, List.find?_cons_of_pos _ hsel]
      rfl
    · have hsel : ¬ string_selects env subject hook tmp = true := by
        simp only [string_selects, Bool.and_eq_true, decide_eq_true_eq]
        exact hs
      rw [if_neg hs, ih, List.find?_cons_of_neg _ hsel]

/-- When every node of the queried type has a command, the first selected node
is the first selected node that has a command. -/
theorem find_with_command (env : Env) (subject : cstr) (hook : Nat) (l : List HOOK)
    (hall : ∀ h ∈ l, h.type &&& hook ≠ 0 → h.command ≠ none) :
    l.find? (string_selects env subject hook) =
      l.find? (fun h => h.command.isSome && string_selects env subject hook h) := by
  induction l with
  | nil => rfl
  | cons h rest ih =>
    have hrest := ih (fun x hx => hall x (List.mem_cons_of_mem _ hx))
    cases hs : string_selects env subject hook h with
    | false =>
      rw [List.find?_cons_of_neg _ (by simp [hs]), List.find?_cons_of_neg _ (by simp [hs]), hrest]
    | true =>
      have ht : h.type &&& hook ≠ 0 := by
        simp only [string_selects, Bool.and_eq_true, decide_eq_true_eq] at hs
        exact hs.1
      have hc := hall h (List.mem_cons_self _ _) ht
      rw [List.find?_cons_of_pos _ hs, List.find?_cons_of_pos]
      cases hcc : h.command with
      | none => exact absurd hcc hc
      | some c => simp [hs]

/-- The loop of `mutt_addr_hook` ends in one of two ways: no node was selected
and `path` is as it was, or `path` was made from the command of the first
node that was selected. -/
theorem addr_hook_loop_cases (env : MsgEnv) (pathlen type : Nat) (ctx : Option CONTEXT)
    (hdr : HEADER) (l : List HOOK) : ∀ (cache : pattern_cache_t) (path : List Char),
    addr_hook_loop env pathlen type ctx hdr l cache path = (-1, path) ∨
    ∃ pre hook post cmd c, l = pre ++ hook :: post ∧ hook.command = some cmd ∧
      hook.type &&& type ≠ 0 ∧
      pattern_selects env ctx hdr c hook = true ∧
      (∀ q ∈ pre, q.command ≠ none → q.type &&& type ≠ 0 → ∃ c1,
        pattern_selects env ctx hdr c1 q = false) ∧
      addr_hook_loop env pathlen type ctx hdr l cache path =
        (0, env.mutt_make_string pathlen cmd ctx hdr) := by
  induction l with
  | nil => intro cache path; exact Or.inl rfl
  | cons hook rest ih =>
    intro cache path
    have lift : ∀ c2, (∀ q, q = hook → q.command ≠ none → q.type &&& type ≠ 0 → ∃ c1,
          pattern_selects env ctx hdr c1 q = false) →
        addr_hook_loop env pathlen type ctx hdr (hook :: rest) cache path =
          addr_hook_loop env pathlen type ctx hdr rest c2 path →
        (addr_hook_loop env pathlen type ctx hdr (hook :: rest) cache path = (-1, path) ∨
        ∃ pre hook1 post cmd c, hook :: rest = pre ++ hook1 :: post ∧ hook1.command = some cmd ∧
          hook1.type &&& type ≠ 0 ∧
          pattern_selects env ctx hdr c hook1 = true ∧
          (∀ q ∈ pre, q.command ≠ none → q.type &&& type ≠ 0 → ∃ c1,
            pattern_selects env ctx hdr c1 q = false) ∧
          addr_hook_loop env pathlen type ctx hdr (hook :: rest) cache path =
            (0, env.mutt_make_string pathlen cmd ctx hdr)) := by
      intro c2 hq he
      rcases ih c2 path with h | ⟨pre, hook1, post, cmd, c, h1, h2, h3, h4, h5, h6⟩
      · exact Or.inl (he.trans h)
      · refine Or.inr ⟨hook :: pre, hook1, post, cmd, c, by rw [h1]; rfl, h2, h3, h4, ?_,
          he.trans h6⟩
        intro q hqm
        rcases List.mem_cons.mp hqm with rfl | hqm
        · exact hq q rfl
        · exact h5 q hqm
    cases hc : hook.command with
    | none =>
      apply lift cache
      · intro q hq hqc; rw [hq, hc] at hqc; exact absurd rfl hqc
      · rw [addr_hook_loop, hc]
    | some cmd =>
      by_cases ht : hook.type &&& type ≠ 0
      · by_cases hs : (decide ((env.mutt_pattern_exec hook.pattern 0 ctx hdr cache).1 > 0) ^^
            hook.rx.not) = true
        · refine Or.inr ⟨[], hook, rest, cmd, cache, rfl, hc, ht, hs, by simp, ?_⟩
          rw [addr_hook_loop, hc]
          simp only
          rw [if_pos ht, if_pos hs]
        · apply lift (env.mutt_pattern_exec hook.pattern 0 ctx hdr cache).2
          · intro q hq _ _
            subst hq
            exact ⟨cache, by simpa [pattern_selects] using hs⟩
          · rw [addr_hook_loop, hc]
            simp only
            rw [if_pos ht, if_neg hs]
      · apply lift cache
        · intro q hq _ hqt; rw [hq] at hqt; exact absurd hqt ht
        · rw [addr_hook_loop, hc]
          simp only
          rw [if_neg ht]

/-- With no node of the type in the registry, `mutt_addr_hook` finds nothing. -/
theorem addr_hook_none_registered (env : MsgEnv) (path : List Char) (pathlen type : Nat)
    (ctx : Option CONTEXT) (hdr : HEADER) (Hooks : List HOOK)
    (h : ∀ q ∈ Hooks, q.type &&& type = 0) :
    mutt_addr_hook env path pathlen type ctx hdr Hooks = (-1, path) := by
  unfold mutt_addr_hook
  rcases addr_hook_loop_cases env pathlen type ctx hdr Hooks cache_zero path with
    h1 | ⟨pre, hook, post, cmd, c, h1, _, h3, _⟩
  · exact h1
  · exact absurd (h hook (by rw [h1]; simp)) h3

/-- C11.  Default save destination fallback: for every message for which
`mutt_addr_hook` selects no save-hook, `mutt_default_save` leaves in `path`
the mailbox name derived (`mutt_safe_path`, written behind `=`) from the
address chosen as follows: the reply-to address if the message is not from the
current user and reply-to is usable; else the from address if the message is
not from the current user and from is usable; else the first usable one of to
and cc; and it leaves the empty string when none is usable. -/
theorem C11_default_save_fallback (env : MsgEnv) (pathlen : Nat) (hdr : HEADER)
    (Hooks : List HOOK)
    (hno : (mutt_addr_hook env [] pathlen env.MUTT_SAVEHOOK env.Context hdr Hooks).1 ≠ 0) :
    mutt_default_save env pathlen hdr Hooks =
      match save_fallback env hdr with
      | some adr => env.snprintf_eq pathlen (env.mutt_safe_path env._POSIX_PATH_MAX adr)
      | none => [] := by
  have hpath : (mutt_addr_hook env [] pathlen env.MUTT_SAVEHOOK env.Context hdr Hooks).2 = [] := by
    unfold mutt_addr_hook at hno ⊢
    rcases addr_hook_loop_cases env pathlen env.MUTT_SAVEHOOK env.Context hdr Hooks cache_zero []
      with h1 | ⟨_, _, _, _, _, _, _, _, _, _, h6⟩
    · rw [h1]
    · rw [h6] at hno; exact absurd rfl hno
  unfold mutt_default_save save_fallback
  simp only [if_pos hno, hpath]
  by_cases hme : env.mutt_addr_is_user hdr.env.from_ = 0
  · by_cases h1 : has_mailbox hdr.env.reply_to = true
    · simp [hme, h1]
    · by_cases h2 : has_mailbox hdr.env.from_ = true
      · simp [hme, h1, h2]
      · by_cases h3 : has_mailbox hdr.env.to_ = true
        · simp [hme, h1, h2, h3, List.find?]
        · by_cases h4 : has_mailbox hdr.env.cc = true
          · simp [hme, h1, h2, h3, h4, List.find?]
          · simp [hme, h1, h2, h3, h4, List.find?]
  · by_cases h3 : has_mailbox hdr.env.to_ = true
    · simp [hme, h3, List.find?]
    · by_cases h4 : has_mailbox hdr.env.cc = true
      · simp [hme, h3, h4, List.find?]
      · simp [hme, h3, h4, List.find?]

/-- The first non-empty recipient list, as the code picks it in line 464. -/
theorem first_recipients_eq (hdr : HEADER) :
    first_recipients hdr =
      if hdr.env.to_ ≠ [] then some hdr.env.to_
      else if hdr.env.cc ≠ [] then some hdr.env.cc
      else if hdr.env.bcc ≠ [] then some hdr.env.bcc else none := by
  unfold first_recipients
  cases hdr.env.to_ <;> cases hdr.env.cc <;> cases hdr.env.bcc <;> simp [List.find?]

/-- The loop of `mutt_addr_hook` finds the first selected entry and makes the
path from its command; with no entry selected `path` is as it was. -/
theorem addr_hook_loop_first (env : MsgEnv) (pathlen type : Nat) (ctx : Option CONTEXT)
    (hdr : HEADER) (l : List HOOK) : ∀ (cache : pattern_cache_t) (path : List Char),
    addr_hook_loop env pathlen type ctx hdr l cache path =
      match first_selected env type ctx hdr l cache with
      | some h => (0, env.mutt_make_string pathlen (NONULL h.command) ctx hdr)
      | none => (-1, path) := by
  induction l with
  | nil => intro cache path; rfl
  | cons hook rest ih =>
    intro cache path
    rw [addr_hook_loop, first_selected]
    cases hc : hook.command with
    | none =>
      have hme : ¬ message_entry type hook = true := by simp [message_entry, hc]
      simp only [if_neg hme]
      exact ih cache path
    | some cmd =>
      simp only
      by_cases ht : hook.type &&& type ≠ 0
      · have hme : message_entry type hook = true := by simp [message_entry, hc, ht]
        rw [if_pos ht, if_pos hme]
        by_cases hs : (decide ((env.mutt_pattern_exec hook.pattern 0 ctx hdr cache).1 > 0) ^^
            hook.rx.not) = true
        · have hs2 : pattern_selects env ctx hdr cache hook = true := hs
          rw [if_pos hs, if_pos hs2]
          simp [hc, NONULL]
        · have hs2 : ¬ pattern_selects env ctx hdr cache hook = true := hs
          rw [if_neg hs, if_neg hs2]
          exact ih _ path
      · have hme : ¬ message_entry type hook = true := by simp [message_entry, hc, ht]
        rw [if_neg ht, if_neg hme]
        exact ih cache path

/-- The first selected entry is an entry of the list that has a command and a
type that intersects the mask. -/
theorem first_selected_entry (env : MsgEnv) (type : Nat) (ctx : Option CONTEXT) (hdr : HEADER)
    (l : List HOOK) : ∀ (cache : pattern_cache_t) (h : HOOK),
    first_selected env type ctx hdr l cache = some h → h ∈ l ∧ message_entry type h = true := by
  induction l with
  | nil => intro cache h hf; simp [first_selected] at hf
  | cons hook rest ih =>
    intro cache h hf
    rw [first_selected] at hf
    by_cases hme : message_entry type hook = true
    · rw [if_pos hme] at hf
      by_cases hs : pattern_selects env ctx hdr cache hook = true
      · rw [if_pos hs] at hf
        simp only [Option.some.injEq] at hf
        subst hf
        exact ⟨List.mem_cons_self _ _, hme⟩
      · rw [if_neg hs] at hf
        obtain ⟨h1, h2⟩ := ih _ h hf
        exact ⟨List.mem_cons_of_mem _ h1, h2⟩
    · rw [if_neg hme] at hf
      obtain ⟨h1, h2⟩ := ih _ h hf
      exact ⟨List.mem_cons_of_mem _ h1, h2⟩

/-- With an evaluator whose verdict does not depend on the cache it is handed,
the first selected entry is the first entry that has a command, a type that
intersects the mask and a pattern that selects the message. -/
theorem first_selected_find (env : MsgEnv) (type : Nat) (ctx : Option CONTEXT) (hdr : HEADER)
    (hmemo : ∀ p cache, (env.mutt_pattern_exec p 0 ctx hdr cache).1 =
      (env.mutt_pattern_exec p 0 ctx hdr cache_zero).1)
    (l : List HOOK) : ∀ (cache : pattern_cache_t),
    first_selected env type ctx hdr l cache =
      l.find? fun h => message_entry type h && pattern_selects env ctx hdr cache_zero h := by
  have hsel : ∀ cache h, pattern_selects env ctx hdr cache h =
      pattern_selects env ctx hdr cache_zero h := by
    intro cache h
    simp only [pattern_selects]
    rw [hmemo]
  induction l with
  | nil => intro cache; rfl
  | cons hook rest ih =>
    intro cache
    rw [first_selected]
    by_cases hme : message_entry type hook = true
    · rw [if_pos hme]
      by_cases hs : pattern_selects env ctx hdr cache hook = true
      · rw [if_pos hs, List.find?_cons_of_pos]
        rw [← hsel cache hook]
        simp [hme, hs]
      · rw [if_neg hs, List.find?_cons_of_neg, ih]
        rw [← hsel cache hook]
        simp [hs]
    · rw [if_neg hme, List.find?_cons_of_neg, ih]
      simp [hme]

/-- C16.  Copy-on-send destination.  What `mutt_select_fcc` returns is what
`mutt_pretty_mailbox` makes of the following path.  When an fcc-hook is
selected, that is, some entry has a command, a type that intersects
`MUTT_FCCHOOK` and a pattern for which "the pattern holds" XOR negate is true,
it is the path made (`mutt_make_string`) from the command of the first such
entry in registry order.  When none is selected it is the path derived from
the first non-empty recipient list (to, else cc, else bcc) under `Maildir`,
provided `$save_name` or `$force_name` is set, the message has a recipient and
`$force_name` is set or that path is writable; and `Outbox` in every other
case.  The return code of `mutt_addr_hook` is 0 exactly when an fcc-hook is
selected.  The evaluator is handed the cache as the evaluations before left
it; when its verdict does not depend on the cache, the first selected entry is
the first entry of the registry with a command, an intersecting type and a
pattern that selects the message. -/
theorem C16_select_fcc (env : MsgEnv) (path : List Char) (pathlen : Nat) (hdr : HEADER)
    (Hooks : List HOOK) :
    mutt_select_fcc env path pathlen hdr Hooks =
      env.mutt_pretty_mailbox
        (match first_selected env env.MUTT_FCCHOOK none hdr Hooks cache_zero with
        | some hook => env.mutt_make_string pathlen (NONULL hook.command) none hdr
        | none =>
          match first_recipients hdr with
          | some adr =>
            if (env.OPTSAVENAME = true ∨ env.OPTFORCENAME = true) ∧
                (env.OPTFORCENAME = true ∨ env.mx_access (env.mutt_concat_path (NONULL env.Maildir)
                  (env.mutt_safe_path env._POSIX_PATH_MAX adr) pathlen) = 0)
            then env.mutt_concat_path (NONULL env.Maildir)
              (env.mutt_safe_path env._POSIX_PATH_MAX adr) pathlen
            else env.strfcpy (NONULL env.Outbox) pathlen
          | none => env.strfcpy (NONULL env.Outbox) pathlen) pathlen ∧
    ((mutt_addr_hook env path pathlen env.MUTT_FCCHOOK none hdr Hooks).1 = 0 ↔
      (first_selected env env.MUTT_FCCHOOK none hdr Hooks cache_zero).isSome = true) ∧
    (∀ hook, first_selected env env.MUTT_FCCHOOK none hdr Hooks cache_zero = some hook →
      hook ∈ Hooks ∧ hook.command ≠ none ∧ hook.type &&& env.MUTT_FCCHOOK ≠ 0) ∧
    ((∀ p cache, (env.mutt_pattern_exec p 0 none hdr cache).1 =
        (env.mutt_pattern_exec p 0 none hdr cache_zero).1) →
      first_selected env env.MUTT_FCCHOOK none hdr Hooks cache_zero =
        Hooks.find? fun h => message_entry env.MUTT_FCCHOOK h &&
          pattern_selects env none hdr cache_zero h) := by
  have hloop := addr_hook_loop_first env pathlen env.MUTT_FCCHOOK none hdr Hooks cache_zero path
  refine ⟨?_, ?_, ?_, fun hmemo => first_selected_find env _ none hdr hmemo Hooks cache_zero⟩
  · unfold mutt_select_fcc select_fcc_path mutt_addr_hook
    rw [hloop, first_recipients_eq]
    cases hf : first_selected env env.MUTT_FCCHOOK none hdr Hooks cache_zero with
    | some hook => simp
    | none =>
      simp only
      congr 1
      by_cases h1 : hdr.env.to_ = []
      · by_cases h2 : hdr.env.cc = []
        · by_cases h3 : hdr.env.bcc = []
          · simp [h1, h2, h3]
          · by_cases hf : env.OPTFORCENAME = true <;> by_cases hs : env.OPTSAVENAME = true <;>
              simp [h1, h2, h3, hf, hs]
        · by_cases hf : env.OPTFORCENAME = true <;> by_cases hs : env.OPTSAVENAME = true <;>
            simp [h1, h2, hf, hs]
      · by_cases hf : env.OPTFORCENAME = true <;> by_cases hs : env.OPTSAVENAME = true <;>
          simp [h1, hf, hs]
  · unfold mutt_addr_hook
    rw [hloop]
    cases first_selected env env.MUTT_FCCHOOK none hdr Hooks cache_zero <;> simp
  · intro hook hf
    obtain ⟨h1, h2⟩ := first_selected_entry env _ none hdr Hooks cache_zero hook hf
    simp only [message_entry, Bool.and_eq_true, decide_eq_true_eq] at h2
    refine ⟨h1, ?_, h2.2⟩
    intro hc
    rw [hc] at h2
    simp at h2

/-! ## Matcher kinds and commands of the registered entries -/

/-- A value meets the union of two masks exactly when it meets one of them. -/
theorem land_lor_ne_zero_iff (x a b : Nat) :
    x &&& (a ||| b) ≠ 0 ↔ x &&& a ≠ 0 ∨ x &&& b ≠ 0 := by
  constructor
  · intro h
    by_contra hc
    push_neg at hc
    apply h
    apply Nat.eq_of_testBit_eq
    intro i
    have h1 := congrArg (fun n => n.testBit i) hc.1
    have h2 := congrArg (fun n => n.testBit i) hc.2
    simp only [Nat.testBit_land, Nat.testBit_lor, Nat.zero_testBit] at h1 h2 ⊢
    cases hx : x.testBit i <;> simp_all
  · rintro (h | h)
    · exact land_lor_ne_zero_of_left x a b h
    · exact land_lor_ne_zero_of_right x a b h

/-- Two hook type constants that share a bit are the same constant. -/
theorem hook_type_eq_of_meet (k : HookTypes) (hk : distinct_bits k) (a b : Nat)
    (ha : a ∈ hook_types k) (hb : b ∈ hook_types k) (h : a &&& b ≠ 0) : a = b := by
  by_contra hne
  have hsym : Symmetric fun a b : Nat => a &&& b = 0 := fun x y hxy => by
    show y &&& x = 0
    rw [Nat.land_comm]; exact hxy
  exact h (hk.2.forall hsym ha hb hne)

/-- The pattern types are hook type constants. -/
theorem pattern_types_subset (k : HookTypes) (t : Nat) (h : t ∈ pattern_types k) :
    t ∈ hook_types k := by
  simp only [pattern_types, List.mem_cons, List.mem_singleton, List.not_mem_nil, or_false] at h
  simp only [hook_types, List.mem_cons, List.mem_singleton, List.not_mem_nil, or_false]
  rcases h with h | h | h | h | h | h <;> simp [h]

/-- The test of line 186 on a hook type constant: it holds exactly for the
pattern types. -/
theorem pattern_mask_iff (env : Env) (hk : distinct_bits env.toHookTypes) (t : Nat)
    (ht : t ∈ hook_types env.toHookTypes) :
    t &&& (env.MUTT_SENDHOOK ||| env.MUTT_SEND2HOOK ||| env.MUTT_SAVEHOOK |||
      env.MUTT_FCCHOOK ||| env.MUTT_MESSAGEHOOK ||| env.MUTT_REPLYHOOK) ≠ 0 ↔
    t ∈ pattern_types env.toHookTypes := by
  constructor
  · intro h
    simp only [land_lor_ne_zero_iff] at h
    have e : ∀ x, x ∈ pattern_types env.toHookTypes → t &&& x ≠ 0 → t ∈ pattern_types env.toHookTypes :=
      fun x hx hm => (hook_type_eq_of_meet _ hk t x ht (pattern_types_subset _ x hx) hm) ▸ hx
    rcases h with ((((h | h) | h) | h) | h) | h
    · exact e _ (by simp [pattern_types]) h
    · exact e _ (by simp [pattern_types]) h
    · exact e _ (by simp [pattern_types]) h
    · exact e _ (by simp [pattern_types]) h
    · exact e _ (by simp [pattern_types]) h
    · exact e _ (by simp [pattern_types]) h
  · intro hp
    have hs := land_self_ne_zero t (hk.1 t ht)
    simp only [pattern_types, List.mem_cons, List.mem_singleton, List.not_mem_nil, or_false] at hp
    simp only [land_lor_ne_zero_iff]
    rcases hp with hp | hp | hp | hp | hp | hp <;> rw [hp] at hs <;> rw [hp] <;> tauto

/-- What `compile_matcher` returns on success: a pattern alone when the type
passes the test of line 186, a regex alone otherwise. -/
theorem compile_matcher_ok (env : Env) (data : Nat) (pattern : cstr) (pat : Option pattern_t)
    (rx : Option regex_t) (h : compile_matcher env data pattern = .ok (pat, rx)) :
    (data &&& (env.MUTT_SENDHOOK ||| env.MUTT_SEND2HOOK ||| env.MUTT_SAVEHOOK |||
      env.MUTT_FCCHOOK ||| env.MUTT_MESSAGEHOOK ||| env.MUTT_REPLYHOOK) ≠ 0 ∧
      pat.isSome = true ∧ rx = none) ∨
    (data &&& (env.MUTT_SENDHOOK ||| env.MUTT_SEND2HOOK ||| env.MUTT_SAVEHOOK |||
      env.MUTT_FCCHOOK ||| env.MUTT_MESSAGEHOOK ||| env.MUTT_REPLYHOOK) = 0 ∧
      pat = none ∧ rx.isSome = true) := by
  unfold compile_matcher at h
  by_cases hm : data &&& (env.MUTT_SENDHOOK ||| env.MUTT_SEND2HOOK ||| env.MUTT_SAVEHOOK |||
      env.MUTT_FCCHOOK ||| env.MUTT_MESSAGEHOOK ||| env.MUTT_REPLYHOOK) ≠ 0
  · rw [if_pos hm] at h
    split at h
    · simp at h
    · simp only [Except.ok.injEq, Prod.mk.injEq] at h
      exact Or.inl ⟨hm, by rw [← h.1]; rfl, h.2.symm⟩
  · rw [if_neg hm] at h
    split at h
    · simp at h
    · simp only [Except.ok.injEq, Prod.mk.injEq] at h
      exact Or.inr ⟨not_not.mp hm, h.1.symm, by rw [← h.2]; rfl⟩

/-- A call of `mutt_parse_hook` with a hook type constant keeps every matcher
fitting its type. -/
theorem parse_hook_matcher_fits (env : Env) (hk : distinct_bits env.toHookTypes) (s : List Char)
    (data : Nat) (hd : data ∈ hook_types env.toHookTypes) (st : State) (r : Ret)
    (h : mutt_parse_hook env s data st = .done r)
    (hinv : ∀ q ∈ st.Hooks, matcher_fits env.toHookTypes q) :
    ∀ q ∈ r.st.Hooks, matcher_fits env.toHookTypes q := by
  rcases parse_hook_cases env s data st r h with ⟨msg, rfl⟩ | ⟨a, _, hfound | happ⟩
  · exact hinv
  · obtain ⟨l, hscan, rfl⟩ := hfound
    rcases scan_hooks_some env data a st.Hooks l hscan with
      ⟨_, rfl, _⟩ | ⟨_, pre, p, post, hl, rfl, _⟩
    · exact hinv
    · intro q hq
      simp only [List.mem_append, List.mem_cons] at hq
      rcases hq with hq | rfl | hq
      · exact hinv q (by rw [hl]; simp [hq])
      · exact hinv p (by rw [hl]; simp)
      · exact hinv q (by rw [hl]; simp [hq])
  · obtain ⟨_, pat, rx, hc, rfl⟩ := happ
    intro q hq
    simp only [List.mem_append, List.mem_singleton] at hq
    rcases hq with hq | rfl
    · exact hinv q hq
    · refine ⟨hd, ?_, ?_⟩
      · intro hp
        rcases compile_matcher_ok env data a.pattern pat rx hc with ⟨_, h2, h3⟩ | ⟨h1, _, _⟩
        · exact ⟨h2, h3⟩
        · exact absurd h1 ((pattern_mask_iff env hk data hd).2 hp)
      · intro hp
        rcases compile_matcher_ok env data a.pattern pat rx hc with ⟨h1, _, _⟩ | ⟨_, h2, h3⟩
        · exact absurd ((pattern_mask_iff env hk data hd).1 h1) hp
        · exact ⟨h2, h3⟩

/-- In every state reached through the command table every matcher fits its
type. -/
theorem table_reachable_matcher_fits (k : HookTypes) (hk : distinct_bits k) (st : State)
    (h : TableReachable k st) : ∀ q ∈ st.Hooks, matcher_fits k q := by
  induction h with
  | start n => intro q hq; simp at hq
  | parse_hook env s data st r he hd _ hrun ih =>
    subst he
    exact parse_hook_matcher_fits env hk s data hd st r hrun ih
  | parse_unhook env fuel s st r _ hrun ih =>
    obtain ⟨types, ht⟩ := parse_unhook_state env fuel s st r hrun
    intro q hq
    rw [ht] at hq
    exact ih q ((foldl_delete_hooks_sublist types st.Hooks).subset hq)
  | dispatch st type inhook _ ih => exact ih

/-- C19.  Matcher-kind invariant and dispatch safety: when the hook type
constants are distinct single bits, in every state reachable from the empty
registry by registrations with one of these constants and by removals, every
entry has exactly one matcher, a pattern if and only if its type is one of
send, send2, save, fcc, message, reply, and a regex otherwise (command
overwrite and `delete_hooks` keep this).  So a lookup or pass for a regex type
only consults entries that have a regex, and one for a pattern type only
entries that have a pattern. -/
theorem C19_matcher_kind (k : HookTypes) (st : State) (h : HOOK)
    (hk : distinct_bits k) (hreach : TableReachable k st) (hh : h ∈ st.Hooks) :
    h.type ∈ hook_types k ∧
    (h.pattern.isSome = true ↔ h.type ∈ pattern_types k) ∧
    (h.rx.rx.isSome = true ↔ h.type ∉ pattern_types k) ∧
    (h.pattern.isSome = true ↔ h.rx.rx = none) ∧
    (∀ t ∈ hook_types k, t ∉ pattern_types k → h.type &&& t ≠ 0 → h.rx.rx.isSome = true) ∧
    (∀ t ∈ pattern_types k, h.type &&& t ≠ 0 → h.pattern.isSome = true) := by
  obtain ⟨h1, h2, h3⟩ := table_reachable_matcher_fits k hk st hreach h hh
  have e1 : h.pattern.isSome = true ↔ h.type ∈ pattern_types k := by
    constructor
    · intro hp
      by_contra hn
      rw [(h3 hn).1] at hp
      simp at hp
    · exact fun hp => (h2 hp).1
  have e2 : h.rx.rx.isSome = true ↔ h.type ∉ pattern_types k := by
    constructor
    · intro hr hp
      rw [(h2 hp).2] at hr
      simp at hr
    · exact fun hn => (h3 hn).2
  refine ⟨h1, e1, e2, ?_, ?_, ?_⟩
  · constructor
    · exact fun hp => (h2 (e1.1 hp)).2
    · intro hr
      by_contra hn
      have := (h3 (fun hp => hn (e1.2 hp))).2
      rw [hr] at this
      simp at this
  · intro t ht hnp hm
    have := hook_type_eq_of_meet k hk h.type t h1 ht hm
    exact e2.2 (this ▸ hnp)
  · intro t ht hm
    have := hook_type_eq_of_meet k hk h.type t h1 (pattern_types_subset k t ht) hm
    exact e1.2 (this ▸ ht)

/-- The command of a registration of a type outside mbox-hook, save-hook and
fcc-hook is the token of line 77, which is not `NULL`. -/
theorem hook_args_command (env : Env) (s : List Char) (data : Nat) (a : Args)
    (h : hook_args env s data = .done (.args a))
    (hd : data &&& (env.MUTT_MBOXHOOK ||| env.MUTT_SAVEHOOK ||| env.MUTT_FCCHOOK) = 0) :
    a.command ≠ none := by
  unfold hook_args at h
  simp only [hd, ne_eq, not_true_eq_false, if_false] at h
  repeat' split at h
  all_goals first
    | exact absurd h (by simp)
    | (obtain ⟨r, _, hr⟩ := bind_done _ _ _ h
       cases r with
       | error msg => simp at hr
       | ok p =>
         simp only [Run.done.injEq, Parsed.args.injEq] at hr
         rw [← hr]
         simp)

/-- A call of `mutt_parse_hook` leaves nodes without a command only among the
mbox-hooks, save-hooks and fcc-hooks, whose command goes through
`mutt_expand_path` and `safe_strdup` (lines 141-148). -/
theorem parse_hook_commandless (env : Env) (s : List Char) (data : Nat) (st : State) (r : Ret)
    (h : mutt_parse_hook env s data st = .done r)
    (hinv : ∀ q ∈ st.Hooks, q.command = none →
      q.type &&& (env.MUTT_MBOXHOOK ||| env.MUTT_SAVEHOOK ||| env.MUTT_FCCHOOK) ≠ 0) :
    ∀ q ∈ r.st.Hooks, q.command = none →
      q.type &&& (env.MUTT_MBOXHOOK ||| env.MUTT_SAVEHOOK ||| env.MUTT_FCCHOOK) ≠ 0 := by
  rcases parse_hook_cases env s data st r h with ⟨msg, rfl⟩ | ⟨a, hargs, hfound | happ⟩
  · exact hinv
  · obtain ⟨l, hscan, rfl⟩ := hfound
    rcases scan_hooks_some env data a st.Hooks l hscan with
      ⟨_, rfl, _⟩ | ⟨_, pre, p, post, hl, rfl, hp, _⟩
    · exact hinv
    · intro q hq hc
      simp only [List.mem_append, List.mem_cons] at hq
      rcases hq with hq | rfl | hq
      · exact hinv q (by rw [hl]; simp [hq]) hc
      · intro hz
        simp only at hc hz
        rw [hp] at hz
        exact hook_args_command env s data a hargs hz hc
      · exact hinv q (by rw [hl]; simp [hq]) hc
  · obtain ⟨_, pat, rx, _, rfl⟩ := happ
    intro q hq hc
    simp only [List.mem_append, List.mem_singleton] at hq
    rcases hq with hq | rfl
    · exact hinv q hq hc
    · intro hz
      exact hook_args_command env s data a hargs hz hc

/-- In every state reached through the command table a node without a command
is an mbox-hook, a save-hook or an fcc-hook. -/
theorem table_reachable_commandless (k : HookTypes) (st : State) (h : TableReachable k st) :
    ∀ q ∈ st.Hooks, q.command = none →
      q.type &&& (k.MUTT_MBOXHOOK ||| k.MUTT_SAVEHOOK ||| k.MUTT_FCCHOOK) ≠ 0 := by
  induction h with
  | start n => intro q hq; simp at hq
  | parse_hook env s data st r he hd _ hrun ih =>
    subst he
    exact parse_hook_commandless env s data st r hrun ih
  | parse_unhook env fuel s st r _ hrun ih =>
    obtain ⟨types, ht⟩ := parse_unhook_state env fuel s st r hrun
    intro q hq
    rw [ht] at hq
    exact ih q ((foldl_delete_hooks_sublist types st.Hooks).subset hq)
  | dispatch st type inhook _ ih => exact ih

/-- In every state reached through the command table, with hook types that are
distinct single bits, every charset-hook and every iconv-hook has a command. -/
theorem table_reachable_string_hooks (k : HookTypes) (hk : distinct_bits k) (st : State)
    (hreach : TableReachable k st) (t : Nat) (ht : t = k.MUTT_CHARSETHOOK ∨ t = k.MUTT_ICONVHOOK) :
    ∀ q ∈ st.Hooks, q.type &&& t ≠ 0 → q.command ≠ none := by
  intro q hq hm hc
  have hty := (table_reachable_matcher_fits k hk st hreach q hq).1
  have htm : t ∈ hook_types k := by
    rcases ht with rfl | rfl <;> simp [hook_types]
  have he := hook_type_eq_of_meet k hk q.type t hty htm hm
  have hz := table_reachable_commandless k st hreach q hq hc
  rw [he] at hz
  apply hz
  have hp := hk.2
  simp only [hook_types, List.pairwise_cons, List.mem_cons, List.mem_singleton,
    forall_eq_or_imp, forall_eq] at hp
  have comm : ∀ a b : Nat, a &&& b = 0 → b &&& a = 0 := fun a b h => by
    rw [Nat.land_comm]; exact h
  by_contra hne
  rcases (land_lor_ne_zero_iff _ _ _).1 hne with h1 | h1
  · rcases (land_lor_ne_zero_iff _ _ _).1 h1 with h2 | h2
    · rcases ht with rfl | rfl
      · exact h2 (comm _ _ (by tauto))
      · exact h2 (comm _ _ (by tauto))
    · rcases ht with rfl | rfl
      · exact h2 (comm _ _ (by tauto))
      · exact h2 (comm _ _ (by tauto))
  · rcases ht with rfl | rfl
    · exact h1 (comm _ _ (by tauto))
    · exact h1 (comm _ _ (by tauto))

/-- C15.  Single-result string lookup skips commandless entries: in every
registry reachable from the empty one by registrations through the command
table (hook types that are distinct single bits) and by removals,
`mutt_charset_hook` and `mutt_iconv_hook` return the command of the first
entry, in registry order, that has a command, whose type intersects the
queried type and for which "there is a subject that the regex matches" XOR
negate is true, and `NULL` if there is no such entry.  No entry whose type
intersects the queried type is without a command there (lines 77-83 refuse a
registration without a command, and only the command of an mbox-hook,
save-hook or fcc-hook goes through `safe_strdup`), so the entry the loop of
lines 480-485 stops at always has one. -/
theorem C15_string_hook_lookup (env : Env) (chs : cstr) (st : State)
    (hk : distinct_bits env.toHookTypes) (hreach : TableReachable env.toHookTypes st) :
    mutt_charset_hook env chs st.Hooks =
        (st.Hooks.find? fun h => h.command.isSome &&
          string_selects env chs env.MUTT_CHARSETHOOK h).bind HOOK.command ∧
      mutt_iconv_hook env chs st.Hooks =
        (st.Hooks.find? fun h => h.command.isSome &&
          string_selects env chs env.MUTT_ICONVHOOK h).bind HOOK.command ∧
      ∀ h ∈ st.Hooks, h.type &&& env.MUTT_CHARSETHOOK ≠ 0 ∨ h.type &&& env.MUTT_ICONVHOOK ≠ 0 →
        h.command ≠ none := by
  have h1 := table_reachable_string_hooks env.toHookTypes hk st hreach env.MUTT_CHARSETHOOK
    (Or.inl rfl)
  have h2 := table_reachable_string_hooks env.toHookTypes hk st hreach env.MUTT_ICONVHOOK
    (Or.inr rfl)
  refine ⟨?_, ?_, ?_⟩
  · unfold mutt_charset_hook
    rw [string_hook_eq, find_with_command env chs _ st.Hooks h1]
  · unfold mutt_iconv_hook
    rw [string_hook_eq, find_with_command env chs _ st.Hooks h2]
  · intro h hh hm
    rcases hm with hm | hm
    · exact h1 h hh hm
    · exact h2 h hh hm

/-! ## The later claims on configuration lines of the sample environment -/

/-- C11 at a message from the current user `user@x` to `friend@y`, with no
save-hook registered: the destination is derived from `friend@y`. -/
theorem C11_default_save_fallback_witness :
    (mutt_addr_hook Sample.msg_env [] 256 Sample.msg_env.MUTT_SAVEHOOK Sample.msg_env.Context
      (Sample.message "user@x" "friend@y") Sample.start.Hooks).1 ≠ 0 ∧
    save_fallback Sample.msg_env (Sample.message "user@x" "friend@y") =
      some [⟨none, some "friend@y".toList⟩] ∧
    mutt_default_save Sample.msg_env 256 (Sample.message "user@x" "friend@y")
      Sample.start.Hooks = "=friend".toList := by
  have h := C11_default_save_fallback Sample.msg_env 256 (Sample.message "user@x" "friend@y")
    Sample.start.Hooks (by decide)
  refine ⟨by decide, by decide, ?_⟩
  rw [h]
  decide

/-- C16 at a message from `user@x` to `friend@y`: with fcc-hooks for `boss` and
for `user` the path is made from the command of the second, the first one
selected; with no fcc-hook registered it is the path derived from `friend@y`
under `~/Mail`, which is writable. -/
theorem C16_select_fcc_witness :
    mutt_select_fcc Sample.msg_env [] 256 (Sample.message "user@x" "friend@y")
      (Sample.configure ["fcc-hook boss =bosses", "fcc-hook user =mine", "fcc-hook x =late"]
        Sample.start).Hooks = "=mine".toList ∧
    mutt_select_fcc Sample.msg_env [] 256 (Sample.message "user@x" "friend@y")
      Sample.start.Hooks = "~/Mail/friend".toList ∧
    mutt_select_fcc Sample.msg_env [] 256 (Sample.message "user@x" "enemy@y")
      Sample.start.Hooks = "~/sent".toList := by
  refine ⟨?_, ?_, ?_⟩
  · rw [(C16_select_fcc Sample.msg_env [] 256 _ _).1]; decide
  · rw [(C16_select_fcc Sample.msg_env [] 256 _ _).1]; decide
  · rw [(C16_select_fcc Sample.msg_env [] 256 _ _).1]; decide

/-- C12 as stated fails: `save-hook P A` followed by `save-hook !P B` leaves two
entries of the single-command type save-hook with the same pattern source text
`P`; they differ in the negation flag only. -/
theorem C12_negated_twin_coexists :
    Reachable Sample.env.toHookTypes
      (Sample.configure ["save-hook P A", "save-hook !P B"] Sample.start) ∧
    16 &&& multi_mask Sample.env.toHookTypes = 0 ∧
    (Sample.configure ["save-hook P A", "save-hook !P B"] Sample.start).Hooks =
      [⟨0, 16, ⟨some ['P'], none, false⟩, some ['A'], some ⟨['P']⟩⟩,
        ⟨1, 16, ⟨some ['P'], none, true⟩, some ['B'], some ⟨['P']⟩⟩] :=
  ⟨Reachable.parse_hook Sample.env "!P B".toList 16
      (Sample.configure ["save-hook P A"] Sample.start)
      ⟨0, none, Sample.configure ["save-hook P A", "save-hook !P B"] Sample.start⟩ rfl
      (Reachable.parse_hook Sample.env "P A".toList 16 Sample.start
        ⟨0, none, Sample.configure ["save-hook P A"] Sample.start⟩ rfl (Reachable.start 0)
        (by decide))
      (by decide),
    by decide, by decide⟩

/-- C12 as amended, at the registry `save-hook P A`, `save-hook Q B`. -/
theorem C12_single_command_unique_witness :
    Reachable Sample.env.toHookTypes
      (Sample.configure ["save-hook P A", "save-hook Q B"] Sample.start) ∧
    ¬ ((16 : Nat) = 16 ∧ false = false ∧ NONULL (some ['P']) = NONULL (some ['Q'])) :=
  have hr : Reachable Sample.env.toHookTypes
      (Sample.configure ["save-hook P A", "save-hook Q B"] Sample.start) :=
    Reachable.parse_hook Sample.env "Q B".toList 16
      (Sample.configure ["save-hook P A"] Sample.start)
      ⟨0, none, Sample.configure ["save-hook P A", "save-hook Q B"] Sample.start⟩ rfl
      (Reachable.parse_hook Sample.env "P A".toList 16 Sample.start
        ⟨0, none, Sample.configure ["save-hook P A"] Sample.start⟩ rfl (Reachable.start 0)
        (by decide))
      (by decide)
  ⟨hr, C12_single_command_unique Sample.env.toHookTypes _ 0 1
    ⟨0, 16, ⟨some ['P'], none, false⟩, some ['A'], some ⟨['P']⟩⟩
    ⟨1, 16, ⟨some ['Q'], none, false⟩, some ['B'], some ⟨['Q']⟩⟩ hr (by decide) (by decide)
    (by decide) (by decide)⟩

/-- C20 at a save-hook and its negated twin, which are two distinct rules, and
at two folder-hooks for one pattern with different commands. -/
theorem C20_uniqueness_with_negation_witness :
    Reachable Sample.env.toHookTypes
      (Sample.configure ["save-hook P A", "save-hook !P B"] Sample.start) ∧
    ¬ ((16 : Nat) = 16 ∧ false = true ∧ NONULL (some ['P']) = NONULL (some ['P'])) ∧
    (Sample.configure ["folder-hook P A", "folder-hook P B", "folder-hook P A"]
      Sample.start).Hooks.map HOOK.command = [some ['A'], some ['B']] :=
  have hr : Reachable Sample.env.toHookTypes
      (Sample.configure ["save-hook P A", "save-hook !P B"] Sample.start) :=
    Reachable.parse_hook Sample.env "!P B".toList 16
      (Sample.configure ["save-hook P A"] Sample.start)
      ⟨0, none, Sample.configure ["save-hook P A", "save-hook !P B"] Sample.start⟩ rfl
      (Reachable.parse_hook Sample.env "P A".toList 16 Sample.start
        ⟨0, none, Sample.configure ["save-hook P A"] Sample.start⟩ rfl (Reachable.start 0)
        (by decide))
      (by decide)
  ⟨hr, (C20_uniqueness_with_negation Sample.env.toHookTypes _ 0 1
    ⟨0, 16, ⟨some ['P'], none, false⟩, some ['A'], some ⟨['P']⟩⟩
    ⟨1, 16, ⟨some ['P'], none, true⟩, some ['B'], some ⟨['P']⟩⟩ hr (by decide) (by decide)
    (by decide)).2 (by decide), by decide⟩

/-- C13, the code at the failing input: an account-hook whose command is
`unhook *`.  While `mutt_account_hook` executes the command, `inhook` is set
but `current_hook_type` is 0, so `mutt_parse_unhook` returns 0 and frees every
node; the pass then reads `next` of the freed node.  Inside a folder-hook pass
the same command is refused. -/
theorem C13_unhook_all_inside_account_hook :
    mutt_parse_unhook Sample.env 4 ['*']
        { Sample.configure ["account-hook imap unhook *", "account-hook imap B"] Sample.start with
          inhook := true } =
      .done ⟨0, none, ⟨[], 0, true, 2⟩⟩ ∧
    mutt_account_hook Sample.env (Sample.rc_line 1) 8 (some "imap".toList)
        (Sample.configure ["account-hook imap unhook *", "account-hook imap B"] Sample.start) =
      .fault .use_after_free ∧
    mutt_folder_hook Sample.env (Sample.rc_line 1) 8 (some "inbox".toList)
        (Sample.configure ["folder-hook inbox unhook *", "folder-hook inbox B"] Sample.start) =
      .done (["unhook *".toList],
        Sample.configure ["folder-hook inbox unhook *", "folder-hook inbox B"] Sample.start) := by
  decide

/-- C19 at the registry of a folder-hook and a save-hook. -/
theorem C19_matcher_kind_witness :
    distinct_bits Sample.types ∧
    (Sample.configure ["folder-hook inbox A", "save-hook P B"] Sample.start).Hooks =
      [⟨0, 1, ⟨some "inbox".toList, some ⟨"inbox".toList⟩, false⟩, some ['A'], none⟩,
        ⟨1, 16, ⟨some ['P'], none, false⟩, some ['B'], some ⟨['P']⟩⟩] ∧
    ((16 : Nat) ∈ pattern_types Sample.types ∧ (1 : Nat) ∉ pattern_types Sample.types) := by
  have hk : distinct_bits Sample.types := ⟨by decide, by decide⟩
  have hr : TableReachable Sample.types
      (Sample.configure ["folder-hook inbox A", "save-hook P B"] Sample.start) :=
    TableReachable.parse_hook Sample.env "P B".toList 16
      (Sample.configure ["folder-hook inbox A"] Sample.start)
      ⟨0, none, Sample.configure ["folder-hook inbox A", "save-hook P B"] Sample.start⟩ rfl
      (by decide)
      (TableReachable.parse_hook Sample.env "inbox A".toList 1 Sample.start
        ⟨0, none, Sample.configure ["folder-hook inbox A"] Sample.start⟩ rfl (by decide)
        (TableReachable.start 0) (by decide))
      (by decide)
  have h1 := C19_matcher_kind Sample.types _
    ⟨1, 16, ⟨some ['P'], none, false⟩, some ['B'], some ⟨['P']⟩⟩ hk hr (by decide)
  have h2 := C19_matcher_kind Sample.types _
    ⟨0, 1, ⟨some "inbox".toList, some ⟨"inbox".toList⟩, false⟩, some ['A'], none⟩ hk hr
    (by decide)
  exact ⟨hk, by decide, h1.2.1.1 (by decide), h2.2.2.1.1 (by decide)⟩

/-- C15 at two charset-hooks, looked up for `utf8`. -/
theorem C15_string_hook_lookup_witness :
    distinct_bits Sample.env.toHookTypes ∧
    (Sample.configure ["charset-hook latin ISO-8859-1", "charset-hook utf UTF-8"]
      Sample.start).Hooks =
      [⟨0, 32, ⟨some "latin".toList, some ⟨"latin".toList⟩, false⟩, some "ISO-8859-1".toList, none⟩,
        ⟨1, 32, ⟨some "utf".toList, some ⟨"utf".toList⟩, false⟩, some "UTF-8".toList, none⟩] ∧
    mutt_charset_hook Sample.env (some "utf8".toList)
      (Sample.configure ["charset-hook latin ISO-8859-1", "charset-hook utf UTF-8"]
        Sample.start).Hooks = some "UTF-8".toList ∧
    mutt_iconv_hook Sample.env (some "utf8".toList)
      (Sample.configure ["charset-hook latin ISO-8859-1", "charset-hook utf UTF-8"]
        Sample.start).Hooks = none := by
  have hk : distinct_bits Sample.env.toHookTypes := ⟨by decide, by decide⟩
  have hr : TableReachable Sample.env.toHookTypes
      (Sample.configure ["charset-hook latin ISO-8859-1", "charset-hook utf UTF-8"]
        Sample.start) :=
    TableReachable.parse_hook Sample.env "utf UTF-8".toList 32
      (Sample.configure ["charset-hook latin ISO-8859-1"] Sample.start)
      ⟨0, none, Sample.configure ["charset-hook latin ISO-8859-1", "charset-hook utf UTF-8"]
        Sample.start⟩ rfl (by decide)
      (TableReachable.parse_hook Sample.env "latin ISO-8859-1".toList 32 Sample.start
        ⟨0, none, Sample.configure ["charset-hook latin ISO-8859-1"] Sample.start⟩ rfl
        (by decide) (TableReachable.start 0) (by decide))
      (by decide)
  have h := C15_string_hook_lookup Sample.env (some "utf8".toList) _ hk hr
  refine ⟨hk, by decide, ?_, ?_⟩
  · rw [h.1]; decide
  · rw [h.2.1]; decide

/-! ## Message passes and the active-hook marker -/

/-- Whenever the loop of `mutt_folder_hook` comes to an end, `current_hook_type`
is 0. -/
theorem folder_hook_loop_marker (env : Env) (rc_line : Interp) (path : cstr) (fuel : Nat) :
    ∀ (tmp : Option HOOK) (st : State) (p : Pass),
      folder_hook_loop env rc_line path fuel tmp st = .done p → p.2.current_hook_type = 0 := by
  induction fuel with
  | zero => intro tmp st p h; simp [folder_hook_loop] at h
  | succ n ih =>
    intro tmp st p h
    cases tmp with
    | none =>
      simp only [folder_hook_loop, Run.done.injEq] at h
      rw [← h]
    | some tmp =>
      have hcont : ∀ (st1 : State) (q : Pass),
          ((hook_next tmp.addr st1.Hooks).bind fun nx =>
            folder_hook_loop env rc_line path n nx st1) = .done q → q.2.current_hook_type = 0 := by
        intro st1 q hq
        obtain ⟨nx, _, h2⟩ := bind_done _ _ _ hq
        exact ih nx st1 q h2
      rw [folder_hook_loop] at h
      cases hc : tmp.command with
      | none =>
        rw [hc] at h
        exact hcont st p h
      | some cmd =>
        rw [hc] at h
        simp only at h
        split at h
        · split at h
          · simp only [Run.done.injEq] at h
            rw [← h]
          · obtain ⟨q, hq, rfl⟩ := after_done _ _ _ h
            exact hcont _ q hq
        · exact hcont st p h

/-- Reading `next` of the node at the head of a tail piece of a list whose
nodes have distinct addresses. -/
theorem hook_next_suffix (x : HOOK) (t l : List HOOK) (hs : x :: t <:+ l)
    (hwf : (l.map HOOK.addr).Nodup) : hook_next x.addr l = .done t.head? := by
  obtain ⟨pre, rfl⟩ := hs
  exact hook_next_split pre t x hwf

/-- The nodes behind an address are a tail piece of the list. -/
theorem behind_suffix (a : Nat) (l : List HOOK) : behind a l <:+ l := by
  induction l with
  | nil => exact List.suffix_refl _
  | cons h rest ih =>
    rw [behind]
    by_cases he : h.addr = a
    · rw [if_pos he]; exact List.suffix_cons h rest
    · rw [if_neg he]; exact ih.trans (List.suffix_cons h rest)

/-- Reading `next` of a node that is in the list gives the first of the nodes
behind it. -/
theorem hook_next_behind (a : Nat) (l : List HOOK) (h : ∃ x ∈ l, x.addr = a) :
    hook_next a l = .done (behind a l).head? := by
  induction l with
  | nil => obtain ⟨x, hx, _⟩ := h; simp at hx
  | cons y rest ih =>
    rw [hook_next, behind]
    by_cases he : y.addr = a
    · rw [if_pos he, if_pos he]
    · rw [if_neg he, if_neg he]
      apply ih
      obtain ⟨x, hx, hxa⟩ := h
      rcases List.mem_cons.mp hx with rfl | hx
      · exact absurd hxa he
      · exact ⟨x, hx, hxa⟩

/-- When reading `next` of a node succeeds, the node is in the list and what
is read is the first of the nodes behind it. -/
theorem hook_next_done (a : Nat) (l : List HOOK) (nx : Option HOOK)
    (h : hook_next a l = .done nx) : (∃ x ∈ l, x.addr = a) ∧ nx = (behind a l).head? := by
  induction l with
  | nil => simp [hook_next] at h
  | cons y rest ih =>
    rw [hook_next] at h
    rw [behind]
    by_cases he : y.addr = a
    · rw [if_pos he] at h
      rw [if_pos he]
      simp only [Run.done.injEq] at h
      exact ⟨⟨y, List.mem_cons_self _ _, he⟩, h.symm⟩
    · rw [if_neg he] at h
      rw [if_neg he]
      obtain ⟨⟨x, hx, hxa⟩, h2⟩ := ih h
      exact ⟨⟨x, List.mem_cons_of_mem _ hx, hxa⟩, h2⟩

/-- One turn of the loop of `mutt_message_hook` at a node that has no command
or whose type does not intersect the mask. -/
theorem message_hook_loop_skip (env : MsgEnv) (rc_line : Interp) (ctx : Option CONTEXT)
    (hdr : HEADER) (type : Nat) (fuel : Nat) (tmp : HOOK) (cache : pattern_cache_t) (s : State)
    (h : message_entry type tmp = false) :
    message_hook_loop env rc_line ctx hdr type (fuel + 1) (some tmp) cache s =
      (hook_next tmp.addr s.Hooks).bind fun nx =>
        message_hook_loop env rc_line ctx hdr type fuel nx cache s := by
  rw [message_hook_loop]
  cases hc : tmp.command with
  | none => rfl
  | some cmd =>
    simp only
    have ht : ¬ tmp.type &&& type ≠ 0 := by
      intro hh
      simp [message_entry, hc, hh] at h
    rw [if_neg ht]

/-- One turn of the loop of `mutt_message_hook` at a node that has a command
and a type that intersects the mask. -/
theorem message_hook_loop_eval (env : MsgEnv) (rc_line : Interp) (ctx : Option CONTEXT)
    (hdr : HEADER) (type : Nat) (fuel : Nat) (tmp : HOOK) (cmd : List Char)
    (cache : pattern_cache_t) (s : State) (hc : tmp.command = some cmd)
    (ht : tmp.type &&& type ≠ 0) :
    message_hook_loop env rc_line ctx hdr type (fuel + 1) (some tmp) cache s =
      if pattern_selects env ctx hdr cache tmp = true then
        if (rc_line cmd s).1 ≠ 0 then
          .done ([⟨tmp, cache, s, some (cmd, (rc_line cmd s).1)⟩],
            { (rc_line cmd s).2 with current_hook_type := 0 })
        else ((hook_next tmp.addr (rc_line cmd s).2.Hooks).bind fun nx =>
          message_hook_loop env rc_line ctx hdr type fuel nx cache_zero (rc_line cmd s).2).after_eval
            ⟨tmp, cache, s, some (cmd, (rc_line cmd s).1)⟩
      else ((hook_next tmp.addr s.Hooks).bind fun nx =>
        message_hook_loop env rc_line ctx hdr type fuel nx
          (env.mutt_pattern_exec tmp.pattern 0 ctx hdr cache).2 s).after_eval
            ⟨tmp, cache, s, none⟩ := by
  rw [message_hook_loop, hc]
  simp only
  rw [if_pos ht]
  rfl

/-- What it is for a node to be one a message pass evaluates. -/
theorem message_entry_iff (type : Nat) (h : HOOK) :
    message_entry type h = true ↔ ∃ cmd, h.command = some cmd ∧ h.type &&& type ≠ 0 := by
  cases hc : h.command <;> simp [message_entry, hc]

/-- A node the pass does not evaluate, put in front of the entries ahead,
changes nothing in what the pass does. -/
theorem message_walk_skip (env : MsgEnv) (rc_line : Interp) (ctx : Option CONTEXT)
    (hdr : HEADER) (type : Nat) (x : HOOK) (hx : message_entry type x = false)
    (t : List HOOK) (cache : pattern_cache_t) (s : State) (L : List Evaluation) (final : State)
    (h : message_walk env rc_line ctx hdr type t cache s L final) :
    message_walk env rc_line ctx hdr type (x :: t) cache s L final := by
  cases L with
  | nil =>
    simp only [message_walk] at h ⊢
    refine ⟨?_, h.2⟩
    intro q hq
    rcases List.mem_cons.mp hq with rfl | hq
    · exact hx
    · exact h.1 q hq
  | cons e rest =>
    rw [message_walk] at h ⊢
    obtain ⟨skipped, post, cmd, h1, h2, h3⟩ := h
    refine ⟨x :: skipped, post, cmd, by rw [h1]; rfl, ?_, h3⟩
    intro q hq
    rcases List.mem_cons.mp hq with rfl | hq
    · exact hx
    · exact h2 q hq

/-- Whenever the loop of `mutt_message_hook` comes to an end from a node on,
what it did is a message pass in the words of the specification. -/
theorem message_hook_loop_walk (env : MsgEnv) (rc_line : Interp) (ctx : Option CONTEXT)
    (hdr : HEADER) (type : Nat) (fuel : Nat) :
    ∀ (ahead : List HOOK) (cache : pattern_cache_t) (s : State) (L : List Evaluation)
      (final : State), ahead <:+ s.Hooks → (s.Hooks.map HOOK.addr).Nodup →
      (∀ e ∈ L, distinct_after rc_line e) →
      message_hook_loop env rc_line ctx hdr type fuel ahead.head? cache s = .done (L, final) →
      message_walk env rc_line ctx hdr type ahead cache s L final := by
  induction fuel with
  | zero => intro ahead cache s L final _ _ _ h; simp [message_hook_loop] at h
  | succ n ih =>
    intro ahead cache s L final hsuf hwf hdist h
    cases ahead with
    | nil =>
      simp only [List.head?_nil, message_hook_loop, Run.done.injEq, Prod.mk.injEq] at h
      obtain ⟨rfl, rfl⟩ := h
      simp [message_walk]
    | cons x t =>
      rw [List.head?_cons] at h
      have hnext := hook_next_suffix x t s.Hooks hsuf hwf
      have hsuf_t : t <:+ s.Hooks := (List.suffix_cons x t).trans hsuf
      by_cases hme : message_entry type x = true
      · obtain ⟨cmd, hc, ht⟩ := (message_entry_iff type x).1 hme
        rw [message_hook_loop_eval env rc_line ctx hdr type n x cmd cache s hc ht] at h
        by_cases hs : pattern_selects env ctx hdr cache x = true
        · rw [if_pos hs] at h
          by_cases hr : (rc_line cmd s).1 ≠ 0
          · rw [if_pos hr] at h
            simp only [Run.done.injEq, Prod.mk.injEq] at h
            obtain ⟨rfl, rfl⟩ := h
            rw [message_walk]
            refine ⟨[], t, cmd, rfl, by simp, hc, ht, rfl, rfl, ?_⟩
            rw [if_pos hs, if_neg hr]
            exact ⟨rfl, rfl, rfl⟩
          · rw [if_neg hr] at h
            obtain ⟨q, hq, hp⟩ := after_eval_done _ _ _ h
            simp only [Prod.mk.injEq] at hp
            obtain ⟨rfl, rfl⟩ := hp
            obtain ⟨nx, hn1, hn2⟩ := bind_done _ _ _ hq
            obtain ⟨hex, rfl⟩ := hook_next_done _ _ _ hn1
            have hnd : ((rc_line cmd s).2.Hooks.map HOOK.addr).Nodup :=
              hdist _ (List.mem_cons_self _ _) (cmd, (rc_line cmd s).1) rfl
            have hw := ih (behind x.addr (rc_line cmd s).2.Hooks) cache_zero (rc_line cmd s).2
              q.1 q.2 (behind_suffix _ _) hnd
              (fun e he => hdist e (List.mem_cons_of_mem _ he)) hn2
            rw [message_walk]
            refine ⟨[], t, cmd, rfl, by simp, hc, ht, rfl, rfl, ?_⟩
            rw [if_pos hs, if_pos (not_not.mp hr)]
            exact ⟨rfl, hex, hw⟩
        · rw [if_neg hs, hnext] at h
          obtain ⟨q, hq, hp⟩ := after_eval_done _ _ _ h
          simp only [Prod.mk.injEq] at hp
          obtain ⟨rfl, rfl⟩ := hp
          have hw := ih t (env.mutt_pattern_exec x.pattern 0 ctx hdr cache).2 s q.1 q.2 hsuf_t hwf
            (fun e he => hdist e (List.mem_cons_of_mem _ he)) hq
          rw [message_walk]
          refine ⟨[], t, cmd, rfl, by simp, hc, ht, rfl, rfl, ?_⟩
          rw [if_neg hs]
          exact ⟨rfl, hw⟩
      · have hme2 : message_entry type x = false := by simpa using hme
        rw [message_hook_loop_skip env rc_line ctx hdr type n x cache s hme2, hnext] at h
        exact message_walk_skip env rc_line ctx hdr type x hme2 t cache s L final
          (ih t cache s L final hsuf_t hwf hdist h)

/-- The loop of `mutt_message_hook` over nodes it does not evaluate. -/
theorem message_hook_loop_skip_many (env : MsgEnv) (rc_line : Interp) (ctx : Option CONTEXT)
    (hdr : HEADER) (type : Nat) (cache : pattern_cache_t) (s : State)
    (hwf : (s.Hooks.map HOOK.addr).Nodup) (rest : List HOOK) (skipped : List HOOK) :
    skipped ++ rest <:+ s.Hooks → (∀ q ∈ skipped, message_entry type q = false) →
    ∀ fuel, message_hook_loop env rc_line ctx hdr type (fuel + skipped.length)
        (skipped ++ rest).head? cache s =
      message_hook_loop env rc_line ctx hdr type fuel rest.head? cache s := by
  induction skipped with
  | nil => intro _ _ fuel; rfl
  | cons x sk ih =>
    intro hsuf hall fuel
    have hx := hall x (List.mem_cons_self _ _)
    rw [List.cons_append, List.head?_cons, List.length_cons, ← Nat.add_assoc,
      message_hook_loop_skip env rc_line ctx hdr type _ x cache s hx,
      hook_next_suffix x (sk ++ rest) s.Hooks hsuf hwf]
    exact ih ((List.suffix_cons x _).trans hsuf) (fun q hq => hall q (List.mem_cons_of_mem _ hq))
      fuel

/-- Whatever is a message pass in the words of the specification, the loop of
`mutt_message_hook` does, given enough fuel. -/
theorem message_walk_run (env : MsgEnv) (rc_line : Interp) (ctx : Option CONTEXT)
    (hdr : HEADER) (type : Nat) (L : List Evaluation) :
    ∀ (ahead : List HOOK) (cache : pattern_cache_t) (s : State) (final : State),
      ahead <:+ s.Hooks → (s.Hooks.map HOOK.addr).Nodup →
      (∀ e ∈ L, distinct_after rc_line e) →
      message_walk env rc_line ctx hdr type ahead cache s L final →
      ∃ n, ∀ fuel, n ≤ fuel →
        message_hook_loop env rc_line ctx hdr type fuel ahead.head? cache s = .done (L, final) := by
  induction L with
  | nil =>
    intro ahead cache s final hsuf hwf _ hw
    simp only [message_walk] at hw
    obtain ⟨hall, rfl⟩ := hw
    refine ⟨ahead.length + 1, fun fuel hf => ?_⟩
    obtain ⟨k, rfl⟩ : ∃ k, fuel = (k + 1) + ahead.length := ⟨fuel - ahead.length - 1, by omega⟩
    have := message_hook_loop_skip_many env rc_line ctx hdr type cache s hwf [] ahead
      (by simpa using hsuf) hall (k + 1)
    rw [List.append_nil] at this
    rw [this]
    rfl
  | cons e rest ih =>
    intro ahead cache s final hsuf hwf hdist hw
    rw [message_walk] at hw
    obtain ⟨skipped, post, cmd, rfl, hall, hc, ht, hcache, hst, hw⟩ := hw
    have hsuf2 : e.hook :: post <:+ s.Hooks := (List.suffix_append skipped _).trans hsuf
    have hskip := message_hook_loop_skip_many env rc_line ctx hdr type cache s hwf
      (e.hook :: post) skipped hsuf hall
    have hev : e = ⟨e.hook, cache, s, e.executed⟩ := by
      cases e
      simp only at hcache hst
      rw [hcache, hst]
    by_cases hs : pattern_selects env ctx hdr cache e.hook = true
    · rw [if_pos hs] at hw
      obtain ⟨hex, hw⟩ := hw
      by_cases hr : (rc_line cmd s).1 = 0
      · rw [if_pos hr] at hw
        obtain ⟨hin, hw⟩ := hw
        have hnd : ((rc_line cmd s).2.Hooks.map HOOK.addr).Nodup := by
          have := hdist e (List.mem_cons_self _ _) (cmd, (rc_line cmd s).1) hex
          rw [hst] at this
          exact this
        obtain ⟨n, hn⟩ := ih _ cache_zero (rc_line cmd s).2 final (behind_suffix _ _) hnd
          (fun e1 he => hdist e1 (List.mem_cons_of_mem _ he)) hw
        refine ⟨n + 1 + skipped.length, fun fuel hf => ?_⟩
        obtain ⟨k, rfl⟩ : ∃ k, fuel = (k + 1) + skipped.length :=
          ⟨fuel - skipped.length - 1, by omega⟩
        rw [hskip, List.head?_cons,
          message_hook_loop_eval env rc_line ctx hdr type k e.hook cmd cache s hc ht, if_pos hs,
          if_neg (not_not.mpr hr), hook_next_behind _ _ hin]
        simp only [Run.bind]
        rw [hn k (by omega)]
        simp only [Run.after_eval, Run.bind]
        rw [hev]
        simp only [hex]
      · rw [if_neg hr] at hw
        obtain ⟨rfl, rfl⟩ := hw
        refine ⟨1 + skipped.length, fun fuel hf => ?_⟩
        obtain ⟨k, rfl⟩ : ∃ k, fuel = (k + 1) + skipped.length :=
          ⟨fuel - skipped.length - 1, by omega⟩
        rw [hskip, List.head?_cons,
          message_hook_loop_eval env rc_line ctx hdr type k e.hook cmd cache s hc ht, if_pos hs,
          if_pos hr]
        rw [hev]
        simp only [hex]
    · rw [if_neg hs] at hw
      obtain ⟨hex, hw⟩ := hw
      obtain ⟨n, hn⟩ := ih post _ s final ((List.suffix_cons _ _).trans hsuf2) hwf
        (fun e1 he => hdist e1 (List.mem_cons_of_mem _ he)) hw
      refine ⟨n + 1 + skipped.length, fun fuel hf => ?_⟩
      obtain ⟨k, rfl⟩ : ∃ k, fuel = (k + 1) + skipped.length :=
        ⟨fuel - skipped.length - 1, by omega⟩
      rw [hskip, List.head?_cons,
        message_hook_loop_eval env rc_line ctx hdr type k e.hook cmd cache s hc ht, if_neg hs,
        hook_next_suffix e.hook post s.Hooks hsuf2 hwf]
      simp only [Run.bind]
      rw [hn k (by omega)]
      simp only [Run.after_eval, Run.bind]
      rw [hev]
      simp only [hex]

/-- The loop of `mutt_message_hook` from a node on comes to an end when the
interpreter leaves the registry as it is and the fuel exceeds the number of
nodes ahead. -/
theorem message_hook_loop_static (env : MsgEnv) (rc_line : Interp) (ctx : Option CONTEXT)
    (hdr : HEADER) (type : Nat) (hfix : ∀ c s, (rc_line c s).2.Hooks = s.Hooks)
    (rest : List HOOK) : ∀ (st : State) (fuel : Nat) (cache : pattern_cache_t),
    rest <:+ st.Hooks → (st.Hooks.map HOOK.addr).Nodup → rest.length < fuel →
    ∃ p, message_hook_loop env rc_line ctx hdr type fuel rest.head? cache st = .done p := by
  induction rest with
  | nil =>
    intro st fuel cache _ _ hf
    obtain ⟨k, rfl⟩ : ∃ k, fuel = k + 1 := ⟨fuel - 1, by omega⟩
    exact ⟨_, rfl⟩
  | cons hook rest ih =>
    intro st fuel cache hsuf hwf hf
    obtain ⟨k, rfl⟩ : ∃ k, fuel = k + 1 := ⟨fuel - 1, by omega⟩
    have hlen : rest.length < k := by simpa using hf
    have hsuf_t : rest <:+ st.Hooks := (List.suffix_cons hook rest).trans hsuf
    have hnext := hook_next_suffix hook rest st.Hooks hsuf hwf
    rw [List.head?_cons]
    by_cases hme : message_entry type hook = true
    · obtain ⟨cmd, hc, ht⟩ := (message_entry_iff type hook).1 hme
      rw [message_hook_loop_eval env rc_line ctx hdr type k hook cmd cache st hc ht]
      by_cases hs : pattern_selects env ctx hdr cache hook = true
      · rw [if_pos hs]
        by_cases hr : (rc_line cmd st).1 ≠ 0
        · rw [if_pos hr]; exact ⟨_, rfl⟩
        · rw [if_neg hr, hfix cmd st, hnext]
          obtain ⟨p, hp⟩ := ih (rc_line cmd st).2 k cache_zero (by rw [hfix]; exact hsuf_t)
            (by rw [hfix]; exact hwf) hlen
          simp only [Run.bind]
          rw [hp]
          exact ⟨_, rfl⟩
      · rw [if_neg hs, hnext]
        obtain ⟨p, hp⟩ := ih st k (env.mutt_pattern_exec hook.pattern 0 ctx hdr cache).2 hsuf_t
          hwf hlen
        simp only [Run.bind]
        rw [hp]
        exact ⟨_, rfl⟩
    · have hme2 : message_entry type hook = false := by simpa using hme
      rw [message_hook_loop_skip env rc_line ctx hdr type k hook cache st hme2, hnext]
      exact ih st k cache hsuf_t hwf hlen

/-- Whenever the loop of `mutt_message_hook` comes to an end, `current_hook_type`
is 0; the first evaluation happened in the static variables the loop was
entered with; and when the interpreter leaves `current_hook_type` as it finds
it, every evaluation saw the value the loop was entered with. -/
theorem message_hook_loop_marker (env : MsgEnv) (rc_line : Interp) (ctx : Option CONTEXT)
    (hdr : HEADER) (type : Nat) (fuel : Nat) :
    ∀ (tmp : Option HOOK) (cache : pattern_cache_t) (st : State) (L : List Evaluation)
      (final : State),
      message_hook_loop env rc_line ctx hdr type fuel tmp cache st = .done (L, final) →
      final.current_hook_type = 0 ∧ (∀ e, L.head? = some e → e.st = st) ∧
      ((∀ c s, (rc_line c s).2.current_hook_type = s.current_hook_type) →
        ∀ e ∈ L, e.st.current_hook_type = st.current_hook_type) := by
  induction fuel with
  | zero => intro tmp cache st L final h; simp [message_hook_loop] at h
  | succ n ih =>
    intro tmp cache st L final h
    cases tmp with
    | none =>
      simp only [message_hook_loop, Run.done.injEq, Prod.mk.injEq] at h
      obtain ⟨rfl, rfl⟩ := h
      exact ⟨rfl, by simp, by simp⟩
    | some hook =>
      have hcont : ∀ (cache1 : pattern_cache_t) (st1 : State) (L1 : List Evaluation)
          (final1 : State),
          ((hook_next hook.addr st1.Hooks).bind fun nx =>
            message_hook_loop env rc_line ctx hdr type n nx cache1 st1) = .done (L1, final1) →
          final1.current_hook_type = 0 ∧ (∀ e, L1.head? = some e → e.st = st1) ∧
          ((∀ c s, (rc_line c s).2.current_hook_type = s.current_hook_type) →
            ∀ e ∈ L1, e.st.current_hook_type = st1.current_hook_type) := by
        intro cache1 st1 L1 final1 hq
        obtain ⟨nx, _, h2⟩ := bind_done _ _ _ hq
        exact ih nx cache1 st1 L1 final1 h2
      by_cases hme : message_entry type hook = true
      · obtain ⟨cmd, hc, ht⟩ := (message_entry_iff type hook).1 hme
        rw [message_hook_loop_eval env rc_line ctx hdr type n hook cmd cache st hc ht] at h
        by_cases hs : pattern_selects env ctx hdr cache hook = true
        · rw [if_pos hs] at h
          by_cases hr : (rc_line cmd st).1 ≠ 0
          · rw [if_pos hr] at h
            simp only [Run.done.injEq, Prod.mk.injEq] at h
            obtain ⟨rfl, rfl⟩ := h
            refine ⟨rfl, ?_, ?_⟩
            · intro e he
              simp only [List.head?_cons, Option.some.injEq] at he
              subst he
              rfl
            · intro _ e he
              simp only [List.mem_singleton] at he
              subst he
              rfl
          · rw [if_neg hr] at h
            obtain ⟨q, hq, hp⟩ := after_eval_done _ _ _ h
            simp only [Prod.mk.injEq] at hp
            obtain ⟨rfl, rfl⟩ := hp
            obtain ⟨h1, _, h3⟩ := hcont cache_zero (rc_line cmd st).2 q.1 q.2 hq
            refine ⟨h1, ?_, ?_⟩
            · intro e he
              simp only [List.head?_cons, Option.some.injEq] at he
              subst he
              rfl
            · intro hkeep e he
              rcases List.mem_cons.mp he with rfl | he
              · rfl
              · rw [h3 hkeep e he, hkeep]
        · rw [if_neg hs] at h
          obtain ⟨q, hq, hp⟩ := after_eval_done _ _ _ h
          simp only [Prod.mk.injEq] at hp
          obtain ⟨rfl, rfl⟩ := hp
          obtain ⟨h1, _, h3⟩ := hcont _ st q.1 q.2 hq
          refine ⟨h1, ?_, ?_⟩
          · intro e he
            simp only [List.head?_cons, Option.some.injEq] at he
            subst he
            rfl
          · intro hkeep e he
            rcases List.mem_cons.mp he with rfl | he
            · rfl
            · exact h3 hkeep e he
      · have hme2 : message_entry type hook = false := by simpa using hme
        rw [message_hook_loop_skip env rc_line ctx hdr type n hook cache st hme2] at h
        obtain ⟨h1, _, h3⟩ := hcont cache st L final h
        refine ⟨h1, ?_, h3⟩
        intro e he
        -- the first evaluation comes later, in the same static variables
        obtain ⟨nx, _, h2⟩ := bind_done _ _ _ h
        exact (ih nx cache st L final h2).2.1 e he

/-- The loop of `mutt_folder_hook` over nodes it does not select. -/
theorem folder_hook_loop_skip_many (env : Env) (rc_line : Interp) (path : cstr) (s : State)
    (hwf : (s.Hooks.map HOOK.addr).Nodup) (rest : List HOOK) (skipped : List HOOK) :
    skipped ++ rest <:+ s.Hooks → (∀ q ∈ skipped, folder_selects env path q = false) →
    ∀ fuel, folder_hook_loop env rc_line path (fuel + skipped.length) (skipped ++ rest).head? s =
      folder_hook_loop env rc_line path fuel rest.head? s := by
  induction skipped with
  | nil => intro _ _ fuel; rfl
  | cons x sk ih =>
    intro hsuf hall fuel
    have hx := hall x (List.mem_cons_self _ _)
    rw [List.cons_append, List.head?_cons, List.length_cons, ← Nat.add_assoc,
      folder_hook_loop_skip env rc_line path _ x s hx,
      hook_next_suffix x (sk ++ rest) s.Hooks hsuf hwf]
    exact ih ((List.suffix_cons x _).trans hsuf) (fun q hq => hall q (List.mem_cons_of_mem _ hq))
      fuel

/-- In a list whose nodes have distinct addresses, the nodes behind the
address of a node are the nodes behind the node. -/
theorem behind_split (pre post : List HOOK) (h : HOOK)
    (hwf : ((pre ++ h :: post).map HOOK.addr).Nodup) :
    behind h.addr (pre ++ h :: post) = post := by
  induction pre with
  | nil => simp [behind]
  | cons x pre ih =>
    simp only [List.cons_append, List.map_cons, List.nodup_cons] at hwf
    have hne : x.addr ≠ h.addr := by
      intro he
      apply hwf.1
      rw [he]
      simp
    simp only [List.cons_append, behind, if_neg hne]
    exact ih hwf.2

/-- A message pass whose commands leave the entries with a command and a type
that intersects the mask as they are evaluates the first of these entries
that lie ahead, all of them when no command fails. -/
theorem message_walk_entries (env : MsgEnv) (rc_line : Interp) (ctx : Option CONTEXT)
    (hdr : HEADER) (type : Nat) (L : List Evaluation) :
    ∀ (ahead : List HOOK) (cache : pattern_cache_t) (s : State) (final : State),
      ahead <:+ s.Hooks → (∀ e ∈ L, distinct_after rc_line e) →
      (∀ e ∈ L, ∀ x ∈ e.executed, x.2 = 0 →
        (rc_line x.1 e.st).2.Hooks.filter (message_entry type) =
          e.st.Hooks.filter (message_entry type)) →
      message_walk env rc_line ctx hdr type ahead cache s L final →
      L.map Evaluation.hook <+: ahead.filter (message_entry type) ∧
      ((∀ e ∈ L, ∀ x ∈ e.executed, x.2 = 0) →
        L.map Evaluation.hook = ahead.filter (message_entry type)) := by
  induction L with
  | nil =>
    intro ahead cache s final _ _ _ hw
    simp only [message_walk] at hw
    refine ⟨by simp, fun _ => ?_⟩
    simp only [List.map_nil]
    exact (List.filter_eq_nil_iff.2 (fun q hq => by simp [hw.1 q hq])).symm
  | cons e rest ih =>
    intro ahead cache s final hsuf hdist hkeep hw
    rw [message_walk] at hw
    obtain ⟨skipped, post, cmd, rfl, hall, hc, ht, hcache, hst, hw⟩ := hw
    have hme : message_entry type e.hook = true := (message_entry_iff type e.hook).2 ⟨cmd, hc, ht⟩
    have hfil : (skipped ++ e.hook :: post).filter (message_entry type) =
        e.hook :: post.filter (message_entry type) := by
      rw [List.filter_append, List.filter_eq_nil_iff.2 (fun q hq => by simp [hall q hq]),
        List.filter_cons_of_pos hme]
      rfl
    rw [hfil]
    have hsuf2 : post <:+ s.Hooks :=
      ((List.suffix_cons _ _).trans (List.suffix_append skipped _)).trans hsuf
    by_cases hs : pattern_selects env ctx hdr cache e.hook = true
    · rw [if_pos hs] at hw
      obtain ⟨hex, hw⟩ := hw
      by_cases hr : (rc_line cmd s).1 = 0
      · rw [if_pos hr] at hw
        obtain ⟨_, hw⟩ := hw
        have hnd : ((rc_line cmd s).2.Hooks.map HOOK.addr).Nodup := by
          have := hdist e (List.mem_cons_self _ _) (cmd, (rc_line cmd s).1) hex
          rw [hst] at this
          exact this
        have hk : (rc_line cmd s).2.Hooks.filter (message_entry type) =
            s.Hooks.filter (message_entry type) := by
          have := hkeep e (List.mem_cons_self _ _) (cmd, (rc_line cmd s).1) hex hr
          rw [hst] at this
          exact this
        -- the node is still in the registry, with the same entries behind it
        obtain ⟨pre, hpre⟩ := hsuf
        have hmem : e.hook ∈ (rc_line cmd s).2.Hooks := by
          have : e.hook ∈ (rc_line cmd s).2.Hooks.filter (message_entry type) := by
            rw [hk, ← hpre]; simp [hme]
          exact (List.mem_filter.1 this).1
        obtain ⟨pre2, post2, hs2⟩ := List.append_of_mem hmem
        have hb : behind e.hook.addr (rc_line cmd s).2.Hooks = post2 := by
          rw [hs2]
          exact behind_split pre2 post2 e.hook (hs2 ▸ hnd)
        have hfilt : (pre2.filter (message_entry type)) ++
            e.hook :: post2.filter (message_entry type) =
            ((pre ++ skipped).filter (message_entry type)) ++
              e.hook :: post.filter (message_entry type) := by
          have := hk
          rw [hs2, ← hpre, ← List.append_assoc, List.filter_append, List.filter_append,
            List.filter_cons_of_pos hme, List.filter_cons_of_pos hme] at this
          exact this
        have hnd2 : ((pre2.filter (message_entry type) ++
            e.hook :: post2.filter (message_entry type)).map HOOK.addr).Nodup := by
          have hsub : (pre2.filter (message_entry type) ++
              e.hook :: post2.filter (message_entry type)).Sublist (rc_line cmd s).2.Hooks := by
            rw [hs2]
            exact List.Sublist.append (List.filter_sublist _)
              (List.Sublist.cons₂ _ (List.filter_sublist _))
          exact hnd.sublist (hsub.map _)
        have hpost : post2.filter (message_entry type) = post.filter (message_entry type) :=
          (split_unique _ _ _ _ _ hnd2 hfilt).2
        obtain ⟨i1, i2⟩ := ih _ cache_zero (rc_line cmd s).2 final (behind_suffix _ _)
          (fun e1 he => hdist e1 (List.mem_cons_of_mem _ he))
          (fun e1 he => hkeep e1 (List.mem_cons_of_mem _ he)) hw
        rw [hb, hpost] at i1 i2
        refine ⟨by simpa [List.prefix_cons_inj] using i1, fun hok => ?_⟩
        simp only [List.map_cons, List.cons.injEq, true_and]
        exact i2 (fun e1 he => hok e1 (List.mem_cons_of_mem _ he))
      · rw [if_neg hr] at hw
        obtain ⟨rfl, _⟩ := hw
        refine ⟨by simp [List.prefix_cons_inj], fun hok => ?_⟩
        exact absurd (hok e (List.mem_cons_self _ _) (cmd, (rc_line cmd s).1) hex) hr
    · rw [if_neg hs] at hw
      obtain ⟨_, hw⟩ := hw
      obtain ⟨i1, i2⟩ := ih post _ s final hsuf2
        (fun e1 he => hdist e1 (List.mem_cons_of_mem _ he))
        (fun e1 he => hkeep e1 (List.mem_cons_of_mem _ he)) hw
      refine ⟨by simpa [List.prefix_cons_inj] using i1, fun hok => ?_⟩
      simp only [List.map_cons, List.cons.injEq, true_and]
      exact i2 (fun e1 he => hok e1 (List.mem_cons_of_mem _ he))

/-- C17.  Message-context dispatch.  For every registry (nodes at distinct
addresses), message context, mask and interpreter, a pass of
`mutt_message_hook` that returns the evaluations `L` and the static variables
`final` is a message pass in the words of the specification (`message_walk`),
started on the whole registry with the empty cache and with
`current_hook_type` set to the mask; and whatever is such a pass,
`mutt_message_hook` returns, given enough fuel.  So the pass evaluates the
entries that have a command and a type that intersects the mask, one after the
other in the order of the registry as it is when the pass moves on; it hands
the command of an evaluated entry to the interpreter exactly when "the pattern
holds" XOR negate is true, in the static variables the executions before it
left, and it stops right after the first command whose execution fails
(return code not 0).  The first evaluation gets the empty cache; the
evaluation that follows a successful execution gets the empty cache; an
evaluation that follows one without execution gets the cache that one left.
The nodes are taken to lie at distinct addresses after each command executed,
as live nodes do.  When the commands executed leave the entries with a command
and a type that intersects the mask as they are, the entries evaluated are
those of the registry the pass started on, in registry order, up to the one
whose command failed, and all of them when no command failed.  When the
interpreter leaves the registry as it is, the pass returns once the fuel
exceeds the length of the registry. -/
theorem C17_message_dispatch (env : MsgEnv) (rc_line : Interp) (ctx : Option CONTEXT)
    (hdr : HEADER) (type : Nat) (st : State) (L : List Evaluation) (final : State)
    (hwf : (st.Hooks.map HOOK.addr).Nodup) (hdist : ∀ e ∈ L, distinct_after rc_line e) :
    (∀ fuel, mutt_message_hook env rc_line fuel ctx hdr type st = .done (L, final) →
      message_walk env rc_line ctx hdr type st.Hooks cache_zero
        { st with current_hook_type := type } L final) ∧
    (message_walk env rc_line ctx hdr type st.Hooks cache_zero
        { st with current_hook_type := type } L final →
      ∃ n, ∀ fuel, n ≤ fuel →
        mutt_message_hook env rc_line fuel ctx hdr type st = .done (L, final)) ∧
    (∀ fuel, mutt_message_hook env rc_line fuel ctx hdr type st = .done (L, final) →
      (∀ e ∈ L, ∀ x ∈ e.executed, x.2 = 0 →
        (rc_line x.1 e.st).2.Hooks.filter (message_entry type) =
          e.st.Hooks.filter (message_entry type)) →
      L.map Evaluation.hook <+: st.Hooks.filter (message_entry type) ∧
      ((∀ e ∈ L, ∀ x ∈ e.executed, x.2 = 0) →
        L.map Evaluation.hook = st.Hooks.filter (message_entry type))) ∧
    ((∀ c s, (rc_line c s).2.Hooks = s.Hooks) → ∀ fuel, st.Hooks.length < fuel →
      ∃ p, mutt_message_hook env rc_line fuel ctx hdr type st = .done p) := by
  refine ⟨fun fuel h => ?_, fun hw => ?_, fun fuel h hkeep => ?_, fun hfix fuel hf => ?_⟩
  · exact message_hook_loop_walk env rc_line ctx hdr type fuel st.Hooks cache_zero
      { st with current_hook_type := type } L final (List.suffix_refl _) hwf hdist h
  · exact message_walk_run env rc_line ctx hdr type L st.Hooks cache_zero
      { st with current_hook_type := type } final (List.suffix_refl _) hwf hdist hw
  · exact message_walk_entries env rc_line ctx hdr type L st.Hooks cache_zero
      { st with current_hook_type := type } final (List.suffix_refl _) hdist hkeep
      (message_hook_loop_walk env rc_line ctx hdr type fuel st.Hooks cache_zero
        { st with current_hook_type := type } L final (List.suffix_refl _) hwf hdist h)
  · exact message_hook_loop_static env rc_line ctx hdr type hfix st.Hooks
      { st with current_hook_type := type } fuel cache_zero (List.suffix_refl _) hwf hf

/-- C17 at a send-hook pass for a message from `boss@z`, over the send-hooks
`friend` (command `A`) and `boss` (command `send-hook boss B`), with the sample
interpreter.  The first hook is not selected and its evaluation leaves a note
in the cache, which the second evaluation is handed; the second hook is
selected, and its command registers a third send-hook, for `boss` with command
`B`; the pass goes on in the registry as that command left it, so the third
evaluation is of the new entry, from the empty cache, and `B` is executed. -/
theorem C17_message_dispatch_witness :
    ((Sample.configure ["send-hook friend A", "send-hook boss send-hook boss B"]
      Sample.start).Hooks.map HOOK.addr).Nodup ∧
    mutt_message_hook Sample.msg_env (Sample.rc_line 1) 8 none
        (Sample.message "boss@z" "friend@y") 4
        (Sample.configure ["send-hook friend A", "send-hook boss send-hook boss B"]
          Sample.start) =
      .done ([⟨⟨0, 4, ⟨some "friend".toList, none, false⟩, some ['A'], some ⟨"friend".toList⟩⟩,
            ⟨[]⟩,
            { Sample.configure ["send-hook friend A", "send-hook boss send-hook boss B"]
                Sample.start with current_hook_type := 4 },
            none⟩,
          ⟨⟨1, 4, ⟨some "boss".toList, none, false⟩, some "send-hook boss B".toList,
              some ⟨"boss".toList⟩⟩,
            ⟨[1]⟩,
            { Sample.configure ["send-hook friend A", "send-hook boss send-hook boss B"]
                Sample.start with current_hook_type := 4 },
            some ("send-hook boss B".toList, 0)⟩,
          ⟨⟨2, 4, ⟨some "boss".toList, none, false⟩, some ['B'], some ⟨"boss".toList⟩⟩,
            ⟨[]⟩,
            { Sample.configure ["send-hook friend A", "send-hook boss send-hook boss B",
                "send-hook boss B"] Sample.start with current_hook_type := 4 },
            some (['B'], 0)⟩],
        Sample.configure ["send-hook friend A", "send-hook boss send-hook boss B",
          "send-hook boss B"] Sample.start) ∧
    message_walk Sample.msg_env (Sample.rc_line 1) none (Sample.message "boss@z" "friend@y") 4
      (Sample.configure ["send-hook friend A", "send-hook boss send-hook boss B"]
        Sample.start).Hooks cache_zero
      { Sample.configure ["send-hook friend A", "send-hook boss send-hook boss B"]
          Sample.start with current_hook_type := 4 }
      [⟨⟨0, 4, ⟨some "friend".toList, none, false⟩, some ['A'], some ⟨"friend".toList⟩⟩,
          ⟨[]⟩,
          { Sample.configure ["send-hook friend A", "send-hook boss send-hook boss B"]
              Sample.start with current_hook_type := 4 },
          none⟩,
        ⟨⟨1, 4, ⟨some "boss".toList, none, false⟩, some "send-hook boss B".toList,
            some ⟨"boss".toList⟩⟩,
          ⟨[1]⟩,
          { Sample.configure ["send-hook friend A", "send-hook boss send-hook boss B"]
              Sample.start with current_hook_type := 4 },
          some ("send-hook boss B".toList, 0)⟩,
        ⟨⟨2, 4, ⟨some "boss".toList, none, false⟩, some ['B'], some ⟨"boss".toList⟩⟩,
          ⟨[]⟩,
          { Sample.configure ["send-hook friend A", "send-hook boss send-hook boss B",
              "send-hook boss B"] Sample.start with current_hook_type := 4 },
          some (['B'], 0)⟩]
      (Sample.configure ["send-hook friend A", "send-hook boss send-hook boss B",
        "send-hook boss B"] Sample.start) := by
  have hrun : mutt_message_hook Sample.msg_env (Sample.rc_line 1) 8 none
        (Sample.message "boss@z" "friend@y") 4
        (Sample.configure ["send-hook friend A", "send-hook boss send-hook boss B"]
          Sample.start) =
      .done ([⟨⟨0, 4, ⟨some "friend".toList, none, false⟩, some ['A'], some ⟨"friend".toList⟩⟩,
            ⟨[]⟩,
            { Sample.configure ["send-hook friend A", "send-hook boss send-hook boss B"]
                Sample.start with current_hook_type := 4 },
            none⟩,
          ⟨⟨1, 4, ⟨some "boss".toList, none, false⟩, some "send-hook boss B".toList,
              some ⟨"boss".toList⟩⟩,
            ⟨[1]⟩,
            { Sample.configure ["send-hook friend A", "send-hook boss send-hook boss B"]
                Sample.start with current_hook_type := 4 },
            some ("send-hook boss B".toList, 0)⟩,
          ⟨⟨2, 4, ⟨some "boss".toList, none, false⟩, some ['B'], some ⟨"boss".toList⟩⟩,
            ⟨[]⟩,
            { Sample.configure ["send-hook friend A", "send-hook boss send-hook boss B",
                "send-hook boss B"] Sample.start with current_hook_type := 4 },
            some (['B'], 0)⟩],
        Sample.configure ["send-hook friend A", "send-hook boss send-hook boss B",
          "send-hook boss B"] Sample.start) := by decide
  have hwf : ((Sample.configure ["send-hook friend A", "send-hook boss send-hook boss B"]
      Sample.start).Hooks.map HOOK.addr).Nodup := by decide
  refine ⟨hwf, hrun, ?_⟩
  refine (C17_message_dispatch Sample.msg_env (Sample.rc_line 1) none
    (Sample.message "boss@z" "friend@y") 4 _ _ _ hwf ?_).1 8 hrun
  intro e he x hx
  simp only [List.mem_cons, List.mem_singleton, List.not_mem_nil, or_false] at he
  rcases he with rfl | rfl | rfl
  · simp at hx
  · simp only [Option.mem_def, Option.some.injEq] at hx
    subst hx
    decide
  · simp only [Option.mem_def, Option.some.injEq] at hx
    subst hx
    decide

/-- C18.  The active-hook marker is set for the pass and cleared on every exit
path, for every registry, subject and interpreter.

Whenever `mutt_folder_hook` or `mutt_message_hook` returns, `current_hook_type`
is 0.  In a pass of `mutt_message_hook` the first evaluation happens in the
static variables of the call with `current_hook_type` set to the dispatched
type, and so does every evaluation when the interpreter leaves
`current_hook_type` as it finds it.

With the nodes of the registry at distinct addresses and more fuel than nodes:
when no entry is selected (folder) or evaluated (message), the scan runs to the
end of the registry and the function returns the static variables of the call
with `current_hook_type` 0.  The first command a folder-hook pass hands to the
interpreter is the command of the first selected entry, executed in the static
variables of the call with `current_hook_type` set to `MUTT_FOLDERHOOK`; when
that execution fails the pass returns at once, with `current_hook_type` 0 in
the static variables the interpreter left.  Likewise the first evaluation of a
message pass is of the first entry that has a command and a type that
intersects the mask, with the empty cache and `current_hook_type` set to the
dispatched type; when the entry is selected its command is executed in these
static variables, and when that execution fails the pass returns at once, with
`current_hook_type` 0 in the static variables the interpreter left.  A
folder-hook pass whose commands leave the folder entries of the registry alone
runs to the end of the registry or to the first failing command: every command
is executed in the static variables the one before it left, the first with
`current_hook_type` set to `MUTT_FOLDERHOOK`, and the pass returns with
`current_hook_type` 0; a message pass returns when the interpreter leaves the
registry as it is. -/
theorem C18_marker_cleared (env : MsgEnv) (rc_line : Interp) (path : cstr)
    (ctx : Option CONTEXT) (hdr : HEADER) (type : Nat) (st : State) :
    (∀ fuel p, mutt_folder_hook env.toEnv rc_line fuel path st = .done p →
      p.2.current_hook_type = 0) ∧
    (∀ fuel L final, mutt_message_hook env rc_line fuel ctx hdr type st = .done (L, final) →
      final.current_hook_type = 0 ∧
      (∀ e, L.head? = some e → e.st = { st with current_hook_type := type }) ∧
      ((∀ c s, (rc_line c s).2.current_hook_type = s.current_hook_type) →
        ∀ e ∈ L, e.st.current_hook_type = type)) ∧
    ((st.Hooks.map HOOK.addr).Nodup → ∀ fuel, st.Hooks.length < fuel →
      ((∀ q ∈ st.Hooks, folder_selects env.toEnv path q = false) →
        mutt_folder_hook env.toEnv rc_line fuel path st =
          .done ([], { st with current_hook_type := 0 })) ∧
      ((∀ q ∈ st.Hooks, message_entry type q = false) →
        mutt_message_hook env rc_line fuel ctx hdr type st =
          .done ([], { st with current_hook_type := 0 })) ∧
      (∀ pre h post cmd, st.Hooks = pre ++ h :: post →
        (∀ q ∈ pre, folder_selects env.toEnv path q = false) →
        folder_selects env.toEnv path h = true → h.command = some cmd →
        ((rc_line cmd { st with current_hook_type := env.MUTT_FOLDERHOOK }).1 = -1 →
          mutt_folder_hook env.toEnv rc_line fuel path st =
            .done ([cmd], { (rc_line cmd { st with current_hook_type := env.MUTT_FOLDERHOOK }).2
              with current_hook_type := 0 })) ∧
        (∀ p, mutt_folder_hook env.toEnv rc_line fuel path st = .done p →
          ∃ rest, p.1 = cmd :: rest)) ∧
      (∀ pre h post cmd, st.Hooks = pre ++ h :: post →
        (∀ q ∈ pre, message_entry type q = false) →
        h.command = some cmd → h.type &&& type ≠ 0 →
        (∀ L final, mutt_message_hook env rc_line fuel ctx hdr type st = .done (L, final) →
          ∃ e rest, L = e :: rest ∧ e.hook = h ∧ e.cache = cache_zero ∧
            e.st = { st with current_hook_type := type } ∧
            (pattern_selects env ctx hdr cache_zero h = true →
              e.executed =
                some (cmd, (rc_line cmd { st with current_hook_type := type }).1)) ∧
            (pattern_selects env ctx hdr cache_zero h = false → e.executed = none)) ∧
        (pattern_selects env ctx hdr cache_zero h = true →
          (rc_line cmd { st with current_hook_type := type }).1 ≠ 0 →
          mutt_message_hook env rc_line fuel ctx hdr type st =
            .done ([⟨h, cache_zero, { st with current_hook_type := type },
                some (cmd, (rc_line cmd { st with current_hook_type := type }).1)⟩],
              { (rc_line cmd { st with current_hook_type := type }).2 with
                current_hook_type := 0 }))) ∧
      (folder_entries_kept env.toEnv rc_line
          (selected_commands (folder_selects env.toEnv path) st.Hooks)
          { st with current_hook_type := env.MUTT_FOLDERHOOK } →
        ∃ n, ∀ fuel2, n ≤ fuel2 → mutt_folder_hook env.toEnv rc_line fuel2 path st =
          .done ((run_commands rc_line (selected_commands (folder_selects env.toEnv path) st.Hooks)
              { st with current_hook_type := env.MUTT_FOLDERHOOK }).1,
            { (run_commands rc_line
                (selected_commands (folder_selects env.toEnv path) st.Hooks)
                { st with current_hook_type := env.MUTT_FOLDERHOOK }).2 with
              current_hook_type := 0 })) ∧
      ((∀ c s, (rc_line c s).2.Hooks = s.Hooks) →
        ∃ p, mutt_message_hook env rc_line fuel ctx hdr type st = .done p)) := by
  refine ⟨fun fuel p h => folder_hook_loop_marker env.toEnv rc_line path fuel _ _ p h,
    fun fuel L final h => ?_, fun hwf fuel hf => ⟨?_, ?_, ?_, ?_, ?_, ?_⟩⟩
  · exact message_hook_loop_marker env rc_line ctx hdr type fuel _ cache_zero
      { st with current_hook_type := type } L final h
  · intro hall
    obtain ⟨k, rfl⟩ : ∃ k, fuel = (k + 1) + st.Hooks.length :=
      ⟨fuel - st.Hooks.length - 1, by omega⟩
    have := folder_hook_loop_skip_many env.toEnv rc_line path
      { st with current_hook_type := env.MUTT_FOLDERHOOK } hwf [] st.Hooks
      (by simp) hall (k + 1)
    rw [List.append_nil] at this
    unfold mutt_folder_hook
    rw [this]
    rfl
  · intro hall
    obtain ⟨k, rfl⟩ : ∃ k, fuel = (k + 1) + st.Hooks.length :=
      ⟨fuel - st.Hooks.length - 1, by omega⟩
    have := message_hook_loop_skip_many env rc_line ctx hdr type cache_zero
      { st with current_hook_type := type } hwf [] st.Hooks (by simp) hall (k + 1)
    rw [List.append_nil] at this
    unfold mutt_message_hook
    rw [this]
    rfl
  · intro pre h post cmd hsplit hall hsel hc
    have hlen : pre.length + 1 < fuel := by
      rw [hsplit] at hf
      simp only [List.length_append, List.length_cons] at hf
      omega
    obtain ⟨k, rfl⟩ : ∃ k, fuel = (k + 1) + pre.length := ⟨fuel - pre.length - 1, by omega⟩
    have hrun : mutt_folder_hook env.toEnv rc_line (k + 1 + pre.length) path st =
        folder_hook_loop env.toEnv rc_line path (k + 1) (some h)
          { st with current_hook_type := env.MUTT_FOLDERHOOK } := by
      unfold mutt_folder_hook
      have := folder_hook_loop_skip_many env.toEnv rc_line path
        { st with current_hook_type := env.MUTT_FOLDERHOOK } hwf (h :: post) pre
        (by rw [← hsplit]) hall (k + 1)
      rw [← hsplit] at this
      exact this
    rw [hrun, folder_hook_loop_exec env.toEnv rc_line path k h cmd _ hc hsel]
    constructor
    · intro hr
      rw [if_pos hr]
    · intro p hp
      by_cases hr : (rc_line cmd { st with current_hook_type := env.MUTT_FOLDERHOOK }).1 = -1
      · rw [if_pos hr] at hp
        simp only [Run.done.injEq] at hp
        exact ⟨[], by rw [← hp]⟩
      · rw [if_neg hr] at hp
        obtain ⟨q, _, rfl⟩ := after_done _ _ _ hp
        exact ⟨q.1, rfl⟩
  · intro pre h post cmd hsplit hall hc ht
    have hlen : pre.length + 1 < fuel := by
      rw [hsplit] at hf
      simp only [List.length_append, List.length_cons] at hf
      omega
    obtain ⟨k, rfl⟩ : ∃ k, fuel = (k + 1) + pre.length := ⟨fuel - pre.length - 1, by omega⟩
    have hrun : mutt_message_hook env rc_line (k + 1 + pre.length) ctx hdr type st =
        message_hook_loop env rc_line ctx hdr type (k + 1) (some h) cache_zero
          { st with current_hook_type := type } := by
      unfold mutt_message_hook
      have := message_hook_loop_skip_many env rc_line ctx hdr type cache_zero
        { st with current_hook_type := type } hwf (h :: post) pre
        (by rw [← hsplit]) hall (k + 1)
      rw [← hsplit] at this
      exact this
    rw [hrun, message_hook_loop_eval env rc_line ctx hdr type k h cmd cache_zero _ hc ht]
    constructor
    · intro L final hp
      by_cases hs : pattern_selects env ctx hdr cache_zero h = true
      · rw [if_pos hs] at hp
        by_cases hr : (rc_line cmd { st with current_hook_type := type }).1 ≠ 0
        · rw [if_pos hr] at hp
          simp only [Run.done.injEq, Prod.mk.injEq] at hp
          refine ⟨_, [], hp.1.symm, rfl, rfl, rfl, fun _ => rfl, fun hn => ?_⟩
          rw [hs] at hn
          exact absurd hn (by simp)
        · rw [if_neg hr] at hp
          obtain ⟨q, _, hq⟩ := after_eval_done _ _ _ hp
          simp only [Prod.mk.injEq] at hq
          refine ⟨_, q.1, hq.1, rfl, rfl, rfl, fun _ => rfl, fun hn => ?_⟩
          rw [hs] at hn
          exact absurd hn (by simp)
      · rw [if_neg hs] at hp
        obtain ⟨q, _, hq⟩ := after_eval_done _ _ _ hp
        simp only [Prod.mk.injEq] at hq
        exact ⟨_, q.1, hq.1, rfl, rfl, rfl, fun hy => absurd hy hs, fun _ => rfl⟩
    · intro hs hr
      rw [if_pos hs, if_pos hr]
  · intro hkeep
    obtain ⟨n, hn⟩ := folder_hook_loop_kept env.toEnv rc_line path
      (st.Hooks.filter (folder_entry env.toEnv)) st.Hooks []
      { st with current_hook_type := env.MUTT_FOLDERHOOK } rfl hwf rfl
      (by rw [selected_commands_folder_entries]; exact hkeep)
    rw [selected_commands_folder_entries] at hn
    exact ⟨n, fun fuel2 hf2 => hn fuel2 hf2⟩
  · intro hfix
    exact message_hook_loop_static env rc_line ctx hdr type hfix st.Hooks
      { st with current_hook_type := type } fuel cache_zero (List.suffix_refl _) hwf hf

/-- C18 at a folder-hook and at a message-hook whose command is `unhook *`:
the command is executed with the marker set, so it is refused and fails, and
the pass returns at once with the marker cleared and the registry as it
was. -/
theorem C18_marker_cleared_witness :
    mutt_folder_hook Sample.env (Sample.rc_line 1) 8 (some "inbox".toList)
        (Sample.configure ["folder-hook inbox unhook *", "folder-hook inbox B"] Sample.start) =
      .done (["unhook *".toList],
        Sample.configure ["folder-hook inbox unhook *", "folder-hook inbox B"] Sample.start) ∧
    mutt_message_hook Sample.msg_env (Sample.rc_line 1) 8 none
        (Sample.message "boss@z" "friend@y") 4
        (Sample.configure ["send-hook boss unhook *", "send-hook boss B"] Sample.start) =
      .done ([⟨⟨0, 4, ⟨some "boss".toList, none, false⟩, some "unhook *".toList,
            some ⟨"boss".toList⟩⟩, ⟨[]⟩,
          { Sample.configure ["send-hook boss unhook *", "send-hook boss B"] Sample.start with
            current_hook_type := 4 }, some ("unhook *".toList, -1)⟩],
        Sample.configure ["send-hook boss unhook *", "send-hook boss B"] Sample.start) := by
  have h := (C18_marker_cleared Sample.msg_env (Sample.rc_line 1) (some "inbox".toList) none
    (Sample.message "boss@z" "friend@y") 4
    (Sample.configure ["folder-hook inbox unhook *", "folder-hook inbox B"] Sample.start)).2.2
    (by decide) 8 (by decide)
  have h1 := (h.2.2.1 [] _ _ "unhook *".toList rfl (by simp) (by decide) rfl).1 (by decide)
  have g := (C18_marker_cleared Sample.msg_env (Sample.rc_line 1) (some "inbox".toList) none
    (Sample.message "boss@z" "friend@y") 4
    (Sample.configure ["send-hook boss unhook *", "send-hook boss B"] Sample.start)).2.2
    (by decide) 8 (by decide)
  have g1 := (g.2.2.2.1 [] _ _ "unhook *".toList rfl (by simp) rfl (by decide)).2 (by decide)
    (by decide)
  exact ⟨h1, g1⟩

end Hook
